import Mathlib

/-!
# CoroRpcFrame: the length-value frame codec

A shallow embedding of `ProtocolTools` (`include/protocol.h`, `src/protocol.cpp`):
`LVProtocol::to_string`, `LVProtocol::from_string`, `parse_message_header`,
`find_complete_message`, `unpack` and `BufferHandler`.

Conventions of the embedding.

* A `std::string` is a `List Char`; every byte value is a character, so a statement
  about all character lists covers all byte strings.
* `size_t` is a natural number reduced modulo `2 ^ 64`, `int` is an integer in
  `[INT_MIN, INT_MAX]`; the conversions between them are the modular ones.
* A function that can throw returns an `Option`: `none` is the escaping exception
  (the only one that can escape here is `std::out_of_range` from `substr`).
  A `bool` function with out-parameters returns the out-parameters next to the flag.
* Sums of positions inside one string (`len_end + gap.size()`, `pos += message_end`)
  never exceed `size() + 2` and are plain sums; every sum that involves `length`, an
  `int` converted to `size_t`, is taken modulo `2 ^ 64`.
* Loops take a fuel argument; the result type `Outcome` keeps the fuel running out
  apart from a thrown exception.
-/

namespace ProtocolTools

/-- The bytes of a `std::string`. -/
abbrev Bytes := List Char

/-- Largest value of `int`. -/
def INT_MAX : Int := 2147483647

/-- Smallest value of `int`. -/
def INT_MIN : Int := -2147483648

/-- Number of values of `size_t` (a 64-bit unsigned integer). -/
def SIZE_MOD : Nat := 18446744073709551616

/-- An upper bound of `std::string::max_size()` on a 64-bit target (`PTRDIFF_MAX`):
no string is longer. -/
def max_size : Nat := 9223372036854775807

/-- Conversion `int -> size_t` (the usual arithmetic conversion in `size_t + int`). -/
def size_t_of_int (i : Int) : Nat := (i % (SIZE_MOD : Int)).toNat

/-- Conversion `size_t -> int` (as in `length = data.size()`): reduction modulo `2 ^ 32`
into the signed range, which is what C++20 prescribes and what the compilers did before. -/
def int_of_size_t (n : Nat) : Int := ((n : Int) + 2147483648) % 4294967296 - 2147483648

/-- Addition of two `size_t` values. -/
def size_t_add (a b : Nat) : Nat := (a + b) % SIZE_MOD

/-- `enum class ProtocolType`. -/
inductive ProtocolType
  | PROTOBUF
  | JSON
deriving DecidableEq, Repr

/-- `struct LVProtocol`. -/
structure LVProtocol where
  type : ProtocolType
  length : Int
  data : Bytes
  gap : Bytes
deriving DecidableEq, Repr

/-- The separator `"\r\n"`: the default of `LVProtocol::gap` and the constant of
`parse_message_header` and `find_complete_message`. -/
def gap : Bytes := ['\r', '\n']

/-- `LVProtocol()`, the default constructor. -/
def LVProtocol.default : LVProtocol :=
  { type := ProtocolType.PROTOBUF, length := 0, data := [], gap := ProtocolTools.gap }

/-- `LVProtocol(t, d, g)`: the length field is `data.size()` converted to `int`. -/
def LVProtocol.make (t : ProtocolType) (d : Bytes) (g : Bytes) : LVProtocol :=
  { type := t, length := int_of_size_t d.length, data := d, gap := g }

/-- `LVProtocol(t, d)` with the default gap. -/
def LVProtocol.ctor (t : ProtocolType) (d : Bytes) : LVProtocol :=
  LVProtocol.make t d ProtocolTools.gap

/-! ## Library functions of `std::string` -/

/-- The character of a decimal digit. -/
def digitChar (d : Nat) : Char :=
  match d with
  | 0 => '0'
  | 1 => '1'
  | 2 => '2'
  | 3 => '3'
  | 4 => '4'
  | 5 => '5'
  | 6 => '6'
  | 7 => '7'
  | 8 => '8'
  | _ => '9'

/-- Digit generation of `std::to_string`: the digits of `n` are produced from the least
significant one by repeated division by ten and put in front of `acc`. -/
def to_chars : Nat → Nat → Bytes → Bytes
  | 0, _, acc => acc
  | fuel + 1, n, acc =>
    if n / 10 = 0 then digitChar (n % 10) :: acc
    else to_chars fuel (n / 10) (digitChar (n % 10) :: acc)

/-- `std::to_string(unsigned)`. -/
def to_string_nat (n : Nat) : Bytes := to_chars (n + 1) n []

/-- `std::to_string(int)`: a minus sign for a negative value, then the digits. -/
def std_to_string (i : Int) : Bytes :=
  if i < 0 then '-' :: to_string_nat i.natAbs else to_string_nat i.toNat

/-- `isspace` in the "C" locale. -/
def isspace (c : Char) : Bool :=
  c = ' ' || c = '\t' || c = '\n' || c = '\x0b' || c = '\x0c' || c = '\r'

/-- `isdigit`. -/
def isdigit (c : Char) : Bool := decide ('0' ≤ c) && decide (c ≤ '9')

/-- Value of a digit character. -/
def digitVal (c : Char) : Nat := c.toNat - 48

/-- Value of a run of digits, most significant first. -/
def digitsVal (ds : Bytes) : Nat := ds.foldl (fun a c => 10 * a + digitVal c) 0

/-- The result of `std::stoi` once the sign and the run of digits `ds` are read.
`none` is a thrown exception: `std::invalid_argument` when there is no digit,
`std::out_of_range` when the value is not an `int`. -/
def stoi_value (neg : Bool) (ds : Bytes) : Option Int :=
  if ds = [] then none
  else
    let v : Int := if neg then -(digitsVal ds : Int) else (digitsVal ds : Int)
    if INT_MIN ≤ v ∧ v ≤ INT_MAX then some v else none

/-- `std::stoi(s)` (base 10, as `strtol` does it): leading white space is skipped, one
optional sign is read, then the longest run of digits; what follows is ignored.
`none` is a thrown exception. -/
def stoi (s : Bytes) : Option Int :=
  let s1 := s.dropWhile isspace
  let s2 := if s1.head? = some '-' ∨ s1.head? = some '+' then s1.tail else s1
  stoi_value (decide (s1.head? = some '-')) (s2.takeWhile isdigit)

/-- Search of `std::string::find`: `s` is the text from index `i` on; the result is the
index of the first place at or after `i` where `g` starts. -/
def findFrom (g : Bytes) : Bytes → Nat → Option Nat
  | [], i => if g = [] then some i else none
  | c :: t, i => if g <+: c :: t then some i else findFrom g t (i + 1)

/-- `s.find(g, pos)`; `none` is `std::string::npos`. -/
def find (s g : Bytes) (pos : Nat) : Option Nat :=
  if pos ≤ s.length then findFrom g (s.drop pos) pos else none

/-- `s.substr(pos, n)`; `none` is the exception `std::out_of_range`, thrown when
`pos > s.size()`. The count is clamped to the end of the string. -/
def substr (s : Bytes) (pos n : Nat) : Option Bytes :=
  if pos > s.length then none else some ((s.drop pos).take n)

/-- `s.substr(pos)`: the count defaults to `npos`, every character up to the end. -/
def substr_to_end (s : Bytes) (pos : Nat) : Option Bytes :=
  if pos > s.length then none else some (s.drop pos)

/-- `s.erase(pos, n)`; `none` is `std::out_of_range`. -/
def erase (s : Bytes) (pos n : Nat) : Option Bytes :=
  if pos > s.length then none else some (s.take pos ++ s.drop (pos + n))

/-! ## `LVProtocol::to_string` and `LVProtocol::from_string` -/

/-- `LVProtocol::to_string`. -/
def LVProtocol.to_string (m : LVProtocol) : Bytes :=
  std_to_string m.length ++ m.gap
    ++ (if m.type = ProtocolType.PROTOBUF then ['P', 'B'] else ['J', 'S']) ++ m.gap
    ++ m.data ++ m.gap

/-- The tag named by a type field: `"PB"`, `"JS"`, or neither. -/
def type_of_str (type_str : Bytes) : Option ProtocolType :=
  if type_str = ['P', 'B'] then some ProtocolType.PROTOBUF
  else if type_str = ['J', 'S'] then some ProtocolType.JSON
  else none

/-- `LVProtocol::from_string`: the flag returned and the object afterwards (fields
assigned before a failure stay assigned); `none` is an exception. -/
def LVProtocol.from_string (m : LVProtocol) (str : Bytes) : Option (Bool × LVProtocol) :=
  match find str m.gap 0 with
  | none => some (false, m)
  | some len_end =>
    match substr str 0 (len_end - 0) with
    | none => none
    | some len_str =>
      match stoi len_str with
      | none => some (false, m)
      | some length =>
        let m1 := { m with length := length }
        let pos := len_end + m.gap.length
        match find str m.gap pos with
        | none => some (false, m1)
        | some type_end =>
          match substr str pos (type_end - pos) with
          | none => none
          | some type_str =>
            match type_of_str type_str with
            | none => some (false, m1)
            | some t =>
              let m2 := { m1 with type := t }
              let pos2 := type_end + m.gap.length
              if size_t_add (size_t_add pos2 (size_t_of_int length)) m.gap.length
                  > str.length then some (false, m2)
              else
                match substr str pos2 (size_t_of_int length) with
                | none => none
                | some d =>
                  let m3 := { m2 with data := d }
                  match substr str (size_t_add pos2 (size_t_of_int length)) m.gap.length with
                  | none => none
                  | some g => if g ≠ m.gap then some (false, m3) else some (true, m3)

/-- `ProtocolTools::pack`: `none` for a null output pointer, else the packed bytes. -/
def pack (protocol : LVProtocol) (has_out : Bool) : Option Bytes :=
  if has_out then some protocol.to_string else none

/-! ## Frame recognition -/

/-- `parse_message_header`: the outer `none` is an exception, the inner `none` is
`return false`, and the value is `(data_start, length, type)`. -/
def parse_message_header (data : Bytes) : Option (Option (Nat × Int × ProtocolType)) :=
  match find data gap 0 with
  | none => some none
  | some len_end =>
    match substr data 0 (len_end - 0) with
    | none => none
    | some len_str =>
      match stoi len_str with
      | none => some none
      | some length =>
        let pos := len_end + gap.length
        match find data gap pos with
        | none => some none
        | some type_end =>
          match substr data pos (type_end - pos) with
          | none => none
          | some type_str =>
            match type_of_str type_str with
            | none => some none
            | some type => some (some (type_end + gap.length, length, type))

/-- `find_complete_message`: the outer `none` is an exception, the inner `none` is
`return false`, and the value is `message_end`. -/
def find_complete_message (data : Bytes) : Option (Option Nat) :=
  match parse_message_header data with
  | none => none
  | some none => some none
  | some (some (data_start, length, _)) =>
    let expected_end := size_t_add (size_t_add data_start (size_t_of_int length)) gap.length
    if expected_end > data.length then some none
    else
      match substr data (size_t_add data_start (size_t_of_int length)) gap.length with
      | none => none
      | some g => if g ≠ gap then some none else some (some expected_end)

/-! ## `BufferHandler` -/

/-- `class BufferHandler`. -/
structure BufferHandler where
  buffer_ : Bytes
deriving DecidableEq, Repr

/-- `BufferHandler()`. -/
def BufferHandler.new : BufferHandler := { buffer_ := [] }

/-- `BufferHandler::append`. -/
def BufferHandler.append (h : BufferHandler) (data : Bytes) : BufferHandler :=
  { buffer_ := h.buffer_ ++ data }

/-- `BufferHandler::remaining_size`. -/
def BufferHandler.remaining_size (h : BufferHandler) : Nat := h.buffer_.length

/-- `BufferHandler::get_next_message`: the flag returned, the handler afterwards and
the out-parameter `message` afterwards; `none` is an exception. -/
def BufferHandler.get_next_message (h : BufferHandler) (message : LVProtocol) :
    Option (Bool × BufferHandler × LVProtocol) :=
  match find_complete_message h.buffer_ with
  | none => none
  | some none => some (false, h, message)
  | some (some message_end) =>
    match substr h.buffer_ 0 message_end with
    | none => none
    | some complete_message =>
      match message.from_string complete_message with
      | none => none
      | some (false, message1) => some (false, h, message1)
      | some (true, message1) =>
        match erase h.buffer_ 0 message_end with
        | none => none
        | some b => some (true, { buffer_ := b }, message1)

/-- Result of a loop: its value, an exception that escaped, or the fuel ran out. -/
inductive Outcome (α : Type)
  | done (a : α)
  | thrown
  | timeout
deriving DecidableEq, Repr

/-- The receive loop of the callers (`Provider::service`, the client callback of
`test/discovery.cc`): `while (buffer_handler.get_next_message(message)) { ... }`, the
body recording `message`. The same `message` object is passed to every call. -/
def drainLoop : Nat → BufferHandler → LVProtocol → List LVProtocol →
    Outcome (List LVProtocol × BufferHandler)
  | 0, _, _, _ => Outcome.timeout
  | fuel + 1, h, message, acc =>
    match h.get_next_message message with
    | none => Outcome.thrown
    | some (false, h1, _) => Outcome.done (acc, h1)
    | some (true, h1, message1) => drainLoop fuel h1 message1 (acc ++ [message1])

/-- The drain loop started with `LVProtocol message;`. Every extraction removes at
least one byte, so one round more than there are bytes is enough fuel. -/
def drain (h : BufferHandler) : Outcome (List LVProtocol × BufferHandler) :=
  drainLoop (h.buffer_.length + 1) h LVProtocol.default []

/-- A receive callback per chunk: append the chunk, then drain. The frames of
all callbacks are collected behind `acc`. -/
def feed : BufferHandler → List Bytes → List LVProtocol →
    Outcome (List LVProtocol × BufferHandler)
  | h, [], acc => Outcome.done (acc, h)
  | h, chunk :: rest, acc =>
    match drain (h.append chunk) with
    | Outcome.done (ms, h1) => feed h1 rest (acc ++ ms)
    | Outcome.thrown => Outcome.thrown
    | Outcome.timeout => Outcome.timeout

/-! ## `unpack` -/

/-- The loop of `ProtocolTools::unpack`, from the offset `pos` on. -/
def unpackLoop : Nat → Bytes → Nat → List LVProtocol → Outcome (List LVProtocol)
  | 0, _, _, _ => Outcome.timeout
  | fuel + 1, data, pos, messages =>
    if pos < data.length then
      match substr_to_end data pos with
      | none => Outcome.thrown
      | some rest =>
        match find_complete_message rest with
        | none => Outcome.thrown
        | some none => Outcome.done messages
        | some (some message_end) =>
          match substr data pos message_end with
          | none => Outcome.thrown
          | some complete_message =>
            match LVProtocol.default.from_string complete_message with
            | none => Outcome.thrown
            | some (true, protocol) =>
              unpackLoop fuel data (pos + message_end) (messages ++ [protocol])
            | some (false, _) => unpackLoop fuel data (pos + message_end) messages
    else Outcome.done messages

/-- `ProtocolTools::unpack(data, messages)`: the flag returned and `messages`
afterwards. The vector passed in is cleared first. Every round moves `pos` forward,
so one round more than there are bytes is enough fuel. -/
def unpack (data : Bytes) (_messages : List LVProtocol) : Outcome (Bool × List LVProtocol) :=
  match unpackLoop (data.length + 1) data 0 [] with
  | Outcome.done ms => Outcome.done (!ms.isEmpty, ms)
  | Outcome.thrown => Outcome.thrown
  | Outcome.timeout => Outcome.timeout

/-! ## The wire format of the specification -/

/-- Decimal representation of a natural number, no sign, no leading zero. -/
def dec (n : Nat) : Bytes := Nat.toDigits 10 n

/-- The wire marker of a tag. -/
def marker (t : ProtocolType) : Bytes :=
  match t with
  | ProtocolType.PROTOBUF => ['P', 'B']
  | ProtocolType.JSON => ['J', 'S']

/-- The wire format: `<decimal length><gap><tag><gap><payload><gap>`. -/
def wire (t : ProtocolType) (p : Bytes) : Bytes :=
  dec p.length ++ gap ++ marker t ++ gap ++ p ++ gap

/-! ## Predicates used by the statements -/

/-- The gap `"\r\n"` starts at index `j` of `s`. -/
def gapAt (s : Bytes) (j : Nat) : Prop := s[j]? = some '\r' ∧ s[j + 1]? = some '\n'

/-- The header that `parse_message_header` accepts: the first gap of `s` is at
`len_end`, the text before it reads as the integer `L`, the two characters after it
are the marker of `T`, and a gap follows them. -/
def HeaderAt (s : Bytes) (len_end : Nat) (L : Int) (T : ProtocolType) : Prop :=
  find s gap 0 = some len_end ∧ stoi (s.take len_end) = some L ∧
    (s.drop (len_end + 2)).take 2 = marker T ∧ gapAt s (len_end + 4)

instance (s : Bytes) (j : Nat) : Decidable (gapAt s j) := by
  unfold gapAt
  infer_instance

/-- The bytes of a frame whose length field is the text `d`. -/
def frameBytes (d : Bytes) (T : ProtocolType) (P : Bytes) : Bytes :=
  d ++ gap ++ marker T ++ gap ++ P ++ gap

/-- The buffer does not begin with a complete message: `find_complete_message`
returns `false`, without an exception. -/
def Stuck (s : Bytes) : Prop := find_complete_message s = some none

/-- The failures of `find_complete_message` that are not a lack of bytes:
the gap-terminated length field makes `std::stoi` throw (the `catch` branch of
`parse_message_header`); or the gap-terminated type field is neither `"PB"` nor `"JS"`;
or the header is read, `expected_end <= data.size()` holds, and the bytes at
`data_start + length` are not the gap (the last `return false`). -/
def HardFailure (B : Bytes) : Prop :=
  (∃ len_end, find B gap 0 = some len_end ∧ stoi (B.take len_end) = none) ∨
  (∃ len_end L type_end, find B gap 0 = some len_end ∧ stoi (B.take len_end) = some L ∧
    find B gap (len_end + 2) = some type_end ∧
    type_of_str ((B.drop (len_end + 2)).take (type_end - (len_end + 2))) = none) ∨
  (∃ ds L T g, parse_message_header B = some (some (ds, L, T)) ∧
    ¬ (size_t_add (size_t_add ds (size_t_of_int L)) gap.length > B.length) ∧
    substr B (size_t_add ds (size_t_of_int L)) gap.length = some g ∧ g ≠ gap)

/-- Concatenation of a list of byte strings. -/
def concat : List Bytes → Bytes
  | [] => []
  | c :: cs => c ++ concat cs

/-- The packed frames one after the other: `to_string(f1) ++ ... ++ to_string(fN)`. -/
def packed (fs : List LVProtocol) : Bytes := concat (fs.map LVProtocol.to_string)

/-- A frame as `LVProtocol(t, d)` builds it from a payload whose size fits the `int`
length field: the default gap, and `length` is the size of `data`. -/
def LVProtocol.wellFormed (f : LVProtocol) : Prop :=
  f.gap = ProtocolTools.gap ∧ f.length = (f.data.length : Int) ∧ (f.data.length : Int) ≤ INT_MAX

instance (f : LVProtocol) : Decidable f.wellFormed := by
  unfold LVProtocol.wellFormed
  infer_instance

/-- The content `X` of a drained buffer while the frames `fs` are still to come: nothing
when no frame is left, else a strict prefix of the first one. -/
def Pending (X : Bytes) (fs : List LVProtocol) : Prop :=
  (fs = [] ∧ X = []) ∨
    ∃ f rest, fs = f :: rest ∧ X <+: f.to_string ∧ X ≠ f.to_string

end ProtocolTools

/-!
# CoroRpcFrame: the byte buffer

A shallow embedding of `net::Buffer` (`include/net.h`, `src/net.cpp`).

* `std::vector<char>` is a `List Char`; `buffer_.data() + i` is the index `i`.
  `resize(n)` is given for `n <= max_size()`, where it succeeds (a failed allocation
  ends the process). For a larger `n` the call throws `std::length_error` and leaves
  the vector as it is: what the theorems say about the capacity and the room after a
  growth is said for a new size of at most `max_size`.
* The cursors are `size_t`: sums, differences and products are taken modulo `2 ^ 64`.
* A copy into or out of the vector is given for the case that it stays inside the
  vector, the only case that is defined behaviour; the cursor invariant implies it.
-/

namespace net

open ProtocolTools (Bytes SIZE_MOD max_size size_t_add)

/-- Difference of two `size_t` values. -/
def size_t_sub (a b : Nat) : Nat := (a + (SIZE_MOD - b % SIZE_MOD)) % SIZE_MOD

/-- Product of two `size_t` values. -/
def size_t_mul (a b : Nat) : Nat := (a * b) % SIZE_MOD

/-- `std::vector<char>::resize(n)` for `n <= max_size()`: cut to `n` elements, or filled
up with zero bytes. (For `n > max_size()` the call throws `std::length_error`.) -/
def vector_resize (v : Bytes) (n : Nat) : Bytes :=
  if n ≤ v.length then v.take n else v ++ List.replicate (n - v.length) (Char.ofNat 0)

/-- `std::copy(src, src + src.size(), v.data() + pos)`: the bytes of `src` replace the
bytes of `v` from the index `pos` on. -/
def copy_into (v : Bytes) (pos : Nat) (src : Bytes) : Bytes :=
  v.take pos ++ src ++ v.drop (pos + src.length)

/-- `std::memmove(v.data() + dst, v.data() + src, n)`. -/
def memmove (v : Bytes) (dst src n : Nat) : Bytes :=
  copy_into v dst ((v.drop src).take n)

/-- `class Buffer`. -/
structure Buffer where
  buffer_ : Bytes
  read_pos_ : Nat
  write_pos_ : Nat
deriving DecidableEq, Repr

/-- `Buffer() = default`. -/
def Buffer.default : Buffer := { buffer_ := [], read_pos_ := 0, write_pos_ := 0 }

/-- `Buffer(size_t size)`. -/
def Buffer.sized (size : Nat) : Buffer :=
  { buffer_ := List.replicate size (Char.ofNat 0), read_pos_ := 0, write_pos_ := 0 }

/-- `Buffer::capacity`. -/
def Buffer.capacity (b : Buffer) : Nat := b.buffer_.length

/-- `Buffer::writable_size`. -/
def Buffer.writable_size (b : Buffer) : Nat := size_t_sub b.buffer_.length b.write_pos_

/-- `Buffer::readable_size`. -/
def Buffer.readable_size (b : Buffer) : Nat := size_t_sub b.write_pos_ b.read_pos_

/-- `Buffer::empty`. -/
def Buffer.empty (b : Buffer) : Bool := b.readable_size = 0

/-- `Buffer::read_as_string`: the string returned and the buffer afterwards. -/
def Buffer.read_as_string (b : Buffer) (size : Nat) : Bytes × Buffer :=
  let size1 := min size b.readable_size
  let result := (b.buffer_.drop b.read_pos_).take size1
  let b1 := { b with read_pos_ := size_t_add b.read_pos_ size1 }
  if b1.read_pos_ = b1.write_pos_ then
    (result, { b1 with read_pos_ := 0, write_pos_ := 0 })
  else (result, b1)

/-- `Buffer::resize`. -/
def Buffer.resize (b : Buffer) (size : Nat) : Buffer :=
  if size > b.buffer_.length then { b with buffer_ := vector_resize b.buffer_ size } else b

/-- The first step of `Buffer::ensure_capacity`, taken when `read_pos_ > 0`: the
readable bytes are moved to the front. -/
def Buffer.compact (b : Buffer) : Buffer :=
  let data_size := b.readable_size
  { buffer_ := if data_size > 0 then memmove b.buffer_ 0 b.read_pos_ data_size else b.buffer_,
    read_pos_ := 0,
    write_pos_ := data_size }

/-- `Buffer::ensure_capacity`. -/
def Buffer.ensure_capacity (b : Buffer) (required_size : Nat) : Buffer :=
  if b.writable_size < required_size then
    let b1 := if b.read_pos_ > 0 then b.compact else b
    if b1.writable_size < required_size then
      let new_size := max (size_t_mul b1.buffer_.length 2)
        (size_t_add b1.write_pos_ required_size)
      { b1 with buffer_ := vector_resize b1.buffer_ new_size }
    else b1
  else b

/-- `Buffer::read_all_as_string`. -/
def Buffer.read_all_as_string (b : Buffer) : Bytes × Buffer :=
  b.read_as_string b.readable_size

/-- `Buffer::append`, both overloads (`append(data)` is `append(data.data(), data.size())`). -/
def Buffer.append (b : Buffer) (data : Bytes) : Buffer :=
  if data.length = 0 then b
  else
    let b1 := b.ensure_capacity data.length
    { b1 with buffer_ := copy_into b1.buffer_ b1.write_pos_ data,
              write_pos_ := size_t_add b1.write_pos_ data.length }

/-- `Buffer::clear`. -/
def Buffer.clear (b : Buffer) : Buffer := { b with read_pos_ := 0, write_pos_ := 0 }

/-- `Buffer::advance_write`. -/
def Buffer.advance_write (b : Buffer) (size : Nat) : Buffer :=
  { b with write_pos_ := size_t_add b.write_pos_ size }

/-- `Buffer::advance_read`. -/
def Buffer.advance_read (b : Buffer) (size : Nat) : Buffer :=
  let b1 := { b with read_pos_ := size_t_add b.read_pos_ size }
  if b1.read_pos_ = b1.write_pos_ then { b1 with read_pos_ := 0, write_pos_ := 0 } else b1

/-- The cursor invariant `read_pos <= write_pos <= capacity`. -/
def Buffer.inv (b : Buffer) : Prop :=
  b.read_pos_ ≤ b.write_pos_ ∧ b.write_pos_ ≤ b.capacity

instance (b : Buffer) : Decidable b.inv := by
  unfold Buffer.inv
  infer_instance

/-- The bytes of the readable region `[read_pos, write_pos)`, in order. -/
def Buffer.readable (b : Buffer) : Bytes :=
  (b.buffer_.drop b.read_pos_).take (b.write_pos_ - b.read_pos_)

/-- Both cursors are at `0`: nothing to read, the whole capacity to write. -/
def Buffer.drained (b : Buffer) : Prop :=
  b.read_pos_ = 0 ∧ b.write_pos_ = 0 ∧ b.readable_size = 0 ∧ b.writable_size = b.capacity

end net

/-!
# CoroRpcFrame: the router

A shallow embedding of `include/server.h`: the two handler classes and
`Provider::handle_single_message`, `Provider::send_error_response`.

* jsoncpp and the protobuf runtime are outside the repository: the reader and the
  writer of jsoncpp are the two fields of `JsonLib`, the generated protobuf methods
  are fields of the handler. `time(nullptr)` is the argument `now`.
* A user function `handler_` that throws `std::exception` returns `none`.
* `Buffer* response` is an `Option Buffer`, `none` being the null pointer.
* `handle_single_message` returns, next to the output buffer, the indices of the
  handlers whose `handle` it called, in the order of the calls (a ghost value).
-/

namespace ProtocolTools

/-- `Json::Value`, as far as the router uses it. The members of an object are kept
in the order of their first assignment. -/
inductive JsonValue
  | null
  | string (s : Bytes)
  | int (i : Int)
  | object (members : List (Bytes × JsonValue))

/-- Assignment to a member of an object. -/
def setMember (ms : List (Bytes × JsonValue)) (key : Bytes) (v : JsonValue) :
    List (Bytes × JsonValue) :=
  if ms.any (fun p => p.1 = key) then ms.map (fun p => if p.1 = key then (key, v) else p)
  else ms ++ [(key, v)]

/-- `val[key] = v`: a null value becomes an object. -/
def JsonValue.set (val : JsonValue) (key : Bytes) (v : JsonValue) : JsonValue :=
  match val with
  | JsonValue.object ms => JsonValue.object (setMember ms key v)
  | _ => JsonValue.object [(key, v)]

/-- The jsoncpp library: `Json::CharReader::parse` (`none` when it returns `false`) and
`Json::StreamWriter::write` with the indentation `""`. -/
structure JsonLib where
  parse : Bytes → Option JsonValue
  write : JsonValue → Bytes

/-- `ProtocolTools::serialize(const Json::Value&, std::string*)`: `none` is `false`
(a null `data`), else the string written to `*data`. -/
def serialize (lib : JsonLib) (val : JsonValue) (has_data : Bool) : Option Bytes :=
  if !has_data then none else some (lib.write val)

/-- `ProtocolTools::deserialize(const char*, size_t, Json::Value*)`: `none` is `false`. -/
def deserialize (lib : JsonLib) (data : Bytes) (has_val : Bool) : Option JsonValue :=
  if !has_val || data.length = 0 then none else lib.parse data

end ProtocolTools

namespace net

open ProtocolTools (Bytes SIZE_MOD max_size size_t_add ProtocolType LVProtocol JsonValue JsonLib)

/-- `class ProtobufMessageHandler<RequestType, ResponseType>`: the generated
`ParseFromString` and `SerializeToString` (`none` when they return `false`) and the
registered function `handler_`, which gives the response message or throws. -/
structure ProtobufMessageHandler where
  RequestType : Type
  ResponseType : Type
  ParseFromString : Bytes → Option RequestType
  handler_ : RequestType → Option ResponseType
  SerializeToString : ResponseType → Option Bytes

/-- `ProtobufMessageHandler::handle`: the flag returned and `response` afterwards. -/
def ProtobufMessageHandler.handle (h : ProtobufMessageHandler) (data : Bytes)
    (response : Option Buffer) : Bool × Option Buffer :=
  match h.ParseFromString data with
  | none => (false, response)
  | some request =>
    match h.handler_ request with
    | none => (false, response)
    | some response_msg =>
      match response with
      | none => (true, none)
      | some buf =>
        match h.SerializeToString response_msg with
        | some serialized =>
          (true, some (buf.append (LVProtocol.ctor ProtocolType.PROTOBUF serialized).to_string))
        | none => (true, some buf)

/-- `class JsonMessageHandler`: the registered function `handler_`. -/
structure JsonMessageHandler where
  handler_ : JsonValue → Option JsonValue

/-- `JsonMessageHandler::handle`: the flag returned and `response` afterwards. -/
def JsonMessageHandler.handle (h : JsonMessageHandler) (lib : JsonLib) (data : Bytes)
    (response : Option Buffer) : Bool × Option Buffer :=
  match ProtocolTools.deserialize lib data true with
  | none => (false, response)
  | some request =>
    match h.handler_ request with
    | none => (false, response)
    | some response_msg =>
      match response with
      | none => (true, none)
      | some buf =>
        let serialized := (ProtocolTools.serialize lib response_msg true).getD []
        (true, some (buf.append (LVProtocol.ctor ProtocolType.JSON serialized).to_string))

/-- `class IMessageHandler`, with its two implementations. -/
inductive IMessageHandler
  | protobuf (h : ProtobufMessageHandler)
  | json (h : JsonMessageHandler)

/-- `IMessageHandler::get_type`. -/
def IMessageHandler.get_type (h : IMessageHandler) : ProtocolType :=
  match h with
  | IMessageHandler.protobuf _ => ProtocolType.PROTOBUF
  | IMessageHandler.json _ => ProtocolType.JSON

/-- `IMessageHandler::handle`. -/
def IMessageHandler.handle (h : IMessageHandler) (lib : JsonLib) (data : Bytes)
    (response : Option Buffer) : Bool × Option Buffer :=
  match h with
  | IMessageHandler.protobuf p => p.handle data response
  | IMessageHandler.json j => j.handle lib data response

/-- `class Provider`: the registry `handlers_`. -/
structure Provider where
  handlers_ : List IMessageHandler

/-- `Provider::register_protobuf_handler`. -/
def Provider.register_protobuf_handler (p : Provider) (h : ProtobufMessageHandler) : Provider :=
  { handlers_ := p.handlers_ ++ [IMessageHandler.protobuf h] }

/-- `Provider::register_json_handler`. -/
def Provider.register_json_handler (p : Provider) (handler : JsonValue → Option JsonValue) :
    Provider :=
  { handlers_ := p.handlers_ ++ [IMessageHandler.json { handler_ := handler }] }

/-- The object built by `send_error_response`. -/
def error_response (error_msg : Bytes) (now : Int) : JsonValue :=
  ((JsonValue.null.set "status".toList (JsonValue.string "error".toList)).set
    "message".toList (JsonValue.string error_msg)).set "timestamp".toList (JsonValue.int now)

/-- `Provider::send_error_response`: `send` afterwards. For `type == PROTOBUF` the
function calls itself with `JSON`, so that both types take the same branch. -/
def Provider.send_error_response (lib : JsonLib) (now : Int) (type : ProtocolType)
    (error_msg : Bytes) (send : Option Buffer) : Option Buffer :=
  match send with
  | none => none
  | some buf =>
    match type with
    | ProtocolType.JSON =>
      let serialized := (ProtocolTools.serialize lib (error_response error_msg now) true).getD []
      some (buf.append (LVProtocol.ctor ProtocolType.JSON serialized).to_string)
    | ProtocolType.PROTOBUF =>
      let serialized := (ProtocolTools.serialize lib (error_response error_msg now) true).getD []
      some (buf.append (LVProtocol.ctor ProtocolType.JSON serialized).to_string)

/-- The loop of `handle_single_message` over the handlers from the index `i` on:
`handled`, `send` afterwards, and the indices of the handlers called. -/
def try_handlers (lib : JsonLib) : List IMessageHandler → Nat → LVProtocol → Option Buffer →
    Bool × Option Buffer × List Nat
  | [], _, _, send => (false, send, [])
  | handler :: rest, i, message, send =>
    if handler.get_type = message.type then
      match handler.handle lib message.data send with
      | (true, send1) => (true, send1, [i])
      | (false, send1) =>
        match try_handlers lib rest (i + 1) message send1 with
        | (handled, send2, called) => (handled, send2, i :: called)
    else try_handlers lib rest (i + 1) message send

/-- `Provider::handle_single_message`: `send` afterwards and the indices of the
handlers called. -/
def Provider.handle_single_message (p : Provider) (lib : JsonLib) (now : Int)
    (message : LVProtocol) (send : Option Buffer) : Option Buffer × List Nat :=
  match try_handlers lib p.handlers_ 0 message send with
  | (true, send1, called) => (send1, called)
  | (false, send1, called) =>
    (Provider.send_error_response lib now message.type "No handler found".toList send1, called)

/-- The indices, counted from `i`, of the handlers of the type `t`. -/
def matching_indices : List IMessageHandler → Nat → ProtocolType → List Nat
  | [], _, _ => []
  | h :: rest, i, t =>
    if h.get_type = t then i :: matching_indices rest (i + 1) t
    else matching_indices rest (i + 1) t

/-- A stand-in for jsoncpp in the examples: it reads `"{}"` as the empty object, and
writes the empty object as `"{}"`, null as `"null"` and any other value as `"error"`. -/
def sample_lib : JsonLib :=
  { parse := fun s => if s = ['{', '}'] then some (JsonValue.object []) else none,
    write := fun v =>
      match v with
      | JsonValue.object [] => ['{', '}']
      | JsonValue.null => ['n', 'u', 'l', 'l']
      | _ => ['e', 'r', 'r', 'o', 'r'] }

/-- A registry with two JSON handlers: the function of the first throws, the function
of the second answers with the empty object. -/
def sample_provider : Provider :=
  ((Provider.mk []).register_json_handler (fun _ => none)).register_json_handler
    (fun _ => some (JsonValue.object []))

end net

/-!
# CoroRpcFrame: the message callback and the session

A shallow embedding of `Provider::service` (`include/server.h`) and of `Session`
(`include/net.h`, `src/net.cpp`).

* The local `static ProtocolTools::BufferHandler buffer_handler` of `Provider::service`
  is one object for the whole process: it is an argument of the function and is
  returned with the result.
* The socket is outside the repository. A `Session` carries the list of the
  asynchronous operations it has started and whose completion handler has not run yet
  (a ghost value); a step of the session is the run of one completion handler, with
  the error code and the bytes that the operation reports.
* The lines written with `ERR` and the arguments of the calls of the message callback
  are recorded in two more ghost lists.
* A message callback returns the two buffers as it leaves them and tells whether it
  left with a `std::exception`.
-/

namespace net

open ProtocolTools (Bytes SIZE_MOD max_size size_t_add ProtocolType LVProtocol JsonValue JsonLib
  BufferHandler Outcome)

/-- The loop `while (buffer_handler.get_next_message(message))` of `Provider::service`:
the accumulator and `send` afterwards. -/
def serviceLoop (p : Provider) (lib : JsonLib) (now : Int) :
    Nat → BufferHandler → LVProtocol → Option Buffer → Outcome (BufferHandler × Option Buffer)
  | 0, _, _, _ => Outcome.timeout
  | fuel + 1, h, message, send =>
    match h.get_next_message message with
    | none => Outcome.thrown
    | some (false, h1, _) => Outcome.done (h1, send)
    | some (true, h1, message1) =>
      serviceLoop p lib now fuel h1 message1 (p.handle_single_message lib now message1 send).1

/-- `Provider::service`: the static `buffer_handler`, `recv` and `send` afterwards.
Every extraction removes at least one byte, so one round more than there are bytes is
enough fuel. -/
def Provider.service (p : Provider) (lib : JsonLib) (now : Int) (buffer_handler : BufferHandler)
    (recv : Buffer) (send : Option Buffer) : Outcome (BufferHandler × Buffer × Option Buffer) :=
  let data := recv.read_all_as_string.1
  let recv1 := recv.read_all_as_string.2
  let h := buffer_handler.append data
  match serviceLoop p lib now (h.buffer_.length + 1) h LVProtocol.default send with
  | Outcome.done (h1, send1) => Outcome.done (h1, recv1, send1)
  | Outcome.thrown => Outcome.thrown
  | Outcome.timeout => Outcome.timeout

/-- The message callback of a `Provider` for one read of a connection, as
`Session::do_read` runs it: `recv` holds the bytes `data` of the read, `send` is a fresh
`Buffer`. The result is the static accumulator afterwards and the bytes
`send.read_all_as_string()` that the session writes back to this connection. -/
def Provider.on_message (p : Provider) (lib : JsonLib) (now : Int)
    (buffer_handler : BufferHandler) (data : Bytes) : Outcome (BufferHandler × Bytes) :=
  match p.service lib now buffer_handler (Buffer.default.append data) (some Buffer.default) with
  | Outcome.done (h1, _, some send1) => Outcome.done (h1, send1.read_all_as_string.1)
  | Outcome.done (h1, _, none) => Outcome.done (h1, [])
  | Outcome.thrown => Outcome.thrown
  | Outcome.timeout => Outcome.timeout

/-- A stand-in for the generated classes `AddRequest` and `AddResponse` of the tests,
with the function registered by `test/registry.cc`, `result = a + b`: a request is the
four bytes `08 a 10 b`, a response is the two bytes `08 result`, each value one byte
below 128. -/
@[reducible]
def sample_add_handler : ProtobufMessageHandler :=
  { RequestType := Nat × Nat,
    ResponseType := Nat,
    ParseFromString := fun s =>
      match s with
      | [t1, a, t2, b] =>
        if t1 = Char.ofNat 8 ∧ t2 = Char.ofNat 16 ∧ a.toNat < 128 ∧ b.toNat < 128 then
          some (a.toNat, b.toNat)
        else none
      | _ => none,
    handler_ := fun req => some (req.1 + req.2),
    SerializeToString := fun rsp => if rsp < 128 then some [Char.ofNat 8, Char.ofNat rsp] else none }

/-! ## `Session` -/

/-- `boost::system::error_code`, as far as the completion handlers tell its values
apart. -/
inductive error_code
  | success
  | eof
  | operation_aborted
  | other (value : Nat)
deriving DecidableEq, Repr

/-- An asynchronous operation started on the socket. -/
inductive AsyncOp
  | async_read_some
  | async_write (data : Bytes)
deriving DecidableEq, Repr

/-- A line written with `ERR` by the completion handlers of `Session`. -/
inductive ErrLine
  | read_error (ec : error_code)
  | callback_error
  | write_error (ec : error_code)
deriving DecidableEq, Repr

/-- What a call `cb_(read_, &send_buf)` leaves: the two buffers, and whether a
`std::exception` left the callback. -/
structure CallbackResult where
  recv : Buffer
  send : Buffer
  threw : Bool

/-- `OnMsgCallback`, a `std::function`; `none` is the empty function. -/
abbrev OnMsgCallback := Option (Buffer → Buffer → CallbackResult)

/-- `class Session`: the fields `read_` and `cb_`, the operations outstanding on
`socket_`, the lines written with `ERR`, and the arguments of the calls of `cb_`. -/
structure Session where
  read_ : Buffer
  cb_ : OnMsgCallback
  outstanding : List AsyncOp
  log : List ErrLine
  calls : List (Buffer × Buffer)

/-- `Session::Session`. -/
def Session.new (on_msg_callback : OnMsgCallback) : Session :=
  { read_ := Buffer.default.resize 8192, cb_ := on_msg_callback, outstanding := [], log := [],
    calls := [] }

/-- `Session::do_read`, up to the start of `async_read_some`. -/
def Session.do_read (s : Session) : Session :=
  { s with read_ := s.read_.ensure_capacity 1024,
           outstanding := s.outstanding ++ [AsyncOp.async_read_some] }

/-- `Session::do_write`, up to the start of `async_write`. -/
def Session.do_write (s : Session) (data : Bytes) : Session :=
  { s with outstanding := s.outstanding ++ [AsyncOp.async_write data] }

/-- `Session::start`. -/
def Session.start (s : Session) : Session := s.do_read

/-- The call of the message callback in the read handler, guarded by `if (cb_)` and
wrapped in `try ... catch (const std::exception&)`, whose handler writes one line with
`ERR`: the session and `send_buf` afterwards. -/
def Session.invoke_callback (s : Session) (send_buf : Buffer) : Session × Buffer :=
  match s.cb_ with
  | none => (s, send_buf)
  | some cb =>
    let r := cb s.read_ send_buf
    ({ s with read_ := r.recv,
              calls := s.calls ++ [(s.read_, send_buf)],
              log := if r.threw then s.log ++ [ErrLine.callback_error] else s.log }, r.send)

/-- The completion handler of `async_read_some` in `Session::do_read`, called with `ec`
and `n`. -/
def Session.on_read (s : Session) (ec : error_code) (n : Nat) : Session :=
  if ec ≠ error_code.success then
    if ec ≠ error_code.eof ∧ ec ≠ error_code.operation_aborted then
      { s with log := s.log ++ [ErrLine.read_error ec] }
    else s
  else
    let s1 := { s with read_ := s.read_.advance_write n }
    let r := s1.invoke_callback Buffer.default
    if r.2.readable_size > 0 then r.1.do_write r.2.read_all_as_string.1
    else r.1.do_read

/-- The completion handler of `async_write` in `Session::do_write`. -/
def Session.on_write (s : Session) (ec : error_code) (_n : Nat) : Session :=
  if ec ≠ error_code.success then { s with log := s.log ++ [ErrLine.write_error ec] }
  else s.do_read

/-- The receive buffer after `async_read_some` has put the bytes `data` at
`write_data()`. -/
def Buffer.receive (b : Buffer) (data : Bytes) : Buffer :=
  { b with buffer_ := copy_into b.buffer_ b.write_pos_ data }

/-- The completion of an outstanding operation, as the socket reports it: a read that
put the bytes `data` at `write_data()`, or the write of `data` that transferred `n`
bytes. -/
inductive Completion
  | read (ec : error_code) (data : Bytes)
  | write (data : Bytes) (ec : error_code) (n : Nat)
deriving DecidableEq, Repr

/-- The error code of a completion. -/
def Completion.ec : Completion → error_code
  | Completion.read ec _ => ec
  | Completion.write _ ec _ => ec

/-- One step of the session: the operation completed leaves the list of the
outstanding ones and its handler runs. `none`: no such operation is outstanding, or
the read reports more bytes than the buffer offered. -/
def Session.complete (s : Session) : Completion → Option Session
  | Completion.read ec data =>
    if AsyncOp.async_read_some ∈ s.outstanding ∧ data.length ≤ s.read_.writable_size then
      some (Session.on_read
        { s with read_ := s.read_.receive data,
                 outstanding := s.outstanding.erase AsyncOp.async_read_some }
        ec data.length)
    else none
  | Completion.write data ec n =>
    if AsyncOp.async_write data ∈ s.outstanding then
      some (Session.on_write
        { s with outstanding := s.outstanding.erase (AsyncOp.async_write data) } ec n)
    else none

/-- A run of the session: the completions of the list, one after the other. -/
def Session.run (s : Session) : List Completion → Option Session
  | [] => some s
  | c :: rest =>
    match s.complete c with
    | none => none
    | some s1 => Session.run s1 rest

/-- A message callback that answers every read with the bytes read. -/
def echo_callback (recv send : Buffer) : CallbackResult :=
  { recv := recv.read_all_as_string.2, send := send.append recv.read_all_as_string.1,
    threw := false }

end net

/-!
# CoroRpcFrame: the utilities and the registry keys

A shallow embedding of `StringTools::split` and `RandomTools::generate_random_string`
(`include/util.h`, `src/util.cpp`) and of `ServiceProvider::create_key` and
`ServiceDiscovery::parse_key` (`include/etcd.h`, `src/etcd.cpp`).

* `std::random_device` and the static counter `number_base` are outside the function:
  the value drawn is the argument `rd`, the counter is passed in and returned.
-/

namespace Tools

open ProtocolTools (Bytes SIZE_MOD max_size size_t_add find substr substr_to_end Outcome)

/-- The loop of `StringTools::split`, entered with the values of `pos`, `idx` and `res`. -/
def splitLoop (str sep : Bytes) : Nat → Nat → Nat → List Bytes → Outcome (List Bytes)
  | 0, _, _, _ => Outcome.timeout
  | fuel + 1, pos, idx, res =>
    match find str sep pos with
    | none =>
      match substr_to_end str idx with
      | none => Outcome.thrown
      | some last => Outcome.done (res ++ [last])
    | some pos1 =>
      if pos1 ≠ idx then
        match substr str idx (net.size_t_sub pos1 idx) with
        | none => Outcome.thrown
        | some piece => splitLoop str sep fuel (size_t_add pos1 sep.length)
            (size_t_add pos1 sep.length) (res ++ [piece])
      else splitLoop str sep fuel (size_t_add pos1 sep.length) (size_t_add pos1 sep.length) res

/-- `StringTools::split`. With a separator that is not empty every round moves `pos`
forward, so one round more than there are bytes is enough fuel; with the empty
separator the loop of the source does not end. -/
def StringTools.split (str sep : Bytes) : Outcome (List Bytes) :=
  splitLoop str sep (str.length + 1) 0 0 []

/-- `enum class RandomType`. -/
inductive RandomType
  | ALPHA
  | NUM
  | MIX
deriving DecidableEq, Repr

/-- `ALPHA_STR` of `generate_random_string`. -/
def ALPHA_STR : Bytes := "abcdefghijklmnopqrstuvwxyzABCDEFGHIJKLMNOPQRSTUVWXYZ".toList

/-- `NUM_STR` of `generate_random_string`. -/
def NUM_STR : Bytes := "0123456789".toList

/-- `MIX_STR` of `generate_random_string`. -/
def MIX_STR : Bytes := ALPHA_STR ++ NUM_STR

/-- `MIN_LENTH` of `generate_random_string`. -/
def MIN_LENTH : Int := 4

/-- Conversion `unsigned int -> int` (as in `int num = number_base.fetch_add(1)`). -/
def int_of_unsigned (n : Nat) : Int := ((n : Int) + 2147483648) % 4294967296 - 2147483648

/-- `ssm << std::setw(4) << num`: the decimal text of `num`, filled up on the left with
blanks to four characters; a longer text is written in full. -/
def setw4 (num : Int) : Bytes :=
  List.replicate (4 - (ProtocolTools.std_to_string num).length) ' '
    ++ ProtocolTools.std_to_string num

/-- `RandomTools::generate_random_string`: the string returned and the counter
`number_base` afterwards. `rd` is the value drawn from `std::random_device`. -/
def RandomTools.generate_random_string (length : Int) (type : RandomType) (rd : Nat)
    (number_base : Nat) : Bytes × Nat :=
  let use_str :=
    match type with
    | RandomType.ALPHA => ALPHA_STR
    | RandomType.NUM => NUM_STR
    | RandomType.MIX => MIX_STR
  let generate := rd
  let length1 := if length > MIN_LENTH then length - MIN_LENTH else length
  let ssm := List.replicate length1.toNat (use_str.getD (generate % use_str.length) ' ')
  if length1 ≤ MIN_LENTH then (ssm, number_base)
  else (ssm ++ setw4 (int_of_unsigned number_base), (number_base + 1) % 4294967296)

/-- `class ServiceProvider`, the two fields of the key. -/
structure ServiceProvider where
  service_name_ : Bytes
  node_id_ : Bytes

/-- `ServiceProvider::create_key`. -/
def ServiceProvider.create_key (p : ServiceProvider) : Bytes :=
  ['/'] ++ p.service_name_ ++ ['/'] ++ p.node_id_

/-- `s.find_first_of(c)`; `none` is `std::string::npos`. -/
def find_first_of (s : Bytes) (c : Char) : Option Nat :=
  if s.indexOf c < s.length then some (s.indexOf c) else none

/-- `s.find_last_of(c)`; `none` is `std::string::npos`. -/
def find_last_of (s : Bytes) (c : Char) : Option Nat :=
  if s.reverse.indexOf c < s.length then some (s.length - 1 - s.reverse.indexOf c) else none

/-- `ServiceDiscovery::parse_key`; `none` is the exception of `substr`. -/
def ServiceDiscovery.parse_key (key : Bytes) : Option Bytes :=
  match find_first_of key '/', find_last_of key '/' with
  | none, _ => some []
  | _, none => some []
  | some left, some right =>
    substr key (size_t_add left 1) (net.size_t_sub (net.size_t_sub right left) 1)

end Tools


/-!
# CoroRpcFrame: the output of the router, frame by frame

What `Provider::handle_single_message` appends to a non-null output buffer for one
frame is a string that depends on the registry and on the frame, not on the buffer.
The definitions below name that string; the theorems `handle_eq_appended` and
`handle_single_message_eq_out` tie them to `handle` and to `handle_single_message`.
-/

namespace net

open ProtocolTools (Bytes SIZE_MOD max_size size_t_add ProtocolType LVProtocol JsonValue JsonLib
  BufferHandler Outcome)

/-- The bytes that `handle` appends to a non-null `response` when it returns `true` on
the payload `data` (none when `SerializeToString` fails), or `none` when it returns
`false`. -/
def IMessageHandler.appended (h : IMessageHandler) (lib : JsonLib) (data : Bytes) :
    Option Bytes :=
  match h with
  | IMessageHandler.protobuf p =>
    match p.ParseFromString data with
    | none => none
    | some request =>
      match p.handler_ request with
      | none => none
      | some response_msg =>
        match p.SerializeToString response_msg with
        | some serialized => some (LVProtocol.ctor ProtocolType.PROTOBUF serialized).to_string
        | none => some []
  | IMessageHandler.json j =>
    match ProtocolTools.deserialize lib data true with
    | none => none
    | some request =>
      match j.handler_ request with
      | none => none
      | some response_msg =>
        some (LVProtocol.ctor ProtocolType.JSON
          ((ProtocolTools.serialize lib response_msg true).getD [])).to_string

/-- The bytes appended by the first handler of the list that has the type of the frame
and returns `true`; `none` when there is no such handler. -/
def first_appended (lib : JsonLib) : List IMessageHandler → LVProtocol → Option Bytes
  | [], _ => none
  | handler :: rest, message =>
    if handler.get_type = message.type then
      match handler.appended lib message.data with
      | some out => some out
      | none => first_appended lib rest message
    else first_appended lib rest message

/-- The packed error frame that `send_error_response` appends for the message
`"No handler found"`. -/
def error_frame (lib : JsonLib) (now : Int) : Bytes :=
  (LVProtocol.ctor ProtocolType.JSON
    (lib.write (error_response "No handler found".toList now))).to_string

/-- The bytes `out(f)` that `handle_single_message` appends to a non-null `send` for the
frame `message`: those of the handler that succeeded, or the error frame. -/
def Provider.out (p : Provider) (lib : JsonLib) (now : Int) (message : LVProtocol) : Bytes :=
  match first_appended lib p.handlers_ message with
  | some out => out
  | none => error_frame lib now

end net


/-! # Theorems -/

namespace ProtocolTools

/-! ## Where the gap occurs -/

theorem gap_prefix_iff (s : Bytes) : gap <+: s ↔ gapAt s 0 := by
  unfold gapAt gap
  match s with
  | [] => simp
  | [a] => simp
  | a :: b :: t => simp [List.cons_prefix_cons, eq_comm]

theorem gapAt_cons_succ (c : Char) (t : Bytes) (j : Nat) :
    gapAt (c :: t) (j + 1) ↔ gapAt t j := by
  simp [gapAt]

theorem gapAt_drop (s : Bytes) (p j : Nat) : gapAt (s.drop p) j ↔ gapAt s (p + j) := by
  simp [gapAt, List.getElem?_drop, Nat.add_assoc]

theorem gapAt_lt {s : Bytes} {j : Nat} (h : gapAt s j) : j + 2 ≤ s.length := by
  have h2 := h.2
  rcases Nat.lt_or_ge (j + 1) s.length with hlt | hge
  · omega
  · rw [List.getElem?_eq_none hge] at h2
    cases h2

theorem findFrom_gap_some_iff (s : Bytes) (i k : Nat) :
    findFrom gap s i = some k ↔
      i ≤ k ∧ gapAt s (k - i) ∧ ∀ j, j < k - i → ¬ gapAt s j := by
  induction s generalizing i with
  | nil =>
    simp [findFrom, gap, gapAt]
  | cons c t ih =>
    unfold findFrom
    by_cases hp : gap <+: c :: t
    · rw [if_pos hp]
      have h0 := (gap_prefix_iff _).1 hp
      constructor
      · intro h
        have hk : i = k := by simpa using h
        subst hk
        simp [h0]
      · rintro ⟨hik, hg, hmin⟩
        rcases Nat.eq_zero_or_pos (k - i) with hz | hpos
        · have : i = k := by omega
          simp [this]
        · exact absurd h0 (hmin 0 hpos)
    · rw [if_neg hp, ih]
      have h0 : ¬ gapAt (c :: t) 0 := fun h => hp ((gap_prefix_iff _).2 h)
      constructor
      · rintro ⟨hik, hg, hmin⟩
        have hki : k - i = (k - (i + 1)) + 1 := by omega
        refine ⟨by omega, ?_, ?_⟩
        · rw [hki, gapAt_cons_succ]; exact hg
        · intro j hj
          cases j with
          | zero => exact h0
          | succ j =>
            rw [gapAt_cons_succ]
            exact hmin j (by omega)
      · rintro ⟨hik, hg, hmin⟩
        have hne : k - i ≠ 0 := by
          intro hz
          rw [hz] at hg
          exact h0 hg
        have hki : k - i = (k - (i + 1)) + 1 := by omega
        refine ⟨by omega, ?_, ?_⟩
        · rw [hki, gapAt_cons_succ] at hg; exact hg
        · intro j hj
          have := hmin (j + 1) (by omega)
          rwa [gapAt_cons_succ] at this

theorem findFrom_gap_none_iff (s : Bytes) (i : Nat) :
    findFrom gap s i = none ↔ ∀ j, ¬ gapAt s j := by
  induction s generalizing i with
  | nil => simp [findFrom, gap, gapAt]
  | cons c t ih =>
    unfold findFrom
    by_cases hp : gap <+: c :: t
    · rw [if_pos hp]
      have h0 := (gap_prefix_iff _).1 hp
      simp only [false_iff, not_forall, not_not, reduceCtorEq]
      exact ⟨0, h0⟩
    · rw [if_neg hp, ih]
      have h0 : ¬ gapAt (c :: t) 0 := fun h => hp ((gap_prefix_iff _).2 h)
      constructor
      · intro h j
        cases j with
        | zero => exact h0
        | succ j => rw [gapAt_cons_succ]; exact h j
      · intro h j
        have := h (j + 1)
        rwa [gapAt_cons_succ] at this

theorem find_gap_some_iff (s : Bytes) (p k : Nat) :
    find s gap p = some k ↔ p ≤ k ∧ gapAt s k ∧ ∀ j, p ≤ j → j < k → ¬ gapAt s j := by
  unfold find
  by_cases hp : p ≤ s.length
  · rw [if_pos hp, findFrom_gap_some_iff]
    constructor
    · rintro ⟨hpk, hg, hmin⟩
      refine ⟨hpk, ?_, ?_⟩
      · rw [gapAt_drop] at hg
        have : p + (k - p) = k := by omega
        rwa [this] at hg
      · intro j hj hjk
        have := hmin (j - p) (by omega)
        rw [gapAt_drop] at this
        have e : p + (j - p) = j := by omega
        rwa [e] at this
    · rintro ⟨hpk, hg, hmin⟩
      refine ⟨hpk, ?_, ?_⟩
      · rw [gapAt_drop]
        have : p + (k - p) = k := by omega
        rwa [this]
      · intro j hj
        rw [gapAt_drop]
        exact hmin (p + j) (by omega) (by omega)
  · rw [if_neg hp]
    constructor
    · intro h; cases h
    · rintro ⟨hpk, hg, _⟩
      have := gapAt_lt hg
      omega

theorem find_gap_none_iff (s : Bytes) (p : Nat) :
    find s gap p = none ↔ ∀ j, p ≤ j → ¬ gapAt s j := by
  unfold find
  by_cases hp : p ≤ s.length
  · rw [if_pos hp, findFrom_gap_none_iff]
    constructor
    · intro h j hj
      have := h (j - p)
      rw [gapAt_drop] at this
      have e : p + (j - p) = j := by omega
      rwa [e] at this
    · intro h j
      rw [gapAt_drop]
      exact h (p + j) (by omega)
  · rw [if_neg hp]
    simp only [true_iff]
    intro j hj hg
    have := gapAt_lt hg
    omega

theorem gap_length : gap.length = 2 := rfl

theorem getElem?_initial {X Z : Bytes} (h : X <+: Z) {i : Nat} (hi : i < X.length) :
    X[i]? = Z[i]? := by
  obtain ⟨t, rfl⟩ := h
  exact (List.getElem?_append_left hi).symm

theorem gapAt_extend {X Z : Bytes} (h : X <+: Z) {j : Nat} (hg : gapAt X j) :
    gapAt Z j := by
  have hl := gapAt_lt hg
  unfold gapAt at *
  rw [← getElem?_initial h (by omega), ← getElem?_initial h (by omega)]
  exact hg

theorem gapAt_restrict {X Z : Bytes} (h : X <+: Z) {j : Nat} (hg : gapAt Z j)
    (hl : j + 2 ≤ X.length) : gapAt X j := by
  unfold gapAt at *
  rw [getElem?_initial h (by omega), getElem?_initial h (by omega)]
  exact hg

theorem find_gap_mono {X Z : Bytes} (h : X <+: Z) {p k : Nat}
    (hf : find X gap p = some k) : find Z gap p = some k := by
  rw [find_gap_some_iff] at *
  obtain ⟨hpk, hg, hmin⟩ := hf
  have hl := gapAt_lt hg
  refine ⟨hpk, gapAt_extend h hg, ?_⟩
  intro j hj hjk hgz
  exact hmin j hj hjk (gapAt_restrict h hgz (by omega))

theorem find_gap_restrict {X Z : Bytes} (h : X <+: Z) {p k : Nat}
    (hf : find Z gap p = some k) (hl : k + 2 ≤ X.length) : find X gap p = some k := by
  rw [find_gap_some_iff] at *
  obtain ⟨hpk, hg, hmin⟩ := hf
  refine ⟨hpk, gapAt_restrict h hg hl, ?_⟩
  intro j hj hjk hgx
  exact hmin j hj hjk (gapAt_extend h hgx)

theorem find_gap_none_of_short {X Z : Bytes} (h : X <+: Z) {p k : Nat}
    (hf : find Z gap p = some k) (hl : X.length < k + 2) : find X gap p = none := by
  rw [find_gap_none_iff]
  rw [find_gap_some_iff] at hf
  obtain ⟨_, _, hmin⟩ := hf
  intro j hj hgx
  have := gapAt_lt hgx
  exact hmin j hj (by omega) (gapAt_extend h hgx)

theorem take2_eq_iff (l : Bytes) (a b : Char) :
    l.take 2 = [a, b] ↔ l[0]? = some a ∧ l[1]? = some b := by
  match l with
  | [] => simp
  | [x] => simp
  | x :: y :: t => simp

theorem take2_drop_eq_iff (s : Bytes) (i : Nat) (a b : Char) :
    (s.drop i).take 2 = [a, b] ↔ s[i]? = some a ∧ s[i + 1]? = some b := by
  rw [take2_eq_iff]
  simp [List.getElem?_drop]

theorem gapAt_iff_take (s : Bytes) (j : Nat) : gapAt s j ↔ (s.drop j).take 2 = gap := by
  unfold gapAt gap
  rw [take2_drop_eq_iff]

theorem type_of_str_eq_some_iff (x : Bytes) (T : ProtocolType) :
    type_of_str x = some T ↔ x = marker T := by
  unfold type_of_str marker
  cases T <;> by_cases h1 : x = ['P', 'B'] <;> by_cases h2 : x = ['J', 'S'] <;>
    simp_all

theorem marker_getElem (T : ProtocolType) :
    ∃ a b, marker T = [a, b] ∧ a ≠ '\r' ∧ b ≠ '\r' := by
  cases T
  · exact ⟨'P', 'B', rfl, by decide, by decide⟩
  · exact ⟨'J', 'S', rfl, by decide, by decide⟩

theorem find_tag_end {s : Bytes} {len_end : Nat} {T : ProtocolType}
    (hm : (s.drop (len_end + 2)).take 2 = marker T) (hg : gapAt s (len_end + 4)) :
    find s gap (len_end + 2) = some (len_end + 4) := by
  rw [find_gap_some_iff]
  refine ⟨by omega, hg, ?_⟩
  intro j hj hjk hgj
  obtain ⟨a, b, hab, ha, hb⟩ := marker_getElem T
  rw [hab, take2_drop_eq_iff] at hm
  have hj2 : j = len_end + 2 ∨ j = len_end + 2 + 1 := by omega
  rcases hj2 with rfl | rfl
  · have := hgj.1
    rw [hm.1] at this
    exact ha (Option.some.inj this)
  · have := hgj.1
    rw [hm.2] at this
    exact hb (Option.some.inj this)

theorem parse_message_header_some_iff (s : Bytes) (ds : Nat) (L : Int) (T : ProtocolType) :
    parse_message_header s = some (some (ds, L, T)) ↔
      ∃ len_end, ds = len_end + 6 ∧ HeaderAt s len_end L T := by
  unfold parse_message_header HeaderAt
  cases h1 : find s gap 0 with
  | none => simp
  | some len_end =>
    have hsub : substr s 0 (len_end - 0) = some (s.take len_end) := by simp [substr]
    simp only [hsub]
    cases h2 : stoi (s.take len_end) with
    | none =>
      constructor
      · intro h; simp at h
      · rintro ⟨le, _, hle, hL, _, _⟩
        have hle : len_end = le := Option.some.inj hle
        subst hle
        rw [h2] at hL
        cases hL
    | some L1 =>
      simp only [gap_length]
      cases h3 : find s gap (len_end + 2) with
      | none =>
        constructor
        · intro h; simp at h
        · rintro ⟨le, _, hle, _, hm, hg⟩
          have hle : len_end = le := Option.some.inj hle
          subst hle
          rw [find_tag_end hm hg] at h3
          cases h3
      | some type_end =>
        obtain ⟨hpk, hg, hmin⟩ := (find_gap_some_iff _ _ _).1 h3
        have hlen := gapAt_lt hg
        have hsub2 : substr s (len_end + 2) (type_end - (len_end + 2))
            = some ((s.drop (len_end + 2)).take (type_end - (len_end + 2))) := by
          unfold substr
          rw [if_neg (by omega)]
        simp only [hsub2]
        cases h4 : type_of_str ((s.drop (len_end + 2)).take (type_end - (len_end + 2))) with
        | none =>
          constructor
          · intro h; simp at h
          · rintro ⟨le, _, hle, _, hm, hg2⟩
            have hle : len_end = le := Option.some.inj hle
            subst hle
            rw [find_tag_end hm hg2] at h3
            have : len_end + 4 = type_end := Option.some.inj h3
            subst this
            have e : len_end + 4 - (len_end + 2) = 2 := by omega
            rw [e, hm] at h4
            have := (type_of_str_eq_some_iff (marker T) T).2 rfl
            rw [this] at h4
            cases h4
        | some T1 =>
          rw [type_of_str_eq_some_iff] at h4
          have hte : type_end = len_end + 4 := by
            have hl := congrArg List.length h4
            obtain ⟨a, b, hab, _, _⟩ := marker_getElem T1
            rw [hab] at hl
            simp only [List.length_take, List.length_drop, List.length_cons,
              List.length_nil] at hl
            omega
          subst hte
          have e : len_end + 4 - (len_end + 2) = 2 := by omega
          rw [e] at h4
          simp only [Option.some.injEq, Prod.mk.injEq]
          constructor
          · rintro ⟨rfl, rfl, rfl⟩
            exact ⟨len_end, rfl, rfl, h2, h4, hg⟩
          · rintro ⟨le, hds, hle, hL, hm, _⟩
            subst hle
            rw [h2] at hL
            refine ⟨by omega, Option.some.inj hL, ?_⟩
            rw [h4] at hm
            cases T <;> cases T1 <;> simp_all [marker]

theorem parse_message_header_ne_none (s : Bytes) : parse_message_header s ≠ none := by
  unfold parse_message_header
  cases h1 : find s gap 0 with
  | none => simp
  | some len_end =>
    have hsub : substr s 0 (len_end - 0) = some (s.take len_end) := by simp [substr]
    simp only [hsub]
    cases h2 : stoi (s.take len_end) with
    | none => simp
    | some L1 =>
      simp only [gap_length]
      cases h3 : find s gap (len_end + 2) with
      | none => simp
      | some type_end =>
        obtain ⟨hpk, hg, hmin⟩ := (find_gap_some_iff _ _ _).1 h3
        have hlen := gapAt_lt hg
        have hsub2 : substr s (len_end + 2) (type_end - (len_end + 2))
            = some ((s.drop (len_end + 2)).take (type_end - (len_end + 2))) := by
          unfold substr
          rw [if_neg (by omega)]
        simp only [hsub2]
        cases h4 : type_of_str ((s.drop (len_end + 2)).take (type_end - (len_end + 2))) <;>
          simp

/-! ## `std::to_string` and `std::stoi` -/

theorem digitVal_digitChar (d : Nat) (h : d < 10) : digitVal (digitChar d) = d := by
  interval_cases d <;> rfl

theorem isdigit_digitChar (d : Nat) : isdigit (digitChar d) = true := by
  unfold digitChar
  split <;> decide

theorem digitChar_eq (d : Nat) (h : d < 10) : digitChar d = Nat.digitChar d := by
  interval_cases d <;> rfl

theorem to_chars_eq_toDigitsCore (fuel n : Nat) (acc : Bytes) :
    to_chars fuel n acc = Nat.toDigitsCore 10 fuel n acc := by
  induction fuel generalizing n acc with
  | zero => rfl
  | succ fuel ih =>
    unfold to_chars Nat.toDigitsCore
    rw [digitChar_eq (n % 10) (Nat.mod_lt _ (by decide))]
    by_cases h : n / 10 = 0
    · simp [h]
    · simp only [h, if_false]
      exact ih _ _

theorem to_string_nat_eq_dec (n : Nat) : to_string_nat n = dec n := by
  unfold to_string_nat dec Nat.toDigits
  exact to_chars_eq_toDigitsCore _ _ _

theorem to_chars_acc (fuel n : Nat) (acc : Bytes) :
    to_chars fuel n acc = to_chars fuel n [] ++ acc := by
  induction fuel generalizing n acc with
  | zero => simp [to_chars]
  | succ fuel ih =>
    unfold to_chars
    by_cases h : n / 10 = 0
    · simp [h]
    · simp only [h, if_false]
      rw [ih (n / 10) (digitChar (n % 10) :: acc), ih (n / 10) [digitChar (n % 10)]]
      simp

theorem to_chars_fuel (fuel fuel2 n : Nat) (acc : Bytes) (h1 : n < fuel) (h2 : n < fuel2) :
    to_chars fuel n acc = to_chars fuel2 n acc := by
  induction fuel generalizing fuel2 n acc with
  | zero => omega
  | succ fuel ih =>
    cases fuel2 with
    | zero => omega
    | succ fuel2 =>
      unfold to_chars
      by_cases h : n / 10 = 0
      · simp [h]
      · simp only [h, if_false]
        have hlt : n / 10 < n := Nat.div_lt_self (by omega) (by decide)
        exact ih fuel2 (n / 10) _ (by omega) (by omega)

theorem to_string_nat_small (n : Nat) (h : n / 10 = 0) :
    to_string_nat n = [digitChar (n % 10)] := by
  unfold to_string_nat to_chars
  simp [h]

theorem to_string_nat_step (n : Nat) (h : n / 10 ≠ 0) :
    to_string_nat n = to_string_nat (n / 10) ++ [digitChar (n % 10)] := by
  have hlt : n / 10 < n := Nat.div_lt_self (by omega) (by decide)
  unfold to_string_nat
  conv_lhs => unfold to_chars
  simp only [h, if_false]
  rw [to_chars_acc, to_chars_fuel n (n / 10 + 1) (n / 10) [] hlt (by omega)]

theorem digitsVal_append (l : Bytes) (c : Char) :
    digitsVal (l ++ [c]) = 10 * digitsVal l + digitVal c := by
  simp [digitsVal, List.foldl_append]

theorem digitsVal_to_string_nat (n : Nat) : digitsVal (to_string_nat n) = n := by
  induction n using Nat.strong_induction_on with
  | _ n ih =>
    by_cases h : n / 10 = 0
    · rw [to_string_nat_small n h]
      simp only [digitsVal, List.foldl_cons, List.foldl_nil]
      rw [digitVal_digitChar _ (Nat.mod_lt _ (by decide))]
      omega
    · have hlt : n / 10 < n := Nat.div_lt_self (by omega) (by decide)
      rw [to_string_nat_step n h, digitsVal_append, ih _ hlt,
        digitVal_digitChar _ (Nat.mod_lt _ (by decide))]
      omega

theorem isdigit_to_string_nat (n : Nat) : ∀ c ∈ to_string_nat n, isdigit c = true := by
  induction n using Nat.strong_induction_on with
  | _ n ih =>
    by_cases h : n / 10 = 0
    · rw [to_string_nat_small n h]
      intro c hc
      simp only [List.mem_singleton] at hc
      subst hc
      exact isdigit_digitChar _
    · have hlt : n / 10 < n := Nat.div_lt_self (by omega) (by decide)
      rw [to_string_nat_step n h]
      intro c hc
      rcases List.mem_append.1 hc with hc | hc
      · exact ih _ hlt c hc
      · simp only [List.mem_singleton] at hc
        subst hc
        exact isdigit_digitChar _

theorem to_string_nat_ne_nil (n : Nat) : to_string_nat n ≠ [] := by
  by_cases h : n / 10 = 0
  · rw [to_string_nat_small n h]; simp
  · rw [to_string_nat_step n h]; simp

theorem isdigit_not_special {c : Char} (h : isdigit c = true) :
    isspace c = false ∧ c ≠ '-' ∧ c ≠ '+' ∧ c ≠ '\r' ∧ c ≠ '\n' := by
  have key : ∀ d : Char, (d = ' ' ∨ d = '\t' ∨ d = '\n' ∨ d = '\x0b' ∨ d = '\x0c' ∨ d = '\r'
      ∨ d = '-' ∨ d = '+') → isdigit d = false := by
    intro d hd
    rcases hd with rfl | rfl | rfl | rfl | rfl | rfl | rfl | rfl <;> decide
  refine ⟨?_, ?_, ?_, ?_, ?_⟩
  · by_contra hs
    have hs : isspace c = true := by simpa using hs
    unfold isspace at hs
    simp only [Bool.or_eq_true, decide_eq_true_eq] at hs
    have := key c (by tauto)
    rw [h] at this
    cases this
  all_goals
    intro hc
    have := key c (by simp [hc])
    rw [h] at this
    cases this

theorem stoi_value_range {neg : Bool} {ds : Bytes} {L : Int}
    (h : stoi_value neg ds = some L) : INT_MIN ≤ L ∧ L ≤ INT_MAX := by
  unfold stoi_value at h
  by_cases h1 : ds = []
  · rw [if_pos h1] at h
    cases h
  · rw [if_neg h1] at h
    cases neg <;> simp only [Bool.false_eq_true, if_false, if_true] at h <;>
      (split at h
       · rename_i hr
         cases h
         exact hr
       · cases h)

theorem stoi_range {s : Bytes} {L : Int} (h : stoi s = some L) : INT_MIN ≤ L ∧ L ≤ INT_MAX :=
  stoi_value_range h

theorem stoi_digits (ds : Bytes) (hne : ds ≠ []) (hd : ∀ c ∈ ds, isdigit c = true)
    (hv : (digitsVal ds : Int) ≤ INT_MAX) : stoi ds = some (digitsVal ds : Int) := by
  obtain ⟨c, t, rfl⟩ := List.exists_cons_of_ne_nil hne
  have hc := isdigit_not_special (hd c (List.mem_cons_self _ _))
  have h1 : (c :: t).dropWhile isspace = c :: t := by
    simp [List.dropWhile, hc.1]
  have h2 : (c :: t).takeWhile isdigit = c :: t := by
    rw [List.takeWhile_eq_self_iff]
    exact hd
  unfold stoi
  simp only [h1, List.head?_cons, Option.some.injEq, hc.2.1, hc.2.2.1, or_self, if_false,
    h2, decide_False]
  have hmin : INT_MIN ≤ (digitsVal (c :: t) : Int) := by
    unfold INT_MIN; omega
  unfold stoi_value
  simp [hmin, hv]

theorem stoi_to_string_nat (n : Nat) (h : (n : Int) ≤ INT_MAX) :
    stoi (to_string_nat n) = some (n : Int) := by
  have := stoi_digits (to_string_nat n) (to_string_nat_ne_nil n) (isdigit_to_string_nat n)
    (by rw [digitsVal_to_string_nat]; exact h)
  rw [digitsVal_to_string_nat] at this
  exact this

/-! ## Arithmetic of `size_t` and `int` -/

theorem size_t_of_int_nonneg {L : Int} (h0 : 0 ≤ L) (h1 : L ≤ INT_MAX) :
    size_t_of_int L = L.toNat := by
  unfold size_t_of_int SIZE_MOD
  unfold INT_MAX at h1
  omega

theorem size_t_of_int_neg {L : Int} (h0 : L < 0) (h1 : INT_MIN ≤ L) :
    (size_t_of_int L : Int) = 18446744073709551616 + L := by
  unfold size_t_of_int SIZE_MOD
  unfold INT_MIN at h1
  omega

theorem size_t_add_nonneg {ds : Nat} {L : Int} (hds : ds ≤ max_size) (h0 : 0 ≤ L)
    (h1 : L ≤ INT_MAX) :
    size_t_add ds (size_t_of_int L) = ds + L.toNat ∧
      size_t_add (size_t_add ds (size_t_of_int L)) 2 = ds + L.toNat + 2 := by
  rw [size_t_of_int_nonneg h0 h1]
  unfold size_t_add SIZE_MOD
  unfold max_size at hds
  unfold INT_MAX at h1
  omega

theorem size_t_add_neg_ge {ds : Nat} {L : Int} (hds : ds ≤ max_size) (h0 : L < 0)
    (h1 : INT_MIN ≤ L) (h2 : 0 ≤ (ds : Int) + L) :
    (size_t_add ds (size_t_of_int L) : Int) = ds + L ∧
      (size_t_add (size_t_add ds (size_t_of_int L)) 2 : Int) = ds + L + 2 := by
  have := size_t_of_int_neg h0 h1
  unfold size_t_add SIZE_MOD
  unfold max_size at hds
  unfold INT_MIN at h1
  omega

theorem size_t_add_neg_lt {ds : Nat} {L : Int} (hds : ds ≤ max_size) (h0 : L < 0)
    (h1 : INT_MIN ≤ L) (h2 : (ds : Int) + L < 0) :
    (size_t_add ds (size_t_of_int L) : Int) = 18446744073709551616 + ds + L := by
  have := size_t_of_int_neg h0 h1
  unfold size_t_add SIZE_MOD
  unfold max_size at hds
  unfold INT_MIN at h1
  omega

/-! ## `find_complete_message` and `from_string` after the header -/

theorem substr_gap_eq (s : Bytes) (p : Nat) (hp : ¬ p > s.length) :
    substr s p 2 = some ((s.drop p).take 2) := by
  unfold substr
  rw [if_neg hp]

theorem find_complete_message_eval {s : Bytes} {ds : Nat} {L : Int} {T : ProtocolType}
    (h : parse_message_header s = some (some (ds, L, T))) :
    find_complete_message s =
      if size_t_add (size_t_add ds (size_t_of_int L)) 2 > s.length then some none
      else if size_t_add ds (size_t_of_int L) > s.length then none
      else if gapAt s (size_t_add ds (size_t_of_int L)) then
        some (some (size_t_add (size_t_add ds (size_t_of_int L)) 2))
      else some none := by
  unfold find_complete_message
  rw [h]
  simp only [gap_length]
  by_cases h1 : size_t_add (size_t_add ds (size_t_of_int L)) 2 > s.length
  · rw [if_pos h1, if_pos h1]
  · rw [if_neg h1, if_neg h1]
    by_cases h2 : size_t_add ds (size_t_of_int L) > s.length
    · rw [if_pos h2]
      unfold substr
      rw [if_pos h2]
    · rw [if_neg h2, substr_gap_eq _ _ h2]
      simp only
      by_cases h3 : gapAt s (size_t_add ds (size_t_of_int L))
      · rw [if_pos h3, if_neg (fun hne => hne ((gapAt_iff_take _ _).1 h3))]
      · rw [if_neg h3, if_pos (fun he => h3 ((gapAt_iff_take _ _).2 he))]

theorem find_complete_message_of_header_fail {s : Bytes}
    (h : parse_message_header s = some none) : find_complete_message s = some none := by
  unfold find_complete_message
  rw [h]

theorem headerAt_bounds {s : Bytes} {le : Nat} {L : Int} {T : ProtocolType}
    (h : HeaderAt s le L T) :
    le + 6 ≤ s.length ∧ find s gap (le + 2) = some (le + 4) ∧ gapAt s le := by
  obtain ⟨h1, _, h3, h4⟩ := h
  exact ⟨gapAt_lt h4, find_tag_end h3 h4, ((find_gap_some_iff _ _ _).1 h1).2.1⟩

theorem type_of_str_marker (T : ProtocolType) : type_of_str (marker T) = some T :=
  (type_of_str_eq_some_iff _ _).2 rfl

theorem from_string_eval {s : Bytes} {ds : Nat} {L : Int} {T : ProtocolType}
    (m : LVProtocol) (hg : m.gap = gap)
    (h : parse_message_header s = some (some (ds, L, T))) :
    m.from_string s =
      if size_t_add (size_t_add ds (size_t_of_int L)) 2 > s.length then
        some (false, { type := T, length := L, data := m.data, gap := gap })
      else if size_t_add ds (size_t_of_int L) > s.length then none
      else if gapAt s (size_t_add ds (size_t_of_int L)) then
        some (true, { type := T, length := L,
                      data := (s.drop ds).take (size_t_of_int L), gap := gap })
      else
        some (false, { type := T, length := L,
                       data := (s.drop ds).take (size_t_of_int L), gap := gap }) := by
  obtain ⟨le, hds, hh⟩ := (parse_message_header_some_iff _ _ _ _).1 h
  obtain ⟨hb, hf2, _⟩ := headerAt_bounds hh
  obtain ⟨hf1, hst, hm, hg4⟩ := hh
  obtain ⟨mt, ml, md, mg⟩ := m
  simp only at hg
  subst hg hds
  have hsub : substr s 0 (le - 0) = some (s.take le) := by simp [substr]
  have hsub2 : substr s (le + 2) (le + 4 - (le + 2)) = some (marker T) := by
    unfold substr
    rw [if_neg (by omega)]
    have e : le + 4 - (le + 2) = 2 := by omega
    rw [e, hm]
  have hsub3 : substr s (le + 4 + 2) (size_t_of_int L)
      = some ((s.drop (le + 6)).take (size_t_of_int L)) := by
    unfold substr
    rw [if_neg (by omega)]
  unfold LVProtocol.from_string
  simp only [hf1, hsub, hst, gap_length, hf2, hsub2, type_of_str_marker, hsub3]
  have e6 : le + 4 + 2 = le + 6 := by omega
  rw [e6]
  by_cases h1 : size_t_add (size_t_add (le + 6) (size_t_of_int L)) 2 > s.length
  · rw [if_pos h1, if_pos h1]
  · rw [if_neg h1, if_neg h1]
    by_cases h2 : size_t_add (le + 6) (size_t_of_int L) > s.length
    · rw [if_pos h2]
      unfold substr
      rw [if_pos h2]
    · rw [if_neg h2, substr_gap_eq _ _ h2]
      simp only
      by_cases h3 : gapAt s (size_t_add (le + 6) (size_t_of_int L))
      · rw [if_pos h3, if_neg (fun hne => hne ((gapAt_iff_take _ _).1 h3))]
      · rw [if_neg h3, if_pos (fun he => h3 ((gapAt_iff_take _ _).2 he))]

theorem from_string_of_header_fail {s : Bytes} (m : LVProtocol) (hg : m.gap = gap)
    (h : parse_message_header s = some none) : ∃ m1, m.from_string s = some (false, m1) := by
  obtain ⟨mt, ml, md, mg⟩ := m
  simp only at hg
  subst hg
  unfold parse_message_header at h
  unfold LVProtocol.from_string
  cases h1 : find s gap 0 with
  | none => exact ⟨_, rfl⟩
  | some le =>
    have hsub : substr s 0 (le - 0) = some (s.take le) := by simp [substr]
    simp only [h1, hsub] at h ⊢
    cases h2 : stoi (s.take le) with
    | none => exact ⟨_, rfl⟩
    | some L =>
      simp only [h2, gap_length] at h ⊢
      cases h3 : find s gap (le + 2) with
      | none => exact ⟨_, rfl⟩
      | some te =>
        simp only [h3] at h ⊢
        cases h4 : substr s (le + 2) (te - (le + 2)) with
        | none =>
          rw [h4] at h
          cases h
        | some ts =>
          simp only [h4] at h ⊢
          cases h5 : type_of_str ts with
          | none => exact ⟨_, rfl⟩
          | some T =>
            rw [h5] at h
            cases h

/-! ## A packed frame at the front of the buffer -/

theorem int_of_size_t_small {n : Nat} (h : (n : Int) ≤ INT_MAX) : int_of_size_t n = n := by
  unfold int_of_size_t
  unfold INT_MAX at h
  omega

theorem std_to_string_natCast (n : Nat) : std_to_string (n : Int) = to_string_nat n := by
  unfold std_to_string
  rw [if_neg (by omega)]
  simp

theorem marker_eq_ite (T : ProtocolType) :
    (if T = ProtocolType.PROTOBUF then ['P', 'B'] else ['J', 'S']) = marker T := by
  cases T <;> rfl

theorem to_string_ctor (T : ProtocolType) (P : Bytes) (h : (P.length : Int) ≤ INT_MAX) :
    (LVProtocol.ctor T P).to_string =
      to_string_nat P.length ++ gap ++ marker T ++ gap ++ P ++ gap := by
  unfold LVProtocol.ctor LVProtocol.make LVProtocol.to_string
  simp only [int_of_size_t_small h, std_to_string_natCast, marker_eq_ite]

theorem ctor_eq (T : ProtocolType) (P : Bytes) (h : (P.length : Int) ≤ INT_MAX) :
    LVProtocol.ctor T P = { type := T, length := (P.length : Int), data := P, gap := gap } := by
  unfold LVProtocol.ctor LVProtocol.make
  rw [int_of_size_t_small h]

theorem getElem?_append_add (d t : Bytes) (k : Nat) : (d ++ t)[d.length + k]? = t[k]? := by
  rw [List.getElem?_append_right (by omega)]
  congr 1
  omega

theorem gapAt_append_add (d t : Bytes) (k : Nat) : gapAt (d ++ t) (d.length + k) ↔ gapAt t k := by
  unfold gapAt
  rw [Nat.add_assoc, getElem?_append_add, getElem?_append_add]

theorem to_string_nat_no_cr (n : Nat) : ∀ c ∈ to_string_nat n, c ≠ '\r' :=
  fun c hc => (isdigit_not_special (isdigit_to_string_nat n c hc)).2.2.2.1

theorem headerAt_layout (d : Bytes) (L : Int) (T : ProtocolType) (t : Bytes)
    (hd : ∀ c ∈ d, c ≠ '\r') (hs : stoi d = some L) :
    HeaderAt (d ++ gap ++ marker T ++ gap ++ t) d.length L T := by
  obtain ⟨a, b, hab, _, _⟩ := marker_getElem T
  have hlay : d ++ gap ++ marker T ++ gap ++ t
      = d ++ ('\r' :: '\n' :: a :: b :: '\r' :: '\n' :: t) := by
    rw [hab]
    simp [gap]
  rw [hlay]
  refine ⟨?_, ?_, ?_, ?_⟩
  · rw [find_gap_some_iff]
    refine ⟨Nat.zero_le _, ?_, ?_⟩
    · have := (gapAt_append_add d ('\r' :: '\n' :: a :: b :: '\r' :: '\n' :: t) 0).2
        (by simp [gapAt])
      simpa using this
    · intro j _ hj hg
      have h1 := hg.1
      rw [List.getElem?_append_left hj, List.getElem?_eq_getElem hj] at h1
      exact hd _ (List.getElem_mem hj) (Option.some.inj h1)
  · rw [List.take_left']
    · exact hs
    · rfl
  · rw [hab, take2_drop_eq_iff, Nat.add_assoc, getElem?_append_add, getElem?_append_add]
    simp
  · rw [gapAt_append_add]
    simp [gapAt]

theorem frameBytes_length (d : Bytes) (T : ProtocolType) (P : Bytes) :
    (frameBytes d T P).length = d.length + 6 + P.length + 2 := by
  obtain ⟨a, b, hab, _, _⟩ := marker_getElem T
  unfold frameBytes
  rw [hab]
  simp [gap]
  omega

theorem frameBytes_layout (d : Bytes) (T : ProtocolType) (P rest : Bytes) :
    frameBytes d T P ++ rest = d ++ gap ++ marker T ++ gap ++ (P ++ gap ++ rest) := by
  unfold frameBytes
  simp

theorem frameBytes_drop (d : Bytes) (T : ProtocolType) (P rest : Bytes) :
    (frameBytes d T P ++ rest).drop (d.length + 6) = P ++ gap ++ rest := by
  obtain ⟨a, b, hab, _, _⟩ := marker_getElem T
  have hl : (d ++ gap ++ marker T ++ gap).length = d.length + 6 := by
    rw [hab]; simp [gap]
  rw [frameBytes_layout, ← hl, List.drop_left]

theorem parse_message_header_frame (d : Bytes) (L : Int) (T : ProtocolType) (P rest : Bytes)
    (hd : ∀ c ∈ d, c ≠ '\r') (hs : stoi d = some L) :
    parse_message_header (frameBytes d T P ++ rest) = some (some (d.length + 6, L, T)) := by
  rw [parse_message_header_some_iff]
  refine ⟨d.length, rfl, ?_⟩
  rw [frameBytes_layout]
  exact headerAt_layout d L T _ hd hs

theorem gapAt_frame_end (d : Bytes) (T : ProtocolType) (P rest : Bytes) :
    gapAt (frameBytes d T P ++ rest) (d.length + 6 + P.length) := by
  have := (gapAt_drop (frameBytes d T P ++ rest) (d.length + 6) P.length).1
  apply this
  rw [frameBytes_drop, List.append_assoc]
  have h2 := (gapAt_append_add P (gap ++ rest) 0).2 (by simp [gapAt, gap])
  simpa using h2

theorem to_string_nat_length_le (n : Nat) : (to_string_nat n).length ≤ n + 1 := by
  induction n using Nat.strong_induction_on with
  | _ n ih =>
    by_cases h : n / 10 = 0
    · rw [to_string_nat_small n h]
      simp
    · have hlt : n / 10 < n := Nat.div_lt_self (by omega) (by decide)
      rw [to_string_nat_step n h]
      have := ih _ hlt
      simp only [List.length_append, List.length_singleton]
      omega

theorem fcm_frameBytes (d : Bytes) (T : ProtocolType) (P rest : Bytes)
    (hd : ∀ c ∈ d, c ≠ '\r') (hs : stoi d = some (P.length : Int))
    (hlen : d.length + 6 ≤ max_size) :
    find_complete_message (frameBytes d T P ++ rest)
      = some (some (frameBytes d T P).length) := by
  have hr := stoi_range hs
  obtain ⟨e1, e2⟩ := size_t_add_nonneg hlen (Int.natCast_nonneg P.length) hr.2
  rw [find_complete_message_eval (parse_message_header_frame d _ T P rest hd hs), e2, e1]
  simp only [Int.toNat_ofNat]
  have hl := frameBytes_length d T P
  rw [if_neg (by simp only [List.length_append]; omega),
    if_neg (by simp only [List.length_append]; omega),
    if_pos (gapAt_frame_end d T P rest), hl]

theorem from_string_frameBytes (m : LVProtocol) (hg : m.gap = gap)
    (d : Bytes) (T : ProtocolType) (P : Bytes)
    (hd : ∀ c ∈ d, c ≠ '\r') (hs : stoi d = some (P.length : Int))
    (hlen : d.length + 6 ≤ max_size) :
    m.from_string (frameBytes d T P)
      = some (true, { type := T, length := (P.length : Int), data := P, gap := gap }) := by
  have hr := stoi_range hs
  obtain ⟨e1, e2⟩ := size_t_add_nonneg hlen (Int.natCast_nonneg P.length) hr.2
  have hp := parse_message_header_frame d _ T P [] hd hs
  have hge := gapAt_frame_end d T P []
  have hdr := frameBytes_drop d T P []
  rw [List.append_nil] at hp hge hdr
  rw [from_string_eval m hg hp, e2, e1, size_t_of_int_nonneg (Int.natCast_nonneg _) hr.2]
  simp only [Int.toNat_ofNat]
  have hl := frameBytes_length d T P
  rw [if_neg (by omega), if_neg (by omega), if_pos hge, hdr]
  simp

theorem get_next_message_frameBytes (m : LVProtocol) (hg : m.gap = gap)
    (d : Bytes) (T : ProtocolType) (P rest : Bytes)
    (hd : ∀ c ∈ d, c ≠ '\r') (hs : stoi d = some (P.length : Int))
    (hlen : d.length + 6 ≤ max_size) :
    BufferHandler.get_next_message { buffer_ := frameBytes d T P ++ rest } m
      = some (true, { buffer_ := rest },
          { type := T, length := (P.length : Int), data := P, gap := gap }) := by
  unfold BufferHandler.get_next_message
  simp only [fcm_frameBytes d T P rest hd hs hlen]
  have hsub : substr (frameBytes d T P ++ rest) 0 (frameBytes d T P).length
      = some (frameBytes d T P) := by
    simp [substr]
  have her : erase (frameBytes d T P ++ rest) 0 (frameBytes d T P).length = some rest := by
    simp [erase]
  simp only [hsub, from_string_frameBytes m hg d T P hd hs hlen, her]

theorem get_next_message_ctor (m : LVProtocol) (hg : m.gap = gap)
    (T : ProtocolType) (P rest : Bytes) (hP : (P.length : Int) ≤ INT_MAX) :
    BufferHandler.get_next_message { buffer_ := (LVProtocol.ctor T P).to_string ++ rest } m
      = some (true, { buffer_ := rest }, LVProtocol.ctor T P) := by
  have hlen : (to_string_nat P.length).length + 6 ≤ max_size := by
    have := to_string_nat_length_le P.length
    unfold INT_MAX at hP
    unfold max_size
    omega
  have := get_next_message_frameBytes m hg (to_string_nat P.length) T P rest
    (to_string_nat_no_cr _) (stoi_to_string_nat _ hP) hlen
  rw [to_string_ctor T P hP, ctor_eq T P hP]
  exact this

/-! ## Prefixes of a buffer -/

theorem take_eq_initial {X Z : Bytes} (h : X <+: Z) {k : Nat} (hk : k ≤ X.length) :
    X.take k = Z.take k := by
  obtain ⟨t, rfl⟩ := h
  rw [List.take_append_of_le_length hk]

theorem headerAt_mono {X Z : Bytes} (h : X <+: Z) {le : Nat} {L : Int} {T : ProtocolType}
    (hh : HeaderAt X le L T) : HeaderAt Z le L T := by
  obtain ⟨hb, _, _⟩ := headerAt_bounds hh
  obtain ⟨h1, h2, h3, h4⟩ := hh
  obtain ⟨a, b, hab, _, _⟩ := marker_getElem T
  refine ⟨find_gap_mono h h1, ?_, ?_, gapAt_extend h h4⟩
  · rw [← take_eq_initial h (by omega)]
    exact h2
  · rw [hab, take2_drop_eq_iff] at h3 ⊢
    rw [← getElem?_initial h (by omega), ← getElem?_initial h (by omega)]
    exact h3

theorem headerAt_restrict {X Z : Bytes} (h : X <+: Z) {le : Nat} {L : Int} {T : ProtocolType}
    (hh : HeaderAt Z le L T) (hl : le + 6 ≤ X.length) : HeaderAt X le L T := by
  obtain ⟨h1, h2, h3, h4⟩ := hh
  obtain ⟨a, b, hab, _, _⟩ := marker_getElem T
  refine ⟨find_gap_restrict h h1 (by omega), ?_, ?_, gapAt_restrict h h4 (by omega)⟩
  · rw [take_eq_initial h (by omega)]
    exact h2
  · rw [hab, take2_drop_eq_iff] at h3 ⊢
    rw [getElem?_initial h (by omega), getElem?_initial h (by omega)]
    exact h3

theorem parse_message_header_mono {X Z : Bytes} (h : X <+: Z) {r : Nat × Int × ProtocolType}
    (hp : parse_message_header X = some (some r)) : parse_message_header Z = some (some r) := by
  obtain ⟨ds, L, T⟩ := r
  rw [parse_message_header_some_iff] at hp ⊢
  obtain ⟨le, hds, hh⟩ := hp
  exact ⟨le, hds, headerAt_mono h hh⟩

theorem parse_message_header_restrict {X Z : Bytes} (h : X <+: Z) {ds : Nat} {L : Int}
    {T : ProtocolType} (hp : parse_message_header Z = some (some (ds, L, T)))
    (hl : ds ≤ X.length) : parse_message_header X = some (some (ds, L, T)) := by
  rw [parse_message_header_some_iff] at hp ⊢
  obtain ⟨le, hds, hh⟩ := hp
  exact ⟨le, hds, headerAt_restrict h hh (by omega)⟩

theorem parse_message_header_cases (s : Bytes) :
    parse_message_header s = some none ∨
      ∃ ds L T, parse_message_header s = some (some (ds, L, T)) := by
  cases hp : parse_message_header s with
  | none => exact absurd hp (parse_message_header_ne_none s)
  | some r =>
    cases r with
    | none => exact Or.inl rfl
    | some r =>
      obtain ⟨ds, L, T⟩ := r
      exact Or.inr ⟨ds, L, T, rfl⟩

theorem parse_message_header_short {X Z : Bytes} (h : X <+: Z) {ds : Nat} {L : Int}
    {T : ProtocolType} (hp : parse_message_header Z = some (some (ds, L, T)))
    (hl : X.length < ds) : parse_message_header X = some none := by
  rcases parse_message_header_cases X with h0 | ⟨ds1, L1, T1, h1⟩
  · exact h0
  · have h2 := parse_message_header_mono h h1
    rw [hp] at h2
    simp only [Option.some.injEq, Prod.mk.injEq] at h2
    obtain ⟨rfl, rfl, rfl⟩ := h2
    obtain ⟨le, hds, hh⟩ := (parse_message_header_some_iff _ _ _ _).1 h1
    have := (headerAt_bounds hh).1
    omega

theorem parse_message_header_ds_le {s : Bytes} {ds : Nat} {L : Int} {T : ProtocolType}
    (hp : parse_message_header s = some (some (ds, L, T))) :
    ds ≤ s.length ∧ INT_MIN ≤ L ∧ L ≤ INT_MAX := by
  obtain ⟨le, hds, hh⟩ := (parse_message_header_some_iff _ _ _ _).1 hp
  have := (headerAt_bounds hh).1
  exact ⟨by omega, stoi_range hh.2.1⟩

/-- What a successful `find_complete_message` has established. -/
theorem find_complete_message_some_iff (s : Bytes) (e : Nat) :
    find_complete_message s = some (some e) ↔
      ∃ ds L T, parse_message_header s = some (some (ds, L, T)) ∧
        e = size_t_add (size_t_add ds (size_t_of_int L)) 2 ∧ e ≤ s.length ∧
        gapAt s (size_t_add ds (size_t_of_int L)) := by
  rcases parse_message_header_cases s with h0 | ⟨ds, L, T, h1⟩
  · rw [find_complete_message_of_header_fail h0]
    constructor
    · intro h; simp at h
    · rintro ⟨ds, L, T, hp, _⟩
      rw [h0] at hp
      simp at hp
  · rw [find_complete_message_eval h1]
    constructor
    · intro h
      split at h
      · simp at h
      · split at h
        · simp at h
        · split at h
          · rename_i hle _ hg
            simp only [Option.some.injEq] at h
            exact ⟨ds, L, T, h1, h.symm, by omega, hg⟩
          · simp at h
    · rintro ⟨ds1, L1, T1, hp, he, hle, hg⟩
      rw [h1] at hp
      simp only [Option.some.injEq, Prod.mk.injEq] at hp
      obtain ⟨rfl, rfl, rfl⟩ := hp
      have := gapAt_lt hg
      rw [if_neg (by omega), if_neg (by omega), if_pos hg, he]

theorem get_next_message_stuck {s : Bytes} (h : Stuck s) (m : LVProtocol) :
    BufferHandler.get_next_message { buffer_ := s } m = some (false, { buffer_ := s }, m) := by
  unfold BufferHandler.get_next_message
  simp only [show find_complete_message s = some none from h]

theorem stuck_of_fragment {X Z : Bytes} (h : X <+: Z) {ds : Nat} {L : Int}
    {T : ProtocolType} (hp : parse_message_header Z = some (some (ds, L, T)))
    (hL : 0 ≤ L) (hZ : ds ≤ max_size)
    (hl : X.length < ds + L.toNat + 2) : Stuck X := by
  unfold Stuck
  rcases Nat.lt_or_ge X.length ds with hlt | hge
  · exact find_complete_message_of_header_fail (parse_message_header_short h hp hlt)
  · have hpx := parse_message_header_restrict h hp hge
    obtain ⟨_, _, hmax⟩ := parse_message_header_ds_le hp
    obtain ⟨e1, e2⟩ := size_t_add_nonneg hZ hL hmax
    rw [find_complete_message_eval hpx, e2, if_pos hl]

/-! ## Round trip, partial frames, wire format -/

theorem strict_prefix_length {X Z : Bytes} (h : X <+: Z) (hne : X ≠ Z) :
    X.length < Z.length := by
  obtain ⟨t, rfl⟩ := h
  cases t with
  | nil => simp at hne
  | cons c t => simp

theorem to_string_nat_header_bound (n : Nat) (h : (n : Int) ≤ INT_MAX) :
    (to_string_nat n).length + 6 ≤ max_size := by
  have := to_string_nat_length_le n
  unfold INT_MAX at h
  unfold max_size
  omega

theorem stuck_of_fragment_ctor (T : ProtocolType) (P X : Bytes)
    (hP : (P.length : Int) ≤ INT_MAX) (hX : X <+: (LVProtocol.ctor T P).to_string)
    (hne : X ≠ (LVProtocol.ctor T P).to_string) : Stuck X := by
  rw [to_string_ctor T P hP] at hX hne
  have hp := parse_message_header_frame (to_string_nat P.length) _ T P []
    (to_string_nat_no_cr _) (stoi_to_string_nat _ hP)
  rw [List.append_nil] at hp
  have hl := strict_prefix_length hX hne
  have hfl := frameBytes_length (to_string_nat P.length) T P
  unfold frameBytes at hfl hp
  refine stuck_of_fragment hX hp (Int.natCast_nonneg _)
    (to_string_nat_header_bound _ hP) ?_
  simp only [Int.toNat_ofNat]
  omega

/-- C1. Round trip: the packed bytes of `LVProtocol(T, P)`, for a payload whose size fits
an `int`, appended to an empty `BufferHandler`, give on the first `get_next_message`
(called with a `message` of the default gap) the value `true`, a frame of type `T`,
data `P` and length `|P|`, and leave `remaining_size() == 0`. -/
theorem get_next_message_round_trip (T : ProtocolType) (P : Bytes) (message : LVProtocol)
    (hP : (P.length : Int) ≤ INT_MAX) (hg : message.gap = gap) :
    ∃ h f, (BufferHandler.new.append (LVProtocol.ctor T P).to_string).get_next_message message
        = some (true, h, f) ∧
      f.type = T ∧ f.data = P ∧ f.length = (P.length : Int) ∧ h.remaining_size = 0 := by
  refine ⟨{ buffer_ := [] }, LVProtocol.ctor T P, ?_, rfl, rfl, ?_, rfl⟩
  · have := get_next_message_ctor message hg T P [] hP
    rw [List.append_nil] at this
    unfold BufferHandler.new BufferHandler.append
    rw [List.nil_append]
    exact this
  · rw [ctor_eq T P hP]

theorem get_next_message_round_trip_witness :
    ((['a', '\r', '\n', 'b'] : Bytes).length : Int) ≤ INT_MAX ∧ LVProtocol.default.gap = gap ∧
    ∃ h f, (BufferHandler.new.append
        (LVProtocol.ctor ProtocolType.JSON ['a', '\r', '\n', 'b']).to_string).get_next_message
          LVProtocol.default = some (true, h, f) ∧
      f.type = ProtocolType.JSON ∧ f.data = ['a', '\r', '\n', 'b'] ∧
      f.length = ((['a', '\r', '\n', 'b'] : Bytes).length : Int) ∧ h.remaining_size = 0 :=
  ⟨by decide, rfl,
    get_next_message_round_trip ProtocolType.JSON ['a', '\r', '\n', 'b'] LVProtocol.default
      (by decide) rfl⟩

/-- C3. Partial-frame stability: a `BufferHandler` holding a strict prefix `X` of the
packed bytes of a valid frame (`LVProtocol(T, P)` with a payload whose size fits the
`int` length field) returns `false` from `get_next_message` and holds `X` afterwards. -/
theorem get_next_message_partial_frame (T : ProtocolType) (P X : Bytes) (message : LVProtocol)
    (hP : (P.length : Int) ≤ INT_MAX) (hX : X <+: (LVProtocol.ctor T P).to_string)
    (hne : X ≠ (LVProtocol.ctor T P).to_string) :
    ∃ message1, BufferHandler.get_next_message { buffer_ := X } message
      = some (false, { buffer_ := X }, message1) :=
  ⟨message, get_next_message_stuck (stuck_of_fragment_ctor T P X hP hX hne) message⟩

theorem get_next_message_partial_frame_witness :
    ((['a', 'b'] : Bytes).length : Int) ≤ INT_MAX ∧
    ['2', '\r', '\n', 'P', 'B', '\r', '\n', 'a']
      <+: (LVProtocol.ctor ProtocolType.PROTOBUF ['a', 'b']).to_string ∧
    ['2', '\r', '\n', 'P', 'B', '\r', '\n', 'a']
      ≠ (LVProtocol.ctor ProtocolType.PROTOBUF ['a', 'b']).to_string ∧
    ∃ message1, BufferHandler.get_next_message
        { buffer_ := ['2', '\r', '\n', 'P', 'B', '\r', '\n', 'a'] } LVProtocol.default
      = some (false, { buffer_ := ['2', '\r', '\n', 'P', 'B', '\r', '\n', 'a'] }, message1) :=
  ⟨by decide, by decide, by decide,
    get_next_message_partial_frame ProtocolType.PROTOBUF ['a', 'b']
      ['2', '\r', '\n', 'P', 'B', '\r', '\n', 'a'] LVProtocol.default
      (by decide) (by decide) (by decide)⟩

theorem to_string_ctor_big (T : ProtocolType) (P : Bytes) (h : P.length = 2147483648) :
    (LVProtocol.ctor T P).to_string
      = frameBytes ['-', '2', '1', '4', '7', '4', '8', '3', '6', '4', '8'] T P := by
  have h1 : int_of_size_t 2147483648 = -2147483648 := by decide
  have h2 : std_to_string (-2147483648)
      = ['-', '2', '1', '4', '7', '4', '8', '3', '6', '4', '8'] := by decide
  unfold LVProtocol.ctor LVProtocol.make LVProtocol.to_string frameBytes
  simp only [h, h1, h2, marker_eq_ite]

theorem to_string_ne_wire_big (T : ProtocolType) (P : Bytes) (h : P.length = 2147483648) :
    (LVProtocol.ctor T P).to_string ≠ wire T P := by
  intro he
  have h3 : dec 2147483648 = ['2', '1', '4', '7', '4', '8', '3', '6', '4', '8'] := by decide
  rw [to_string_ctor_big T P h] at he
  unfold frameBytes wire at he
  rw [h, h3] at he
  have := congrArg List.head? he
  simp at this

/-- C4, as stated, fails: for a payload of `2 ^ 31` bytes the length field of
`LVProtocol(T, P)` is `INT_MIN`, and `to_string` starts with a minus sign. -/
theorem to_string_wire_counterexample :
    (LVProtocol.ctor ProtocolType.PROTOBUF (List.replicate 2147483648 'a')).to_string
      ≠ wire ProtocolType.PROTOBUF (List.replicate 2147483648 'a') :=
  to_string_ne_wire_big _ _ (List.length_replicate _ _)

/-- C4, amended: for every tag `T` and every payload `P` of at most `INT_MAX` bytes,
`LVProtocol(T, P).to_string()`, and with it `ProtocolTools::pack`, is
`dec(|P|) ++ "\r\n" ++ marker(T) ++ "\r\n" ++ P ++ "\r\n"`. -/
theorem to_string_wire (T : ProtocolType) (P : Bytes) (hP : (P.length : Int) ≤ INT_MAX) :
    (LVProtocol.ctor T P).to_string = wire T P ∧
      pack (LVProtocol.ctor T P) true = some (wire T P) := by
  have h : (LVProtocol.ctor T P).to_string = wire T P := by
    rw [to_string_ctor T P hP, to_string_nat_eq_dec]
    rfl
  refine ⟨h, ?_⟩
  unfold pack
  rw [if_pos rfl, h]

theorem to_string_wire_witness :
    ((['h', 'i'] : Bytes).length : Int) ≤ INT_MAX ∧
    ((LVProtocol.ctor ProtocolType.JSON ['h', 'i']).to_string = wire ProtocolType.JSON ['h', 'i'] ∧
      pack (LVProtocol.ctor ProtocolType.JSON ['h', 'i']) true
        = some (wire ProtocolType.JSON ['h', 'i'])) :=
  ⟨by decide, to_string_wire ProtocolType.JSON ['h', 'i'] (by decide)⟩

/-- C5 fails on the code: the buffer `"-2\r\nPB\r\n"` makes `get_next_message` return
`true` with a frame of length `-2` whose data has no byte. -/
theorem get_next_message_negative_length :
    BufferHandler.get_next_message
        { buffer_ := ['-', '2', '\r', '\n', 'P', 'B', '\r', '\n'] } LVProtocol.default
      = some (true, { buffer_ := [] },
          { type := ProtocolType.PROTOBUF, length := -2, data := [], gap := gap }) := by
  decide

/-- C6 fails on the code: on the buffer `"-9\r\nPB\r\n"` the call
`data.substr(data_start + length, gap.size())` of `find_complete_message` throws
`std::out_of_range`, which leaves `get_next_message`. -/
theorem get_next_message_throws :
    BufferHandler.get_next_message
        { buffer_ := ['-', '9', '\r', '\n', 'P', 'B', '\r', '\n'] } LVProtocol.default
      = none := by
  decide

/-- C7. Failure atomicity: when `get_next_message` returns `false`, the `BufferHandler`
holds the bytes it held before, and `remaining_size()` is unchanged. -/
theorem get_next_message_false_keeps_buffer (h h1 : BufferHandler) (message message1 : LVProtocol)
    (hr : h.get_next_message message = some (false, h1, message1)) :
    h1 = h ∧ h1.buffer_ = h.buffer_ ∧ h1.remaining_size = h.remaining_size := by
  have key : h1 = h := by
    unfold BufferHandler.get_next_message at hr
    split at hr
    · cases hr
    · simp only [Option.some.injEq, Prod.mk.injEq] at hr
      exact hr.2.1.symm
    · split at hr
      · cases hr
      · split at hr
        · cases hr
        · simp only [Option.some.injEq, Prod.mk.injEq] at hr
          exact hr.2.1.symm
        · split at hr
          · cases hr
          · simp at hr
  subst key
  exact ⟨rfl, rfl, rfl⟩

theorem get_next_message_false_keeps_buffer_witness :
    BufferHandler.get_next_message { buffer_ := ['-', '6', '\r', '\n', 'P', 'B', '\r', '\n'] }
        LVProtocol.default
      = some (false, { buffer_ := ['-', '6', '\r', '\n', 'P', 'B', '\r', '\n'] },
          { type := ProtocolType.PROTOBUF, length := -6, data := [], gap := gap }) ∧
    (({ buffer_ := ['-', '6', '\r', '\n', 'P', 'B', '\r', '\n'] } : BufferHandler)
        = { buffer_ := ['-', '6', '\r', '\n', 'P', 'B', '\r', '\n'] } ∧
      ({ buffer_ := ['-', '6', '\r', '\n', 'P', 'B', '\r', '\n'] } : BufferHandler).buffer_
        = ['-', '6', '\r', '\n', 'P', 'B', '\r', '\n'] ∧
      ({ buffer_ := ['-', '6', '\r', '\n', 'P', 'B', '\r', '\n'] } : BufferHandler).remaining_size
        = ({ buffer_ := ['-', '6', '\r', '\n', 'P', 'B', '\r', '\n'] }
            : BufferHandler).remaining_size) :=
  ⟨by decide,
    get_next_message_false_keeps_buffer
      { buffer_ := ['-', '6', '\r', '\n', 'P', 'B', '\r', '\n'] }
      { buffer_ := ['-', '6', '\r', '\n', 'P', 'B', '\r', '\n'] }
      LVProtocol.default
      { type := ProtocolType.PROTOBUF, length := -6, data := [], gap := gap } (by decide)⟩

/-! ## Consumption on success -/

theorem get_next_message_true_iff (B : Bytes) (m : LVProtocol) (h1 : BufferHandler)
    (f : LVProtocol) :
    BufferHandler.get_next_message { buffer_ := B } m = some (true, h1, f) ↔
      ∃ e, find_complete_message B = some (some e) ∧
        m.from_string (B.take e) = some (true, f) ∧ h1 = { buffer_ := B.drop e } := by
  unfold BufferHandler.get_next_message
  have hsub : ∀ e, substr B 0 e = some (B.take e) := by
    intro e; simp [substr]
  have her : ∀ e, erase B 0 e = some (B.drop e) := by
    intro e; simp [erase]
  cases hf : find_complete_message B with
  | none => simp
  | some r =>
    cases r with
    | none => simp
    | some e =>
      simp only [hsub, her, Option.some.injEq, exists_eq_left']
      cases hfs : m.from_string (B.take e) with
      | none => simp
      | some r =>
        obtain ⟨b, f1⟩ := r
        cases b with
        | false => simp
        | true =>
          simp only [Option.some.injEq, Prod.mk.injEq, true_and]
          constructor
          · rintro ⟨rfl, rfl⟩
            exact ⟨rfl, rfl⟩
          · rintro ⟨rfl, rfl⟩
            exact ⟨rfl, rfl⟩

theorem from_string_true_header {s : Bytes} {m f : LVProtocol} (hg : m.gap = gap)
    (h : m.from_string s = some (true, f)) :
    ∃ ds L T, parse_message_header s = some (some (ds, L, T)) := by
  rcases parse_message_header_cases s with h0 | h1
  · obtain ⟨m1, hm1⟩ := from_string_of_header_fail m hg h0
    rw [hm1] at h
    simp at h
  · exact h1

theorem from_string_true_indep {s : Bytes} {m m2 f : LVProtocol} (hg : m.gap = gap)
    (hg2 : m2.gap = gap) (h : m.from_string s = some (true, f)) :
    m2.from_string s = some (true, f) := by
  obtain ⟨ds, L, T, hp⟩ := from_string_true_header hg h
  rw [from_string_eval m hg hp] at h
  rw [from_string_eval m2 hg2 hp]
  split at h
  · simp at h
  · rename_i h1
    rw [if_neg h1]
    split at h
    · simp at h
    · rename_i h2
      rw [if_neg h2]
      split at h
      · rename_i h3
        rw [if_pos h3]
        exact h
      · simp at h

/-- The consumed span of a successful `get_next_message` is itself a complete message. -/
theorem get_next_message_span (B : Bytes) (m m2 : LVProtocol) (h1 : BufferHandler)
    (f : LVProtocol) (hg : m.gap = gap) (hg2 : m2.gap = gap) (hB : B.length ≤ max_size)
    (h : BufferHandler.get_next_message { buffer_ := B } m = some (true, h1, f)) :
    ∃ e, 2 ≤ e ∧ e ≤ B.length ∧ h1 = { buffer_ := B.drop e } ∧
      find_complete_message B = some (some e) ∧
      BufferHandler.get_next_message { buffer_ := B.take e } m2
        = some (true, { buffer_ := [] }, f) := by
  obtain ⟨e, hf, hfs, hh⟩ := (get_next_message_true_iff B m h1 f).1 h
  obtain ⟨ds, L, T, hp, he, hle, hgp⟩ := (find_complete_message_some_iff B e).1 hf
  have hpl := gapAt_lt hgp
  have hep : e = size_t_add ds (size_t_of_int L) + 2 := by
    rw [he]
    generalize size_t_add ds (size_t_of_int L) = p at hpl ⊢
    unfold size_t_add SIZE_MOD
    unfold max_size at hB
    omega
  have hpre : B.take e <+: B := List.take_prefix e B
  have hlen : (B.take e).length = e := by
    rw [List.length_take]; omega
  obtain ⟨ds1, L1, T1, hp1⟩ := from_string_true_header hg hfs
  have hp2 := parse_message_header_mono hpre hp1
  rw [hp] at hp2
  simp only [Option.some.injEq, Prod.mk.injEq] at hp2
  obtain ⟨rfl, rfl, rfl⟩ := hp2
  have hfe : find_complete_message (B.take e) = some (some e) := by
    rw [find_complete_message_some_iff]
    exact ⟨ds, L, T, hp1, he, by omega, gapAt_restrict hpre hgp (by omega)⟩
  refine ⟨e, by omega, hle, hh, hf, ?_⟩
  rw [get_next_message_true_iff]
  refine ⟨e, hfe, ?_, ?_⟩
  · rw [List.take_take, Nat.min_self]
    exact from_string_true_indep hg hg2 hfs
  · rw [List.drop_take, Nat.sub_self, List.take_zero]

/-- C8. Consumption on success: when `get_next_message` returns `true` with the frame
`f` on the content `B`, then `B = C ++ R` with `C` not empty, the handler holds `R`
afterwards, and a fresh `BufferHandler` holding `C` returns the same `f` and is left
empty. (`message`, `message2`: the out-parameters of the two calls, of the default
gap; `B` is not longer than a string can be.) -/
theorem get_next_message_consumes (B : Bytes) (message message2 : LVProtocol)
    (h1 : BufferHandler) (f : LVProtocol) (hg : message.gap = gap) (hg2 : message2.gap = gap)
    (hB : B.length ≤ max_size)
    (h : BufferHandler.get_next_message { buffer_ := B } message = some (true, h1, f)) :
    ∃ C R, B = C ++ R ∧ C ≠ [] ∧ h1 = { buffer_ := R } ∧
      (BufferHandler.new.append C).get_next_message message2
        = some (true, { buffer_ := [] }, f) ∧
      ({ buffer_ := [] } : BufferHandler).remaining_size = 0 := by
  obtain ⟨e, h2, hle, hh, _, hc⟩ := get_next_message_span B message message2 h1 f hg hg2 hB h
  refine ⟨B.take e, B.drop e, (List.take_append_drop e B).symm, ?_, hh, ?_, rfl⟩
  · intro hnil
    have := congrArg List.length hnil
    rw [List.length_take] at this
    simp only [List.length_nil] at this
    omega
  · unfold BufferHandler.new BufferHandler.append
    rw [List.nil_append]
    exact hc

theorem get_next_message_consumes_witness :
    LVProtocol.default.gap = gap ∧ LVProtocol.default.gap = gap ∧
    (['1', '\r', '\n', 'J', 'S', '\r', '\n', 'x', '\r', '\n', '7'] : Bytes).length ≤ max_size ∧
    BufferHandler.get_next_message
        { buffer_ := ['1', '\r', '\n', 'J', 'S', '\r', '\n', 'x', '\r', '\n', '7'] }
        LVProtocol.default
      = some (true, { buffer_ := ['7'] }, LVProtocol.ctor ProtocolType.JSON ['x']) ∧
    ∃ C R, (['1', '\r', '\n', 'J', 'S', '\r', '\n', 'x', '\r', '\n', '7'] : Bytes) = C ++ R ∧
      C ≠ [] ∧ ({ buffer_ := ['7'] } : BufferHandler) = { buffer_ := R } ∧
      (BufferHandler.new.append C).get_next_message LVProtocol.default
        = some (true, { buffer_ := [] }, LVProtocol.ctor ProtocolType.JSON ['x']) ∧
      ({ buffer_ := [] } : BufferHandler).remaining_size = 0 :=
  ⟨rfl, rfl, by decide, by decide,
    get_next_message_consumes ['1', '\r', '\n', 'J', 'S', '\r', '\n', 'x', '\r', '\n', '7']
      LVProtocol.default LVProtocol.default { buffer_ := ['7'] }
      (LVProtocol.ctor ProtocolType.JSON ['x']) rfl rfl (by decide) (by decide)⟩

/-! ## Hard validation failures -/

theorem find_gap_le {s : Bytes} {p k : Nat} (h : find s gap p = some k) :
    k + 2 ≤ s.length :=
  gapAt_lt ((find_gap_some_iff _ _ _).1 h).2.1

theorem stuck_of_hardFailure (B S : Bytes) (hB : B.length ≤ max_size) (hf : HardFailure B) :
    Stuck (B ++ S) := by
  have hpre : B <+: B ++ S := List.prefix_append B S
  unfold Stuck
  rcases hf with ⟨le, h1, h2⟩ | ⟨le, L, te, h1, h2, h3, h4⟩ | ⟨ds, L, T, g, hp, he, hs, hne⟩
  · rcases parse_message_header_cases (B ++ S) with h0 | ⟨ds, L, T, hp⟩
    · exact find_complete_message_of_header_fail h0
    · exfalso
      obtain ⟨le1, _, hh⟩ := (parse_message_header_some_iff _ _ _ _).1 hp
      have hle := find_gap_le h1
      have := find_gap_mono hpre h1
      rw [hh.1] at this
      have : le1 = le := Option.some.inj this
      subst this
      have hst := hh.2.1
      rw [← take_eq_initial hpre (by omega), h2] at hst
      cases hst
  · rcases parse_message_header_cases (B ++ S) with h0 | ⟨ds, L1, T, hp⟩
    · exact find_complete_message_of_header_fail h0
    · exfalso
      obtain ⟨le1, _, hh⟩ := (parse_message_header_some_iff _ _ _ _).1 hp
      obtain ⟨_, hf2, _⟩ := headerAt_bounds hh
      have := find_gap_mono hpre h1
      rw [hh.1] at this
      have : le1 = le := Option.some.inj this
      subst this
      have h3m := find_gap_mono hpre h3
      rw [hf2] at h3m
      have : le1 + 4 = te := Option.some.inj h3m
      subst this
      have hte := find_gap_le h3
      obtain ⟨a, b, hab, _, _⟩ := marker_getElem T
      have hm := hh.2.2.1
      rw [hab, take2_drop_eq_iff, ← getElem?_initial hpre (by omega),
        ← getElem?_initial hpre (by omega), ← take2_drop_eq_iff, ← hab] at hm
      have e : le1 + 4 - (le1 + 2) = 2 := by omega
      rw [e, hm, type_of_str_marker] at h4
      cases h4
  · have hpm := parse_message_header_mono hpre hp
    rw [find_complete_message_eval hpm]
    simp only [gap_length] at he hs
    have hpl : ¬ size_t_add ds (size_t_of_int L) > B.length := by
      intro hgt
      unfold substr at hs
      rw [if_pos hgt] at hs
      cases hs
    have hlen : (B ++ S).length = B.length + S.length := List.length_append _ _
    rw [if_neg (by omega), if_neg (by omega), if_neg]
    intro hg
    have hep : size_t_add ds (size_t_of_int L) + 2 ≤ B.length := by
      generalize size_t_add ds (size_t_of_int L) = p at he hpl
      unfold size_t_add SIZE_MOD at he
      unfold max_size at hB
      omega
    have hgb := gapAt_restrict hpre hg hep
    rw [substr_gap_eq _ _ hpl] at hs
    rw [gapAt_iff_take] at hgb
    rw [hgb] at hs
    exact hne (Option.some.inj hs).symm

/-- C9. A hard validation failure recurs: when `get_next_message` fails on `B` because
`std::stoi` rejects the gap-terminated length field, or the gap-terminated tag is
neither `"PB"` nor `"JS"`, or the declared payload and the two bytes after it are
present and those bytes are not the gap (`HardFailure B`), then it fails on `B ++ S`
for every `S`, the empty one included, and the handler keeps `B ++ S`. -/
theorem get_next_message_hard_failure (B S : Bytes) (message : LVProtocol)
    (hB : B.length ≤ max_size) (hf : HardFailure B) :
    BufferHandler.get_next_message ((BufferHandler.mk B).append S) message
      = some (false, { buffer_ := B ++ S }, message) :=
  get_next_message_stuck (stuck_of_hardFailure B S hB hf) message

theorem get_next_message_hard_failure_witness :
    (['1', '\r', '\n', 'P', 'B', '\r', '\n', 'a', 'b', 'c'] : Bytes).length ≤ max_size ∧
    HardFailure ['1', '\r', '\n', 'P', 'B', '\r', '\n', 'a', 'b', 'c'] ∧
    BufferHandler.get_next_message
        ((BufferHandler.mk ['1', '\r', '\n', 'P', 'B', '\r', '\n', 'a', 'b', 'c']).append
          ['\r', '\n'])
        LVProtocol.default
      = some (false,
          { buffer_ := ['1', '\r', '\n', 'P', 'B', '\r', '\n', 'a', 'b', 'c'] ++ ['\r', '\n'] },
          LVProtocol.default) :=
  ⟨by decide,
    Or.inr (Or.inr ⟨7, 1, ProtocolType.PROTOBUF, ['b', 'c'], by decide, by decide, by decide,
      by decide⟩),
    get_next_message_hard_failure ['1', '\r', '\n', 'P', 'B', '\r', '\n', 'a', 'b', 'c']
      ['\r', '\n'] LVProtocol.default (by decide)
      (Or.inr (Or.inr ⟨7, 1, ProtocolType.PROTOBUF, ['b', 'c'], by decide, by decide, by decide,
        by decide⟩))⟩

/-! ## Streams of frames -/

theorem wellFormed_eq_ctor {f : LVProtocol} (h : f.wellFormed) :
    f = LVProtocol.ctor f.type f.data ∧ (f.data.length : Int) ≤ INT_MAX := by
  obtain ⟨t, l, d, g⟩ := f
  obtain ⟨h1, h2, h3⟩ := h
  simp only at h1 h2 h3
  subst h1 h2
  exact ⟨(ctor_eq t d h3).symm, h3⟩

theorem wellFormed_ctor (T : ProtocolType) (P : Bytes) (hP : (P.length : Int) ≤ INT_MAX) :
    (LVProtocol.ctor T P).wellFormed := by
  rw [ctor_eq T P hP]
  exact ⟨rfl, rfl, hP⟩

theorem to_string_length_pos {f : LVProtocol} (h : f.wellFormed) : 8 ≤ f.to_string.length := by
  obtain ⟨he, hP⟩ := wellFormed_eq_ctor h
  rw [he, to_string_ctor _ _ hP]
  have := frameBytes_length (to_string_nat f.data.length) f.type f.data
  unfold frameBytes at this
  rw [this]
  omega

theorem packed_cons (f : LVProtocol) (fs : List LVProtocol) :
    packed (f :: fs) = f.to_string ++ packed fs := rfl

theorem packed_append (fs1 fs2 : List LVProtocol) :
    packed (fs1 ++ fs2) = packed fs1 ++ packed fs2 := by
  induction fs1 with
  | nil => rfl
  | cons f fs ih => rw [List.cons_append, packed_cons, packed_cons, ih, List.append_assoc]

theorem packed_length_ge (fs : List LVProtocol) (hwf : ∀ f ∈ fs, f.wellFormed) :
    fs.length ≤ (packed fs).length := by
  induction fs with
  | nil => simp
  | cons f fs ih =>
    have h1 := to_string_length_pos (hwf f (List.mem_cons_self _ _))
    have h2 := ih (fun g hg => hwf g (List.mem_cons_of_mem _ hg))
    rw [packed_cons, List.length_append, List.length_cons]
    omega

theorem get_next_message_wellFormed (m : LVProtocol) (hg : m.gap = gap) {f : LVProtocol}
    (h : f.wellFormed) (rest : Bytes) :
    BufferHandler.get_next_message { buffer_ := f.to_string ++ rest } m
      = some (true, { buffer_ := rest }, f) := by
  obtain ⟨he, hP⟩ := wellFormed_eq_ctor h
  have := get_next_message_ctor m hg f.type f.data rest hP
  rw [← he] at this
  exact this

theorem drainLoop_frames (fs : List LVProtocol) (hwf : ∀ f ∈ fs, f.wellFormed)
    (X : Bytes) (hX : Stuck X) (fuel : Nat) (m : LVProtocol) (acc : List LVProtocol)
    (hfuel : fs.length < fuel) (hg : m.gap = gap) :
    drainLoop fuel { buffer_ := packed fs ++ X } m acc
      = Outcome.done (acc ++ fs, { buffer_ := X }) := by
  induction fs generalizing fuel m acc with
  | nil =>
    cases fuel with
    | zero => omega
    | succ fuel =>
      unfold drainLoop
      have : packed [] ++ X = X := rfl
      rw [this, get_next_message_stuck hX m, List.append_nil]
  | cons f fs ih =>
    cases fuel with
    | zero => omega
    | succ fuel =>
      have hf := hwf f (List.mem_cons_self _ _)
      unfold drainLoop
      rw [packed_cons, List.append_assoc, get_next_message_wellFormed m hg hf]
      simp only
      rw [ih (fun g hg => hwf g (List.mem_cons_of_mem _ hg)) fuel f (acc ++ [f])
        (by simp only [List.length_cons] at hfuel; omega) hf.1]
      simp

theorem drain_frames (fs : List LVProtocol) (hwf : ∀ f ∈ fs, f.wellFormed)
    (X : Bytes) (hX : Stuck X) :
    drain { buffer_ := packed fs ++ X } = Outcome.done (fs, { buffer_ := X }) := by
  unfold drain
  have := packed_length_ge fs hwf
  rw [drainLoop_frames fs hwf X hX _ LVProtocol.default [] (by
    simp only [List.length_append]; omega) rfl]
  simp

theorem stuck_nil : Stuck [] := by
  unfold Stuck
  decide

theorem stuck_of_pending {X : Bytes} {fs : List LVProtocol} (hwf : ∀ f ∈ fs, f.wellFormed)
    (h : Pending X fs) : Stuck X := by
  rcases h with ⟨_, rfl⟩ | ⟨f, rest, rfl, hpre, hne⟩
  · exact stuck_nil
  · obtain ⟨he, hP⟩ := wellFormed_eq_ctor (hwf f (List.mem_cons_self _ _))
    rw [he] at hpre hne
    exact stuck_of_fragment_ctor _ _ X hP hpre hne

theorem split_packed (fs : List LVProtocol) (D rest : Bytes) (h : D ++ rest = packed fs) :
    ∃ fs1 fs2 X, fs = fs1 ++ fs2 ∧ D = packed fs1 ++ X ∧ X ++ rest = packed fs2 ∧
      Pending X fs2 := by
  induction fs generalizing D with
  | nil =>
    have h' : D ++ rest = [] := h
    obtain ⟨rfl, rfl⟩ := List.append_eq_nil.1 h'
    exact ⟨[], [], [], rfl, rfl, rfl, Or.inl ⟨rfl, rfl⟩⟩
  | cons f fs ih =>
    rw [packed_cons] at h
    rcases List.append_eq_append_iff.1 h with ⟨a, hW, hr⟩ | ⟨c, hD, hQ⟩
    · cases a with
      | nil =>
        rw [List.append_nil] at hW
        rw [List.nil_append] at hr
        obtain ⟨fs1, fs2, X, e1, e2, e3, e4⟩ := ih [] (by rw [List.nil_append]; exact hr)
        refine ⟨f :: fs1, fs2, X, by rw [e1]; rfl, ?_, e3, e4⟩
        rw [packed_cons, hW, List.append_assoc, ← e2, List.append_nil]
      | cons x a =>
        refine ⟨[], f :: fs, D, rfl, rfl, ?_, Or.inr ⟨f, fs, rfl, ⟨x :: a, hW.symm⟩, ?_⟩⟩
        · rw [packed_cons]; exact h
        · intro hDW
          rw [hDW] at hW
          have := congrArg List.length hW
          simp at this
    · obtain ⟨fs1, fs2, X, e1, e2, e3, e4⟩ := ih c hQ.symm
      refine ⟨f :: fs1, fs2, X, by rw [e1]; rfl, ?_, e3, e4⟩
      rw [hD, e2, packed_cons, List.append_assoc]

theorem feed_frames (chunks : List Bytes) (fs : List LVProtocol) (X : Bytes)
    (acc : List LVProtocol) (hwf : ∀ f ∈ fs, f.wellFormed) (hp : Pending X fs)
    (h : X ++ concat chunks = packed fs) :
    feed { buffer_ := X } chunks acc = Outcome.done (acc ++ fs, { buffer_ := [] }) := by
  induction chunks generalizing fs X acc with
  | nil =>
    have hX : X = packed fs := by
      have : X ++ concat [] = X := List.append_nil X
      rw [← this]; exact h
    rcases hp with ⟨rfl, rfl⟩ | ⟨f, rest, rfl, hpre, hne⟩
    · simp [feed]
    · exfalso
      have hl := strict_prefix_length hpre hne
      rw [hX, packed_cons, List.length_append] at hl
      omega
  | cons c cs ih =>
    have h2 : (X ++ c) ++ concat cs = packed fs := by
      rw [List.append_assoc]; exact h
    obtain ⟨fs1, fs2, X1, e1, e2, e3, e4⟩ := split_packed fs (X ++ c) (concat cs) h2
    have hwf1 : ∀ f ∈ fs1, f.wellFormed := fun f hf => hwf f (by rw [e1]; simp [hf])
    have hwf2 : ∀ f ∈ fs2, f.wellFormed := fun f hf => hwf f (by rw [e1]; simp [hf])
    unfold feed BufferHandler.append
    simp only
    rw [e2, drain_frames fs1 hwf1 X1 (stuck_of_pending hwf2 e4)]
    simp only
    rw [ih fs2 X1 (acc ++ fs1) hwf2 e4 e3, e1, List.append_assoc]

/-! ## Chunked input -/

theorem stuck_big (T : ProtocolType) (P : Bytes) (h : P.length = 2147483648) :
    Stuck (LVProtocol.ctor T P).to_string := by
  unfold Stuck
  rw [to_string_ctor_big T P h]
  have hp := parse_message_header_frame ['-', '2', '1', '4', '7', '4', '8', '3', '6', '4', '8']
    (-2147483648) T P [] (by decide) (by decide)
  rw [List.append_nil] at hp
  have hl := frameBytes_length ['-', '2', '1', '4', '7', '4', '8', '3', '6', '4', '8'] T P
  have hv : size_t_add (size_t_add
      ((['-', '2', '1', '4', '7', '4', '8', '3', '6', '4', '8'] : Bytes).length + 6)
      (size_t_of_int (-2147483648))) 2 = 18446744071562067987 := by decide
  rw [find_complete_message_eval hp, hv, if_pos]
  rw [hl, h]
  simp only [List.length_cons, List.length_nil]
  omega

theorem drain_stuck {X : Bytes} (hX : Stuck X) :
    drain { buffer_ := X } = Outcome.done ([], { buffer_ := X }) := by
  unfold drain
  simp only
  unfold drainLoop
  rw [get_next_message_stuck hX]

theorem feed_single_stuck {X : Bytes} (hX : Stuck X) :
    feed BufferHandler.new [X] [] = Outcome.done ([], { buffer_ := X }) := by
  have e : BufferHandler.new.append X = { buffer_ := X } := rfl
  rw [feed, e, drain_stuck hX]
  simp only [feed, List.append_nil]

theorem feed_big (T : ProtocolType) (P : Bytes) (h : P.length = 2147483648) :
    feed BufferHandler.new [(LVProtocol.ctor T P).to_string] []
      = Outcome.done ([], { buffer_ := (LVProtocol.ctor T P).to_string }) :=
  feed_single_stuck (stuck_big T P h)

theorem feed_big_ne (T : ProtocolType) (P : Bytes) (h : P.length = 2147483648) :
    ¬ ∃ h1, feed BufferHandler.new [(LVProtocol.ctor T P).to_string] []
      = Outcome.done ([LVProtocol.ctor T P], h1) := by
  rintro ⟨h1, he⟩
  rw [feed_big T P h] at he
  injection he with he
  injection he with he1 _
  cases he1

/-- C2, as stated, fails: the single frame `LVProtocol(PROTOBUF, P)` with a payload of
`2 ^ 31` bytes, fed in one chunk, is not extracted (its length field is `INT_MIN`). -/
theorem feed_chunks_counterexample :
    ¬ ∃ h1, feed BufferHandler.new
        [(LVProtocol.ctor ProtocolType.PROTOBUF (List.replicate 2147483648 'a')).to_string] []
      = Outcome.done ([LVProtocol.ctor ProtocolType.PROTOBUF (List.replicate 2147483648 'a')],
          h1) :=
  feed_big_ne _ _ (List.length_replicate _ _)

/-- C2, amended: for every list `fs` of frames with the default gap whose length field
is the size of their data (frames `LVProtocol(T, P)` with at most `INT_MAX` payload
bytes) and every cut of `to_string(f1) ++ ... ++ to_string(fN)` into chunks, appending
the chunks in order to an empty `BufferHandler` and draining after each append yields
exactly `fs`, in order, and leaves `remaining_size() == 0`. -/
theorem feed_chunks (fs : List LVProtocol) (chunks : List Bytes)
    (hwf : ∀ f ∈ fs, f.wellFormed) (h : concat chunks = packed fs) :
    ∃ h1, feed BufferHandler.new chunks [] = Outcome.done (fs, h1) ∧ h1.remaining_size = 0 := by
  refine ⟨{ buffer_ := [] }, ?_, rfl⟩
  have hp : Pending [] fs := by
    cases fs with
    | nil => exact Or.inl ⟨rfl, rfl⟩
    | cons f rest =>
      refine Or.inr ⟨f, rest, rfl, List.nil_prefix, ?_⟩
      intro he
      have := to_string_length_pos (hwf f (List.mem_cons_self _ _))
      rw [← he] at this
      simp at this
  have := feed_frames chunks fs [] [] hwf hp (by rw [List.nil_append]; exact h)
  rw [List.nil_append] at this
  exact this

theorem feed_chunks_witness :
    (∀ f ∈ [LVProtocol.ctor ProtocolType.PROTOBUF ['a', 'b'], LVProtocol.ctor ProtocolType.JSON []],
      f.wellFormed) ∧
    concat [['2', '\r'], ['\n', 'P', 'B', '\r', '\n', 'a', 'b', '\r', '\n', '0', '\r', '\n', 'J'],
        ['S', '\r', '\n', '\r'], ['\n']]
      = packed [LVProtocol.ctor ProtocolType.PROTOBUF ['a', 'b'],
          LVProtocol.ctor ProtocolType.JSON []] ∧
    ∃ h1, feed BufferHandler.new
        [['2', '\r'], ['\n', 'P', 'B', '\r', '\n', 'a', 'b', '\r', '\n', '0', '\r', '\n', 'J'],
          ['S', '\r', '\n', '\r'], ['\n']] []
      = Outcome.done ([LVProtocol.ctor ProtocolType.PROTOBUF ['a', 'b'],
          LVProtocol.ctor ProtocolType.JSON []], h1) ∧ h1.remaining_size = 0 :=
  ⟨by decide, by decide,
    feed_chunks [LVProtocol.ctor ProtocolType.PROTOBUF ['a', 'b'],
        LVProtocol.ctor ProtocolType.JSON []]
      [['2', '\r'], ['\n', 'P', 'B', '\r', '\n', 'a', 'b', '\r', '\n', '0', '\r', '\n', 'J'],
        ['S', '\r', '\n', '\r'], ['\n']] (by decide) (by decide)⟩

/-! ## `unpack` -/

theorem from_string_wellFormed {f : LVProtocol} (h : f.wellFormed) :
    LVProtocol.default.from_string f.to_string = some (true, f) := by
  obtain ⟨he, hP⟩ := wellFormed_eq_ctor h
  have := from_string_frameBytes LVProtocol.default rfl (to_string_nat f.data.length)
    f.type f.data (to_string_nat_no_cr _) (stoi_to_string_nat _ hP)
    (to_string_nat_header_bound _ hP)
  rw [he, to_string_ctor _ _ hP, ctor_eq _ _ hP]
  exact this

theorem fcm_wellFormed {f : LVProtocol} (h : f.wellFormed) (rest : Bytes) :
    find_complete_message (f.to_string ++ rest) = some (some f.to_string.length) := by
  obtain ⟨he, hP⟩ := wellFormed_eq_ctor h
  have := fcm_frameBytes (to_string_nat f.data.length) f.type f.data rest
    (to_string_nat_no_cr _) (stoi_to_string_nat _ hP) (to_string_nat_header_bound _ hP)
  rw [he, to_string_ctor _ _ hP]
  exact this

theorem unpackLoop_frames (fs : List LVProtocol) (hwf : ∀ f ∈ fs, f.wellFormed)
    (pre tail : Bytes) (hT : Stuck tail) (acc : List LVProtocol) (fuel : Nat)
    (hfuel : fs.length < fuel) :
    unpackLoop fuel (pre ++ (packed fs ++ tail)) pre.length acc = Outcome.done (acc ++ fs) := by
  induction fs generalizing pre acc fuel with
  | nil =>
    cases fuel with
    | zero => omega
    | succ fuel =>
      have e : packed [] ++ tail = tail := rfl
      unfold unpackLoop
      rw [e]
      by_cases hlt : pre.length < (pre ++ tail).length
      · rw [if_pos hlt]
        have hs : substr_to_end (pre ++ tail) pre.length = some tail := by
          unfold substr_to_end
          rw [if_neg (by omega), List.drop_left]
        simp only [hs, show find_complete_message tail = some none from hT, List.append_nil]
      · rw [if_neg hlt, List.append_nil]
  | cons f fs ih =>
    cases fuel with
    | zero => omega
    | succ fuel =>
      have hf := hwf f (List.mem_cons_self _ _)
      have hpos := to_string_length_pos hf
      have hd : pre ++ (packed (f :: fs) ++ tail)
          = pre ++ (f.to_string ++ (packed fs ++ tail)) := by
        rw [packed_cons, List.append_assoc]
      have hd2 : pre ++ (f.to_string ++ (packed fs ++ tail))
          = (pre ++ f.to_string) ++ (packed fs ++ tail) := by
        rw [List.append_assoc]
      unfold unpackLoop
      rw [hd]
      have hlt : pre.length < (pre ++ (f.to_string ++ (packed fs ++ tail))).length := by
        simp only [List.length_append]; omega
      rw [if_pos hlt]
      have hs : substr_to_end (pre ++ (f.to_string ++ (packed fs ++ tail))) pre.length
          = some (f.to_string ++ (packed fs ++ tail)) := by
        unfold substr_to_end
        rw [if_neg (by omega), List.drop_left]
      have hs2 : substr (pre ++ (f.to_string ++ (packed fs ++ tail))) pre.length
          f.to_string.length = some f.to_string := by
        unfold substr
        rw [if_neg (by omega), List.drop_left, List.take_left]
      simp only [hs, fcm_wellFormed hf, hs2, from_string_wellFormed hf]
      rw [hd2, ← List.length_append,
        ih (fun g hg => hwf g (List.mem_cons_of_mem _ hg)) (pre ++ f.to_string) (acc ++ [f]) fuel
          (by simp only [List.length_cons] at hfuel; omega)]
      simp

theorem unpack_frames (fs : List LVProtocol) (hwf : ∀ f ∈ fs, f.wellFormed)
    (tail : Bytes) (hT : Stuck tail) (messages : List LVProtocol) :
    unpack (packed fs ++ tail) messages = Outcome.done (!fs.isEmpty, fs) := by
  have hl := packed_length_ge fs hwf
  have := unpackLoop_frames fs hwf [] tail hT [] ((packed fs ++ tail).length + 1)
    (by simp only [List.length_append]; omega)
  simp only [List.nil_append, List.length_nil] at this
  unfold unpack
  rw [this]

theorem unpack_stuck {X : Bytes} (hX : Stuck X) (messages : List LVProtocol) :
    unpack X messages = Outcome.done (false, []) := by
  have := unpack_frames [] (by simp) X hX messages
  rw [show packed [] ++ X = X from rfl] at this
  exact this

theorem unpack_big_ne (T : ProtocolType) (P : Bytes) (h : P.length = 2147483648)
    (messages : List LVProtocol) :
    unpack (LVProtocol.ctor T P).to_string messages
      ≠ Outcome.done (true, [LVProtocol.ctor T P]) := by
  rw [unpack_stuck (stuck_big T P h)]
  intro he
  injection he with he
  injection he with he1 _
  cases he1

/-- C10, as stated, fails: for the single frame `LVProtocol(PROTOBUF, P)` with a payload
of `2 ^ 31` bytes and the empty tail, `unpack` returns `false` and no message. -/
theorem unpack_counterexample :
    unpack (LVProtocol.ctor ProtocolType.PROTOBUF (List.replicate 2147483648 'a')).to_string []
      ≠ Outcome.done (true,
          [LVProtocol.ctor ProtocolType.PROTOBUF (List.replicate 2147483648 'a')]) :=
  unpack_big_ne _ _ (List.length_replicate _ _) []

/-- C10, amended: for every list `fs` of frames with the default gap whose length field
is the size of their data (frames `LVProtocol(T, P)` with at most `INT_MAX` payload
bytes) and every tail that is empty or a strict prefix of the packed bytes of such a
frame, `unpack(to_string(f1) ++ ... ++ to_string(fN) ++ tail, messages)` sets `messages`
to `fs`, whatever it held, and returns `true` exactly when `N >= 1`. -/
theorem unpack_packed (fs : List LVProtocol) (tail : Bytes) (messages : List LVProtocol)
    (hwf : ∀ f ∈ fs, f.wellFormed)
    (hT : tail = [] ∨ ∃ g : LVProtocol, g.wellFormed ∧ tail <+: g.to_string ∧ tail ≠ g.to_string) :
    ∃ b, unpack (packed fs ++ tail) messages = Outcome.done (b, fs) ∧
      (b = true ↔ 1 ≤ fs.length) := by
  have hs : Stuck tail := by
    rcases hT with rfl | ⟨g, hg, hpre, hne⟩
    · exact stuck_nil
    · have hp : Pending tail [g] := Or.inr ⟨g, [], rfl, hpre, hne⟩
      exact stuck_of_pending (by simpa using hg) hp
  refine ⟨!fs.isEmpty, unpack_frames fs hwf tail hs messages, ?_⟩
  cases fs <;> simp

theorem unpack_packed_witness :
    (∀ f ∈ [LVProtocol.ctor ProtocolType.PROTOBUF ['a', 'b'], LVProtocol.ctor ProtocolType.JSON []],
      f.wellFormed) ∧
    ((['1', '2', '\r', '\n', 'P'] : Bytes) = [] ∨ ∃ g : LVProtocol, g.wellFormed ∧
      ['1', '2', '\r', '\n', 'P'] <+: g.to_string ∧ ['1', '2', '\r', '\n', 'P'] ≠ g.to_string) ∧
    ∃ b, unpack (packed [LVProtocol.ctor ProtocolType.PROTOBUF ['a', 'b'],
          LVProtocol.ctor ProtocolType.JSON []] ++ ['1', '2', '\r', '\n', 'P'])
        [LVProtocol.default]
      = Outcome.done (b, [LVProtocol.ctor ProtocolType.PROTOBUF ['a', 'b'],
          LVProtocol.ctor ProtocolType.JSON []]) ∧
      (b = true ↔ 1 ≤ [LVProtocol.ctor ProtocolType.PROTOBUF ['a', 'b'],
          LVProtocol.ctor ProtocolType.JSON []].length) :=
  ⟨by decide,
    Or.inr ⟨LVProtocol.ctor ProtocolType.PROTOBUF
      ['a', 'b', 'c', 'd', 'e', 'f', 'g', 'h', 'i', 'j', 'k', 'l'], by decide, by decide,
      by decide⟩,
    unpack_packed [LVProtocol.ctor ProtocolType.PROTOBUF ['a', 'b'],
        LVProtocol.ctor ProtocolType.JSON []] ['1', '2', '\r', '\n', 'P'] [LVProtocol.default]
      (by decide)
      (Or.inr ⟨LVProtocol.ctor ProtocolType.PROTOBUF
        ['a', 'b', 'c', 'd', 'e', 'f', 'g', 'h', 'i', 'j', 'k', 'l'], by decide, by decide,
        by decide⟩)⟩

end ProtocolTools

namespace net

open ProtocolTools (Bytes SIZE_MOD max_size size_t_add ProtocolType LVProtocol JsonValue JsonLib)

/-! ## The byte buffer -/

theorem size_t_sub_eq {a b : Nat} (hb : b ≤ a) (ha : a < SIZE_MOD) : size_t_sub a b = a - b := by
  unfold size_t_sub
  unfold SIZE_MOD at ha ⊢
  omega

theorem max_size_lt : max_size < SIZE_MOD := by decide

theorem size_t_add_eq {a b : Nat} (h : a + b < SIZE_MOD) : size_t_add a b = a + b := by
  unfold size_t_add
  exact Nat.mod_eq_of_lt h

theorem size_t_mul_two {a : Nat} (ha : a ≤ max_size) : size_t_mul a 2 = 2 * a := by
  unfold size_t_mul SIZE_MOD
  unfold max_size at ha
  omega

theorem writable_size_eq {b : Buffer} (h : b.inv) (hc : b.capacity ≤ max_size) :
    b.writable_size = b.capacity - b.write_pos_ :=
  size_t_sub_eq h.2 (Nat.lt_of_le_of_lt hc max_size_lt)

theorem readable_size_eq {b : Buffer} (h : b.inv) (hc : b.capacity ≤ max_size) :
    b.readable_size = b.write_pos_ - b.read_pos_ :=
  size_t_sub_eq h.1 (Nat.lt_of_le_of_lt (Nat.le_trans h.2 hc) max_size_lt)

theorem vector_resize_length (v : Bytes) (n : Nat) : (vector_resize v n).length = n := by
  unfold vector_resize
  split
  · rw [List.length_take]; omega
  · rw [List.length_append, List.length_replicate]; omega

theorem vector_resize_take {v : Bytes} {n : Nat} (h : v.length ≤ n) :
    (vector_resize v n).take v.length = v := by
  unfold vector_resize
  split
  · have : n = v.length := by omega
    subst this
    simp
  · simp

theorem take_drop_of_take_eq {v v1 : Bytes} {k : Nat} (h : v1.take k = v.take k)
    (r m : Nat) (hrm : r + m ≤ k) : (v1.drop r).take m = (v.drop r).take m := by
  have e : ∀ u : Bytes, (u.drop r).take m = ((u.take k).drop r).take m := by
    intro u
    rw [List.drop_take, List.take_take, Nat.min_eq_left (by omega)]
  rw [e v1, e v, h]

theorem compact_readable {b : Buffer} (h : b.inv) (hc : b.capacity ≤ max_size) :
    b.compact.readable = b.readable ∧ b.compact.read_pos_ = 0 ∧
      b.compact.write_pos_ = b.write_pos_ - b.read_pos_ ∧
      b.compact.capacity = b.capacity := by
  have hr := readable_size_eq h hc
  obtain ⟨h1, h2⟩ := h
  unfold Buffer.capacity at h2 hc
  unfold Buffer.compact Buffer.readable Buffer.capacity
  simp only [hr, Nat.sub_zero, List.drop_zero]
  refine ⟨?_, trivial, trivial, ?_⟩
  · split
    · unfold memmove copy_into
      simp only [List.take_zero, List.nil_append, Nat.zero_add]
      have hl : ((b.buffer_.drop b.read_pos_).take (b.write_pos_ - b.read_pos_)).length
          = b.write_pos_ - b.read_pos_ := by
        rw [List.length_take, List.length_drop]; omega
      rw [List.take_append_of_le_length (by omega), List.take_of_length_le (by omega)]
    · have : b.write_pos_ - b.read_pos_ = 0 := by omega
      rw [this]
      simp
  · split
    · unfold memmove copy_into
      simp only [List.take_zero, List.nil_append, Nat.zero_add, List.length_append,
        List.length_take, List.length_drop]
      omega
    · rfl

theorem vector_resize_readable {v : Bytes} {n : Nat} (h : v.length ≤ n) (r m : Nat)
    (hrm : r + m ≤ v.length) :
    ((vector_resize v n).drop r).take m = (v.drop r).take m := by
  apply take_drop_of_take_eq _ r m hrm
  rw [vector_resize_take h, List.take_length]

/-- The buffer before the growth step of `ensure_capacity`. -/
theorem pre_growth {b : Buffer} (h : b.inv) (hc : b.capacity ≤ max_size) :
    (if b.read_pos_ > 0 then b.compact else b).inv ∧
    (if b.read_pos_ > 0 then b.compact else b).readable = b.readable ∧
    (if b.read_pos_ > 0 then b.compact else b).read_pos_ = 0 ∧
    (if b.read_pos_ > 0 then b.compact else b).write_pos_ = b.write_pos_ - b.read_pos_ ∧
    (if b.read_pos_ > 0 then b.compact else b).capacity = b.capacity := by
  by_cases hr : b.read_pos_ > 0
  · rw [if_pos hr]
    obtain ⟨e1, e2, e3, e4⟩ := compact_readable h hc
    refine ⟨?_, e1, e2, e3, e4⟩
    unfold Buffer.inv
    rw [e2, e3, e4]
    have := h.2
    omega
  · rw [if_neg hr]
    have h0 : b.read_pos_ = 0 := by omega
    exact ⟨h, rfl, h0, by omega, rfl⟩

theorem ensure_capacity_spec (b : Buffer) (n : Nat) (h : b.inv) (hc : b.capacity ≤ max_size) :
    (b.ensure_capacity n).inv ∧ (b.ensure_capacity n).readable = b.readable ∧
    (b.ensure_capacity n).write_pos_ - (b.ensure_capacity n).read_pos_
      = b.write_pos_ - b.read_pos_ ∧
    b.capacity ≤ (b.ensure_capacity n).capacity ∧
    (b.ensure_capacity n).capacity < SIZE_MOD ∧
    (b.write_pos_ - b.read_pos_ + n < SIZE_MOD →
      n ≤ (b.ensure_capacity n).capacity - (b.ensure_capacity n).write_pos_) := by
  have hw := writable_size_eq h hc
  have hlt := max_size_lt
  unfold Buffer.ensure_capacity
  by_cases h1 : b.writable_size < n
  · rw [if_pos h1]
    obtain ⟨i1, i2, i3, i4, i5⟩ := pre_growth h hc
    generalize (if b.read_pos_ > 0 then b.compact else b) = b1 at i1 i2 i3 i4 i5
    have hw1 := writable_size_eq i1 (by rw [i5]; exact hc)
    simp only
    by_cases h2 : b1.writable_size < n
    · rw [if_pos h2]
      have hm := size_t_mul_two (show b1.buffer_.length ≤ max_size by
        have := i5; unfold Buffer.capacity at this hc; omega)
      have hcap : b1.buffer_.length ≤ max (size_t_mul b1.buffer_.length 2)
          (size_t_add b1.write_pos_ n) := by
        rw [hm]; omega
      have hlt2 : max (size_t_mul b1.buffer_.length 2) (size_t_add b1.write_pos_ n)
          < SIZE_MOD := by
        have a1 : size_t_mul b1.buffer_.length 2 < SIZE_MOD := Nat.mod_lt _ (by decide)
        have a2 : size_t_add b1.write_pos_ n < SIZE_MOD := Nat.mod_lt _ (by decide)
        omega
      have i1' := i1
      unfold Buffer.inv Buffer.capacity at i1'
      unfold Buffer.capacity at i5
      refine ⟨?_, ?_, ?_, ?_, ?_, ?_⟩
      · unfold Buffer.inv Buffer.capacity
        simp only [vector_resize_length]
        omega
      · rw [← i2]
        unfold Buffer.readable
        simp only
        exact vector_resize_readable hcap _ _ (by omega)
      · simp only [i3, i4]
        omega
      · unfold Buffer.capacity
        simp only [vector_resize_length]
        omega
      · unfold Buffer.capacity
        simp only [vector_resize_length]
        exact hlt2
      · intro hn
        unfold Buffer.capacity
        simp only [vector_resize_length]
        have : size_t_add b1.write_pos_ n = b1.write_pos_ + n :=
          size_t_add_eq (by rw [i4]; exact hn)
        rw [this]
        omega
    · rw [if_neg h2]
      refine ⟨i1, i2, by rw [i3, i4]; omega, by rw [i5], by rw [i5]; omega, ?_⟩
      intro _
      rw [hw1] at h2
      omega
  · rw [if_neg h1]
    refine ⟨h, rfl, rfl, Nat.le_refl _, by omega, ?_⟩
    intro _
    rw [hw] at h1
    omega

theorem readable_length {b : Buffer} (h : b.inv) :
    b.readable.length = b.write_pos_ - b.read_pos_ := by
  obtain ⟨h1, h2⟩ := h
  unfold Buffer.capacity at h2
  unfold Buffer.readable
  rw [List.length_take, List.length_drop]
  omega

theorem readable_size_of_inv {b : Buffer} (h : b.inv) (hc : b.capacity < SIZE_MOD) :
    b.readable_size = b.write_pos_ - b.read_pos_ :=
  size_t_sub_eq h.1 (Nat.lt_of_le_of_lt h.2 hc)

theorem writable_size_of_inv {b : Buffer} (h : b.inv) (hc : b.capacity < SIZE_MOD) :
    b.writable_size = b.capacity - b.write_pos_ :=
  size_t_sub_eq h.2 hc

/-- C11. Buffer growth safety: for a buffer with `read_pos <= write_pos <= capacity`
(and a capacity a vector can have) and every `n`, `ensure_capacity(n)` leaves
`readable_size()` and the bytes of the readable region unchanged. -/
theorem ensure_capacity_keeps_readable (b : Buffer) (n : Nat) (h : b.inv)
    (hc : b.capacity ≤ max_size) :
    (b.ensure_capacity n).readable_size = b.readable_size ∧
      (b.ensure_capacity n).readable = b.readable := by
  obtain ⟨i1, i2, i3, _, i5, _⟩ := ensure_capacity_spec b n h hc
  refine ⟨?_, i2⟩
  rw [readable_size_of_inv i1 i5, readable_size_eq h hc, i3]

theorem ensure_capacity_keeps_readable_witness :
    ({ buffer_ := ['a', 'b', 'c', 'd'], read_pos_ := 2, write_pos_ := 4 } : Buffer).inv ∧
    ({ buffer_ := ['a', 'b', 'c', 'd'], read_pos_ := 2, write_pos_ := 4 } : Buffer).capacity
      ≤ max_size ∧
    ((({ buffer_ := ['a', 'b', 'c', 'd'], read_pos_ := 2, write_pos_ := 4 } : Buffer).ensure_capacity
        9).readable_size
      = ({ buffer_ := ['a', 'b', 'c', 'd'], read_pos_ := 2, write_pos_ := 4 } : Buffer).readable_size ∧
     (({ buffer_ := ['a', 'b', 'c', 'd'], read_pos_ := 2, write_pos_ := 4 } : Buffer).ensure_capacity
        9).readable
      = ({ buffer_ := ['a', 'b', 'c', 'd'], read_pos_ := 2, write_pos_ := 4 } : Buffer).readable) :=
  ⟨by decide, by decide,
    ensure_capacity_keeps_readable
      { buffer_ := ['a', 'b', 'c', 'd'], read_pos_ := 2, write_pos_ := 4 } 9
      (by decide) (by decide)⟩

/-- C12, as stated, fails: with `read_pos = 0`, `write_pos = capacity = 8` and
`n = 2 ^ 64 - 4` the capacity after `ensure_capacity(n)` is `16`, not
`max(2 * 8, 8 + n)`: the code forms `write_pos_ + required_size` in `size_t`. -/
theorem ensure_capacity_policy_counterexample :
    ({ buffer_ := ['a', 'b', 'c', 'd', 'e', 'f', 'g', 'h'], read_pos_ := 0, write_pos_ := 8 }
      : Buffer).inv ∧
    (({ buffer_ := ['a', 'b', 'c', 'd', 'e', 'f', 'g', 'h'], read_pos_ := 0, write_pos_ := 8 }
        : Buffer).ensure_capacity 18446744073709551612).capacity = 16 ∧
    (({ buffer_ := ['a', 'b', 'c', 'd', 'e', 'f', 'g', 'h'], read_pos_ := 0, write_pos_ := 8 }
        : Buffer).ensure_capacity 18446744073709551612).capacity
      ≠ max (2 * 8) (8 + 18446744073709551612) := by
  decide

/-- C12, amended: growth policy of `ensure_capacity(n)` on a buffer with cursors
`(r, w)` and capacity `c`, `r <= w <= c`: with `c - w >= n` the buffer is unchanged.
Otherwise, provided that the new size `max(2 * c, w' + n)`, `w' = w - r`, is at most
`max_size` when the vector has to grow (above it `buffer_.resize` throws
`std::length_error`): the readable region is at offset `0` afterwards and the cursors
are `(0, w')` (for `r = 0` nothing was moved), the capacity is exactly
`max(2 * c, w' + n)` if `c - w' < n`, and the capacity is `c` if `c - w' >= n`. -/
theorem ensure_capacity_policy (b : Buffer) (n : Nat) (h : b.inv) (hc : b.capacity ≤ max_size) :
    (n ≤ b.capacity - b.write_pos_ → b.ensure_capacity n = b) ∧
    (b.capacity - b.write_pos_ < n →
      (b.capacity - (b.write_pos_ - b.read_pos_) < n →
        max (2 * b.capacity) ((b.write_pos_ - b.read_pos_) + n) ≤ max_size) →
      (b.ensure_capacity n).read_pos_ = 0 ∧
      (b.ensure_capacity n).write_pos_ = b.write_pos_ - b.read_pos_ ∧
      (b.ensure_capacity n).buffer_.take (b.write_pos_ - b.read_pos_) = b.readable ∧
      (b.read_pos_ = 0 → (b.ensure_capacity n).buffer_.take b.capacity = b.buffer_) ∧
      (b.capacity - (b.write_pos_ - b.read_pos_) < n →
        (b.ensure_capacity n).capacity
          = max (2 * b.capacity) ((b.write_pos_ - b.read_pos_) + n)) ∧
      (n ≤ b.capacity - (b.write_pos_ - b.read_pos_) →
        (b.ensure_capacity n).capacity = b.capacity)) := by
  have hw := writable_size_eq h hc
  have hlt := max_size_lt
  constructor
  · intro hn
    unfold Buffer.ensure_capacity
    rw [if_neg (by rw [hw]; omega)]
  · intro hn hfit
    unfold Buffer.ensure_capacity
    rw [if_pos (by rw [hw]; omega)]
    obtain ⟨i1, i2, i3, i4, i5⟩ := pre_growth h hc
    have i6 : b.read_pos_ = 0 → (if b.read_pos_ > 0 then b.compact else b).buffer_ = b.buffer_ := by
      intro h0
      rw [if_neg (by omega)]
    generalize (if b.read_pos_ > 0 then b.compact else b) = b1 at i1 i2 i3 i4 i5 i6
    have hw1 := writable_size_eq i1 (by rw [i5]; exact hc)
    have hreg : b1.buffer_.take (b.write_pos_ - b.read_pos_) = b.readable := by
      rw [← i2]
      unfold Buffer.readable
      rw [i3, i4]
      simp
    have i1' := i1
    unfold Buffer.inv Buffer.capacity at i1'
    have i5' := i5
    unfold Buffer.capacity at i5'
    have hc' := hc
    unfold Buffer.capacity at hc'
    simp only
    by_cases h2 : b1.writable_size < n
    · rw [if_pos h2]
      have hm := size_t_mul_two (show b1.buffer_.length ≤ max_size by omega)
      have hcap : b1.buffer_.length ≤ max (size_t_mul b1.buffer_.length 2)
          (size_t_add b1.write_pos_ n) := by
        rw [hm]; omega
      simp only [Buffer.capacity, vector_resize_length]
      rw [hw1, i5, i4] at h2
      refine ⟨i3, i4, ?_, ?_, ?_, ?_⟩
      · rw [← hreg]
        have := vector_resize_readable hcap 0 (b.write_pos_ - b.read_pos_) (by omega)
        simpa using this
      · intro h0
        rw [← i5', ← i6 h0]
        have := vector_resize_readable hcap 0 b1.buffer_.length (by omega)
        simpa using this
      · intro hgrow
        have hbound := hfit hgrow
        rw [hm, i4, i5']
        rw [size_t_add_eq (by
          unfold Buffer.capacity at hbound
          omega)]
      · intro hle
        unfold Buffer.capacity at h2
        omega
    · rw [if_neg h2]
      rw [hw1, i5, i4] at h2
      refine ⟨i3, i4, hreg, ?_, ?_, ?_⟩
      · intro h0
        rw [i6 h0]
        unfold Buffer.capacity
        simp
      · intro hlt2
        omega
      · intro _
        exact i5

theorem ensure_capacity_policy_witness :
    ({ buffer_ := ['a', 'b', 'c', 'd'], read_pos_ := 2, write_pos_ := 4 } : Buffer).inv ∧
    ({ buffer_ := ['a', 'b', 'c', 'd'], read_pos_ := 2, write_pos_ := 4 } : Buffer).capacity
      ≤ max_size ∧
    ({ buffer_ := ['a', 'b', 'c', 'd'], read_pos_ := 2, write_pos_ := 4 } : Buffer).ensure_capacity 9
      = { buffer_ := ['c', 'd', 'c', 'd', Char.ofNat 0, Char.ofNat 0, Char.ofNat 0, Char.ofNat 0,
            Char.ofNat 0, Char.ofNat 0, Char.ofNat 0],
          read_pos_ := 0, write_pos_ := 2 } ∧
    (({ buffer_ := ['a', 'b', 'c', 'd'], read_pos_ := 2, write_pos_ := 4 } : Buffer).capacity - 4 < 9 →
      (({ buffer_ := ['a', 'b', 'c', 'd'], read_pos_ := 2, write_pos_ := 4 } : Buffer).capacity
          - (4 - 2) < 9 →
        max (2 * ({ buffer_ := ['a', 'b', 'c', 'd'], read_pos_ := 2, write_pos_ := 4 }
          : Buffer).capacity) ((4 - 2) + 9) ≤ max_size) →
      (({ buffer_ := ['a', 'b', 'c', 'd'], read_pos_ := 2, write_pos_ := 4 } : Buffer).ensure_capacity
          9).capacity = 11) :=
  ⟨by decide, by decide, by decide, fun hn hfit =>
    ((((ensure_capacity_policy
      { buffer_ := ['a', 'b', 'c', 'd'], read_pos_ := 2, write_pos_ := 4 } 9
      (by decide) (by decide)).2 hn hfit).2.2.2.2.1 (by decide))).trans (by decide)⟩

/-- C13, as stated, fails: with `write_pos = capacity = 8` and `n = 2 ^ 64 - 4` the sum
`write_pos_ + required_size` wraps to `4`, the vector is resized to `16` bytes, and
`writable_size()` is `8`, less than `n`. -/
theorem ensure_capacity_room_counterexample :
    ({ buffer_ := ['a', 'b', 'c', 'd', 'e', 'f', 'g', 'h'], read_pos_ := 0, write_pos_ := 8 }
      : Buffer).inv ∧
    ¬ (18446744073709551612 ≤
      (({ buffer_ := ['a', 'b', 'c', 'd', 'e', 'f', 'g', 'h'], read_pos_ := 0, write_pos_ := 8 }
        : Buffer).ensure_capacity 18446744073709551612).writable_size) ∧
    (({ buffer_ := ['a', 'b', 'c', 'd', 'e', 'f', 'g', 'h'], read_pos_ := 0, write_pos_ := 8 }
        : Buffer).ensure_capacity 18446744073709551612).writable_size = 8 := by
  decide

/-- C13, amended: for a buffer with `read_pos <= write_pos <= capacity` and every `n`
such that, when the vector has to grow (`capacity - readable_size() < n`), the new size
`max(2 * capacity, readable_size() + n)` is at most `max_size` (above it
`buffer_.resize` throws `std::length_error`), `ensure_capacity(n)` leaves
`writable_size() >= n`; this covers `ensure_capacity(1024)` of `do_read` for every
buffer of at most `max_size / 2` bytes. -/
theorem ensure_capacity_room (b : Buffer) (n : Nat) (h : b.inv) (hc : b.capacity ≤ max_size)
    (hfit : b.capacity - b.readable_size < n →
      max (2 * b.capacity) (b.readable_size + n) ≤ max_size) :
    n ≤ (b.ensure_capacity n).writable_size ∧
      (2 * b.capacity ≤ max_size → 1024 ≤ (b.ensure_capacity 1024).writable_size) := by
  have hr := readable_size_eq h hc
  have hlt := max_size_lt
  have h1 := h.1
  have h2 := h.2
  constructor
  · obtain ⟨i1, _, _, _, i5, i6⟩ := ensure_capacity_spec b n h hc
    rw [writable_size_of_inv i1 i5]
    apply i6
    rw [← hr]
    by_cases hg : b.capacity - b.readable_size < n
    · have := hfit hg
      omega
    · omega
  · intro h2c
    obtain ⟨i1, _, _, _, i5, i6⟩ := ensure_capacity_spec b 1024 h hc
    rw [writable_size_of_inv i1 i5]
    apply i6
    unfold max_size at hc
    unfold SIZE_MOD
    omega

theorem ensure_capacity_room_witness :
    ({ buffer_ := ['a', 'b', 'c', 'd'], read_pos_ := 2, write_pos_ := 4 } : Buffer).inv ∧
    ({ buffer_ := ['a', 'b', 'c', 'd'], read_pos_ := 2, write_pos_ := 4 } : Buffer).capacity
      ≤ max_size ∧
    (({ buffer_ := ['a', 'b', 'c', 'd'], read_pos_ := 2, write_pos_ := 4 } : Buffer).capacity
        - ({ buffer_ := ['a', 'b', 'c', 'd'], read_pos_ := 2, write_pos_ := 4 }
          : Buffer).readable_size < 9 →
      max (2 * ({ buffer_ := ['a', 'b', 'c', 'd'], read_pos_ := 2, write_pos_ := 4 }
          : Buffer).capacity)
        (({ buffer_ := ['a', 'b', 'c', 'd'], read_pos_ := 2, write_pos_ := 4 }
          : Buffer).readable_size + 9) ≤ max_size) ∧
    (9 ≤ (({ buffer_ := ['a', 'b', 'c', 'd'], read_pos_ := 2, write_pos_ := 4 }
        : Buffer).ensure_capacity 9).writable_size ∧
      (2 * ({ buffer_ := ['a', 'b', 'c', 'd'], read_pos_ := 2, write_pos_ := 4 }
          : Buffer).capacity ≤ max_size →
        1024 ≤ (({ buffer_ := ['a', 'b', 'c', 'd'], read_pos_ := 2, write_pos_ := 4 }
          : Buffer).ensure_capacity 1024).writable_size)) :=
  ⟨by decide, by decide, by decide,
    ensure_capacity_room { buffer_ := ['a', 'b', 'c', 'd'], read_pos_ := 2, write_pos_ := 4 } 9
      (by decide) (by decide) (by decide)⟩

theorem drained_zero (v : Bytes) (hv : v.length < SIZE_MOD) :
    ({ buffer_ := v, read_pos_ := 0, write_pos_ := 0 } : Buffer).drained := by
  refine ⟨rfl, rfl, ?_, ?_⟩
  · show size_t_sub 0 0 = 0
    decide
  · unfold Buffer.writable_size Buffer.capacity
    exact size_t_sub_eq (Nat.zero_le _) hv

theorem read_as_string_all (b : Buffer) (n : Nat) (h : b.inv) (hc : b.capacity ≤ max_size)
    (hn : b.readable_size ≤ n) :
    (b.read_as_string n).2 = { buffer_ := b.buffer_, read_pos_ := 0, write_pos_ := 0 } := by
  have hr := readable_size_eq h hc
  obtain ⟨h1, h2⟩ := h
  have hn1 : b.write_pos_ - b.read_pos_ ≤ n := by rw [← hr]; exact hn
  unfold Buffer.read_as_string
  simp only [hr, Nat.min_eq_right hn1]
  have e : size_t_add b.read_pos_ (b.write_pos_ - b.read_pos_) = b.write_pos_ := by
    rw [size_t_add_eq]
    · omega
    · have := max_size_lt
      omega
  rw [e]
  simp

theorem advance_read_all (b : Buffer) (h : b.inv) (hc : b.capacity ≤ max_size) :
    b.advance_read b.readable_size
      = { buffer_ := b.buffer_, read_pos_ := 0, write_pos_ := 0 } := by
  have hr := readable_size_eq h hc
  obtain ⟨h1, h2⟩ := h
  unfold Buffer.advance_read
  simp only [hr]
  have e : size_t_add b.read_pos_ (b.write_pos_ - b.read_pos_) = b.write_pos_ := by
    rw [size_t_add_eq]
    · omega
    · have := max_size_lt
      omega
  rw [e]
  simp

/-- C14. Draining resets the cursors: for a buffer with `read_pos <= write_pos <=
capacity`, `read_all_as_string()`, `read_as_string(n)` with `n >= readable_size()` and
`advance_read(readable_size())` leave `read_pos == 0` and `write_pos == 0`, hence
`readable_size() == 0` and `writable_size() == capacity()`. -/
theorem drain_resets_cursors (b : Buffer) (h : b.inv) (hc : b.capacity ≤ max_size) :
    b.read_all_as_string.2.drained ∧
    (∀ n, b.readable_size ≤ n → (b.read_as_string n).2.drained) ∧
    (b.advance_read b.readable_size).drained := by
  have hv : b.buffer_.length < SIZE_MOD := Nat.lt_of_le_of_lt hc max_size_lt
  refine ⟨?_, ?_, ?_⟩
  · unfold Buffer.read_all_as_string
    rw [read_as_string_all b _ h hc (Nat.le_refl _)]
    exact drained_zero _ hv
  · intro n hn
    rw [read_as_string_all b n h hc hn]
    exact drained_zero _ hv
  · rw [advance_read_all b h hc]
    exact drained_zero _ hv

theorem drain_resets_cursors_witness :
    ({ buffer_ := ['a', 'b', 'c', 'd'], read_pos_ := 1, write_pos_ := 3 } : Buffer).inv ∧
    ({ buffer_ := ['a', 'b', 'c', 'd'], read_pos_ := 1, write_pos_ := 3 } : Buffer).capacity
      ≤ max_size ∧
    (({ buffer_ := ['a', 'b', 'c', 'd'], read_pos_ := 1, write_pos_ := 3 }
        : Buffer).read_all_as_string.2.drained ∧
     (∀ n, ({ buffer_ := ['a', 'b', 'c', 'd'], read_pos_ := 1, write_pos_ := 3 }
        : Buffer).readable_size ≤ n →
        (({ buffer_ := ['a', 'b', 'c', 'd'], read_pos_ := 1, write_pos_ := 3 }
          : Buffer).read_as_string n).2.drained) ∧
     (({ buffer_ := ['a', 'b', 'c', 'd'], read_pos_ := 1, write_pos_ := 3 } : Buffer).advance_read
        ({ buffer_ := ['a', 'b', 'c', 'd'], read_pos_ := 1, write_pos_ := 3 }
          : Buffer).readable_size).drained) :=
  ⟨by decide, by decide,
    drain_resets_cursors { buffer_ := ['a', 'b', 'c', 'd'], read_pos_ := 1, write_pos_ := 3 }
      (by decide) (by decide)⟩

theorem read_as_string_inv (b : Buffer) (n : Nat) (h : b.inv) (hc : b.capacity ≤ max_size) :
    (b.read_as_string n).2.inv := by
  have hr := readable_size_eq h hc
  obtain ⟨h1, h2⟩ := h
  have hlt := max_size_lt
  unfold Buffer.read_as_string
  simp only [hr]
  have e : size_t_add b.read_pos_ (min n (b.write_pos_ - b.read_pos_))
      = b.read_pos_ + min n (b.write_pos_ - b.read_pos_) := by
    rw [size_t_add_eq]
    omega
  rw [e]
  unfold Buffer.inv Buffer.capacity at *
  split
  · simp
  · simp only
    omega

theorem copy_into_length {v : Bytes} {pos : Nat} {src : Bytes} (h : pos + src.length ≤ v.length) :
    (copy_into v pos src).length = v.length := by
  unfold copy_into
  simp only [List.length_append, List.length_take, List.length_drop]
  omega

theorem append_spec (b : Buffer) (d : Bytes) (h : b.inv) (hc : b.capacity ≤ max_size)
    (hd : d.length ≤ max_size) :
    (b.append d).inv ∧ (b.append d).readable = b.readable ++ d := by
  unfold Buffer.append
  by_cases h0 : d.length = 0
  · rw [if_pos h0]
    have : d = [] := List.length_eq_zero.1 h0
    subst this
    exact ⟨h, (List.append_nil _).symm⟩
  · rw [if_neg h0]
    obtain ⟨i1, i2, i3, _, i5, i6⟩ := ensure_capacity_spec b d.length h hc
    have hroom := i6 (by
      have h1 := h.1
      have h2 := h.2
      unfold max_size at hc hd
      unfold SIZE_MOD
      omega)
    generalize b.ensure_capacity d.length = b1 at i1 i2 i3 i5 hroom
    obtain ⟨j1, j2⟩ := i1
    unfold Buffer.capacity at j2 i5 hroom
    have e : size_t_add b1.write_pos_ d.length = b1.write_pos_ + d.length :=
      size_t_add_eq (by omega)
    simp only [e]
    constructor
    · unfold Buffer.inv Buffer.capacity
      simp only
      rw [copy_into_length (by omega)]
      omega
    · rw [← i2]
      unfold Buffer.readable copy_into
      simp only
      have hl : (b1.buffer_.take b1.write_pos_).length = b1.write_pos_ := by
        rw [List.length_take]; omega
      rw [List.append_assoc, List.drop_append_of_le_length (by omega),
        List.take_append_eq_append_take]
      have hl2 : ((b1.buffer_.take b1.write_pos_).drop b1.read_pos_).length
          = b1.write_pos_ - b1.read_pos_ := by
        rw [List.length_drop, hl]
      rw [hl2, List.take_of_length_le (by omega)]
      have e3 : b1.write_pos_ + d.length - b1.read_pos_ - (b1.write_pos_ - b1.read_pos_)
          = d.length := by omega
      rw [e3, List.take_append_of_le_length (Nat.le_refl _), List.take_length]
      congr 1
      rw [List.drop_take]

/-- C15. Cursor invariant: for a buffer with `read_pos <= write_pos <= capacity` each
of `append(data)`, `read_as_string(n)`, `read_all_as_string()`, `ensure_capacity(n)`,
`resize(n)` and `clear()` yields a buffer with `read_pos <= write_pos <= capacity`
(the capacity and the size of `data` being sizes a vector and a string can have). -/
theorem inv_preserved (b : Buffer) (data : Bytes) (n : Nat) (h : b.inv)
    (hc : b.capacity ≤ max_size) (hd : data.length ≤ max_size) :
    (b.append data).inv ∧ (b.read_as_string n).2.inv ∧ b.read_all_as_string.2.inv ∧
      (b.ensure_capacity n).inv ∧ (b.resize n).inv ∧ b.clear.inv := by
  refine ⟨(append_spec b data h hc hd).1, read_as_string_inv b n h hc,
    read_as_string_inv b _ h hc, (ensure_capacity_spec b n h hc).1, ?_, ?_⟩
  · unfold Buffer.resize
    split
    · obtain ⟨h1, h2⟩ := h
      unfold Buffer.inv Buffer.capacity at *
      simp only [vector_resize_length]
      omega
    · exact h
  · unfold Buffer.clear Buffer.inv
    simp

theorem inv_preserved_witness :
    ({ buffer_ := ['a', 'b', 'c', 'd'], read_pos_ := 1, write_pos_ := 3 } : Buffer).inv ∧
    ({ buffer_ := ['a', 'b', 'c', 'd'], read_pos_ := 1, write_pos_ := 3 } : Buffer).capacity
      ≤ max_size ∧
    (['x', 'y', 'z'] : Bytes).length ≤ max_size ∧
    ((({ buffer_ := ['a', 'b', 'c', 'd'], read_pos_ := 1, write_pos_ := 3 } : Buffer).append
        ['x', 'y', 'z']).inv ∧
     (({ buffer_ := ['a', 'b', 'c', 'd'], read_pos_ := 1, write_pos_ := 3 } : Buffer).read_as_string
        1).2.inv ∧
     ({ buffer_ := ['a', 'b', 'c', 'd'], read_pos_ := 1, write_pos_ := 3 }
        : Buffer).read_all_as_string.2.inv ∧
     (({ buffer_ := ['a', 'b', 'c', 'd'], read_pos_ := 1, write_pos_ := 3 } : Buffer).ensure_capacity
        1).inv ∧
     (({ buffer_ := ['a', 'b', 'c', 'd'], read_pos_ := 1, write_pos_ := 3 } : Buffer).resize 1).inv ∧
     ({ buffer_ := ['a', 'b', 'c', 'd'], read_pos_ := 1, write_pos_ := 3 } : Buffer).clear.inv) :=
  ⟨by decide, by decide, by decide,
    inv_preserved { buffer_ := ['a', 'b', 'c', 'd'], read_pos_ := 1, write_pos_ := 3 }
      ['x', 'y', 'z'] 1 (by decide) (by decide) (by decide)⟩

/-- C16, as stated, fails: on an empty buffer of capacity 4, `advance_write(5)` puts
`write_pos` at 5, past the capacity, and `advance_read(1)` puts `read_pos` at 1, past
`write_pos`. -/
theorem advance_inv_counterexample :
    (Buffer.sized 4).inv ∧ ¬ ((Buffer.sized 4).advance_write 5).inv ∧
      ¬ ((Buffer.sized 4).advance_read 1).inv := by
  decide

/-- C16, amended: for a buffer with `read_pos <= write_pos <= capacity`,
`advance_write(n)` with `n <= writable_size()` and `advance_read(n)` with
`n <= readable_size()` yield a buffer with `read_pos <= write_pos <= capacity`. -/
theorem advance_inv (b : Buffer) (n : Nat) (h : b.inv) (hc : b.capacity ≤ max_size) :
    (n ≤ b.writable_size → (b.advance_write n).inv) ∧
      (n ≤ b.readable_size → (b.advance_read n).inv) := by
  have hw := writable_size_eq h hc
  have hr := readable_size_eq h hc
  have hlt := max_size_lt
  obtain ⟨h1, h2⟩ := h
  constructor
  · intro hn
    rw [hw] at hn
    unfold Buffer.advance_write Buffer.inv Buffer.capacity at *
    simp only
    rw [size_t_add_eq (by omega)]
    omega
  · intro hn
    rw [hr] at hn
    unfold Buffer.advance_read
    simp only
    rw [size_t_add_eq (by unfold Buffer.capacity at h2 hc; omega)]
    unfold Buffer.inv Buffer.capacity at *
    split
    · simp
    · simp only
      omega

theorem advance_inv_witness :
    ({ buffer_ := ['a', 'b', 'c', 'd'], read_pos_ := 1, write_pos_ := 3 } : Buffer).inv ∧
    ({ buffer_ := ['a', 'b', 'c', 'd'], read_pos_ := 1, write_pos_ := 3 } : Buffer).capacity
      ≤ max_size ∧
    ((1 ≤ ({ buffer_ := ['a', 'b', 'c', 'd'], read_pos_ := 1, write_pos_ := 3 }
        : Buffer).writable_size →
      (({ buffer_ := ['a', 'b', 'c', 'd'], read_pos_ := 1, write_pos_ := 3 }
        : Buffer).advance_write 1).inv) ∧
     (1 ≤ ({ buffer_ := ['a', 'b', 'c', 'd'], read_pos_ := 1, write_pos_ := 3 }
        : Buffer).readable_size →
      (({ buffer_ := ['a', 'b', 'c', 'd'], read_pos_ := 1, write_pos_ := 3 }
        : Buffer).advance_read 1).inv)) ∧
    1 ≤ ({ buffer_ := ['a', 'b', 'c', 'd'], read_pos_ := 1, write_pos_ := 3 }
        : Buffer).writable_size ∧
    1 ≤ ({ buffer_ := ['a', 'b', 'c', 'd'], read_pos_ := 1, write_pos_ := 3 }
        : Buffer).readable_size :=
  ⟨by decide, by decide,
    advance_inv { buffer_ := ['a', 'b', 'c', 'd'], read_pos_ := 1, write_pos_ := 3 } 1
      (by decide) (by decide),
    by decide, by decide⟩

theorem read_as_string_spec (b : Buffer) (n : Nat) (h : b.inv) (hc : b.capacity ≤ max_size) :
    (b.read_as_string n).1 = b.readable.take (min n b.readable.length) ∧
      (b.read_as_string n).2.readable = b.readable.drop (min n b.readable.length) := by
  have hr := readable_size_eq h hc
  have hl := readable_length h
  have hlt := max_size_lt
  obtain ⟨h1, h2⟩ := h
  unfold Buffer.capacity at h2 hc
  unfold Buffer.read_as_string
  simp only [hr, hl]
  have e : size_t_add b.read_pos_ (min n (b.write_pos_ - b.read_pos_))
      = b.read_pos_ + min n (b.write_pos_ - b.read_pos_) := by
    rw [size_t_add_eq]
    omega
  rw [e]
  have hfirst : (b.buffer_.drop b.read_pos_).take (min n (b.write_pos_ - b.read_pos_))
      = b.readable.take (min n (b.write_pos_ - b.read_pos_)) := by
    unfold Buffer.readable
    rw [List.take_take, Nat.min_eq_left (Nat.min_le_right _ _)]
  split
  · rename_i heq
    refine ⟨hfirst, ?_⟩
    have : min n (b.write_pos_ - b.read_pos_) = b.write_pos_ - b.read_pos_ := by omega
    rw [this, ← hl, List.drop_length]
    simp [Buffer.readable]
  · refine ⟨hfirst, ?_⟩
    unfold Buffer.readable
    simp only
    rw [List.drop_take, List.drop_drop]
    congr 1
    omega

/-- C17. The buffer refines a FIFO byte queue: with the readable region as the content
`q` of a buffer with `read_pos <= write_pos <= capacity`, `append(d)` makes the content
`q ++ d` (for every `d` a string can be, the empty one included), and `read_as_string(n)`
returns the first `min(n, |q|)` bytes of `q` and leaves the remaining bytes of `q`. -/
theorem buffer_refines_queue (b : Buffer) (d : Bytes) (n : Nat) (h : b.inv)
    (hc : b.capacity ≤ max_size) (hd : d.length ≤ max_size) :
    (b.append d).readable = b.readable ++ d ∧
      (b.read_as_string n).1 = b.readable.take (min n b.readable.length) ∧
      (b.read_as_string n).2.readable = b.readable.drop (min n b.readable.length) :=
  ⟨(append_spec b d h hc hd).2, read_as_string_spec b n h hc⟩

theorem buffer_refines_queue_witness :
    ({ buffer_ := ['a', 'b', 'c', 'd'], read_pos_ := 1, write_pos_ := 3 } : Buffer).inv ∧
    ({ buffer_ := ['a', 'b', 'c', 'd'], read_pos_ := 1, write_pos_ := 3 } : Buffer).capacity
      ≤ max_size ∧
    (['x', 'y', 'z'] : Bytes).length ≤ max_size ∧
    ((({ buffer_ := ['a', 'b', 'c', 'd'], read_pos_ := 1, write_pos_ := 3 } : Buffer).append
        ['x', 'y', 'z']).readable
      = ({ buffer_ := ['a', 'b', 'c', 'd'], read_pos_ := 1, write_pos_ := 3 } : Buffer).readable
        ++ ['x', 'y', 'z'] ∧
     (({ buffer_ := ['a', 'b', 'c', 'd'], read_pos_ := 1, write_pos_ := 3 } : Buffer).read_as_string
        5).1
      = ({ buffer_ := ['a', 'b', 'c', 'd'], read_pos_ := 1, write_pos_ := 3 } : Buffer).readable.take
        (min 5 ({ buffer_ := ['a', 'b', 'c', 'd'], read_pos_ := 1, write_pos_ := 3 }
          : Buffer).readable.length) ∧
     (({ buffer_ := ['a', 'b', 'c', 'd'], read_pos_ := 1, write_pos_ := 3 } : Buffer).read_as_string
        5).2.readable
      = ({ buffer_ := ['a', 'b', 'c', 'd'], read_pos_ := 1, write_pos_ := 3 } : Buffer).readable.drop
        (min 5 ({ buffer_ := ['a', 'b', 'c', 'd'], read_pos_ := 1, write_pos_ := 3 }
          : Buffer).readable.length)) :=
  ⟨by decide, by decide, by decide,
    buffer_refines_queue { buffer_ := ['a', 'b', 'c', 'd'], read_pos_ := 1, write_pos_ := 3 }
      ['x', 'y', 'z'] 5 (by decide) (by decide) (by decide)⟩

/-! ## The router -/

theorem handle_false_keeps (h : IMessageHandler) (lib : JsonLib) (data : Bytes)
    (send : Option Buffer) (hf : (h.handle lib data send).1 = false) :
    (h.handle lib data send).2 = send := by
  cases h with
  | protobuf p =>
    unfold IMessageHandler.handle ProtobufMessageHandler.handle at hf ⊢
    simp only at hf ⊢
    cases h1 : p.ParseFromString data with
    | none => simp
    | some request =>
      simp only [h1] at hf ⊢
      cases h2 : p.handler_ request with
      | none => simp
      | some response_msg =>
        simp only [h2] at hf ⊢
        cases send with
        | none => simp at hf
        | some buf =>
          simp only at hf ⊢
          cases h3 : p.SerializeToString response_msg <;> simp [h3] at hf
  | json j =>
    unfold IMessageHandler.handle JsonMessageHandler.handle at hf ⊢
    simp only at hf ⊢
    cases h1 : ProtocolTools.deserialize lib data true with
    | none => simp
    | some request =>
      simp only [h1] at hf ⊢
      cases h2 : j.handler_ request with
      | none => simp
      | some response_msg =>
        simp only [h2] at hf ⊢
        cases send <;> simp at hf

/-- What the loop of `handle_single_message` does: either some handler of the frame's
type succeeds, every handler of that type before it failed, and those handlers are the
ones called; or every handler of that type fails, all of them are called, and `send`
is as before. -/
theorem try_handlers_spec (lib : JsonLib) (message : LVProtocol) (hs : List IMessageHandler)
    (i : Nat) (send : Option Buffer) :
    (∃ pre h post, hs = pre ++ h :: post ∧ h.get_type = message.type ∧
      (h.handle lib message.data send).1 = true ∧
      (∀ g ∈ pre, g.get_type = message.type → (g.handle lib message.data send).1 = false) ∧
      try_handlers lib hs i message send
        = (true, (h.handle lib message.data send).2,
            matching_indices pre i message.type ++ [i + pre.length])) ∨
    ((∀ g ∈ hs, g.get_type = message.type → (g.handle lib message.data send).1 = false) ∧
      try_handlers lib hs i message send = (false, send, matching_indices hs i message.type)) := by
  induction hs generalizing i with
  | nil =>
    right
    exact ⟨by simp, rfl⟩
  | cons x xs ih =>
    by_cases ht : x.get_type = message.type
    · cases hx : x.handle lib message.data send with
      | mk b s1 =>
        cases b with
        | true =>
          left
          refine ⟨[], x, xs, rfl, ht, by rw [hx], by simp, ?_⟩
          unfold try_handlers
          rw [if_pos ht, hx]
          simp [matching_indices]
        | false =>
          have hk := handle_false_keeps x lib message.data send (by rw [hx])
          rw [hx] at hk
          simp only at hk
          subst hk
          rcases ih (i + 1) with ⟨pre, h, post, e1, e2, e3, e4, e5⟩ | ⟨e1, e2⟩
          · left
            refine ⟨x :: pre, h, post, by rw [e1]; rfl, e2, e3, ?_, ?_⟩
            · intro g hg hgt
              rcases List.mem_cons.1 hg with rfl | hg
              · rw [hx]
              · exact e4 g hg hgt
            · unfold try_handlers
              rw [if_pos ht, hx]
              have e : i + 1 + pre.length = i + (x :: pre).length := by
                simp only [List.length_cons]; omega
              simp only [e5, e]
              simp [matching_indices, ht]
          · right
            refine ⟨?_, ?_⟩
            · intro g hg hgt
              rcases List.mem_cons.1 hg with rfl | hg
              · rw [hx]
              · exact e1 g hg hgt
            · unfold try_handlers
              rw [if_pos ht, hx]
              simp only [e2, matching_indices, if_pos ht]
    · rcases ih (i + 1) with ⟨pre, h, post, e1, e2, e3, e4, e5⟩ | ⟨e1, e2⟩
      · left
        refine ⟨x :: pre, h, post, by rw [e1]; rfl, e2, e3, ?_, ?_⟩
        · intro g hg hgt
          rcases List.mem_cons.1 hg with rfl | hg
          · exact absurd hgt ht
          · exact e4 g hg hgt
        · unfold try_handlers
          rw [if_neg ht]
          have e : i + 1 + pre.length = i + (x :: pre).length := by
            simp only [List.length_cons]; omega
          simp only [e5, e]
          simp [matching_indices, ht]
      · right
        refine ⟨?_, ?_⟩
        · intro g hg hgt
          rcases List.mem_cons.1 hg with rfl | hg
          · exact absurd hgt ht
          · exact e1 g hg hgt
        · unfold try_handlers
          rw [if_neg ht]
          simp only [e2, matching_indices, if_neg ht]

theorem matching_indices_mem (hs : List IMessageHandler) (i : Nat) (t : ProtocolType) (k : Nat) :
    k ∈ matching_indices hs i t ↔ ∃ h, i ≤ k ∧ hs[k - i]? = some h ∧ h.get_type = t := by
  induction hs generalizing i with
  | nil => simp [matching_indices]
  | cons x xs ih =>
    unfold matching_indices
    have key : (∃ h, i ≤ k ∧ (x :: xs)[k - i]? = some h ∧ h.get_type = t) ↔
        ((k = i ∧ x.get_type = t) ∨ ∃ h, i + 1 ≤ k ∧ xs[k - (i + 1)]? = some h ∧ h.get_type = t) := by
      constructor
      · rintro ⟨h, hik, hget, ht⟩
        rcases Nat.eq_or_lt_of_le hik with rfl | hlt
        · left
          rw [Nat.sub_self] at hget
          simp only [List.getElem?_cons_zero, Option.some.injEq] at hget
          subst hget
          exact ⟨rfl, ht⟩
        · right
          have e : k - i = (k - (i + 1)) + 1 := by omega
          rw [e, List.getElem?_cons_succ] at hget
          exact ⟨h, by omega, hget, ht⟩
      · rintro (⟨rfl, ht⟩ | ⟨h, hik, hget, ht⟩)
        · exact ⟨x, Nat.le_refl _, by simp, ht⟩
        · have e : k - i = (k - (i + 1)) + 1 := by omega
          exact ⟨h, by omega, by rw [e, List.getElem?_cons_succ]; exact hget, ht⟩
    rw [key]
    by_cases ht : x.get_type = t
    · rw [if_pos ht, List.mem_cons, ih]
      simp [ht]
    · rw [if_neg ht, ih]
      simp [ht]

theorem matching_indices_append (pre post : List IMessageHandler) (i : Nat) (t : ProtocolType) :
    matching_indices (pre ++ post) i t
      = matching_indices pre i t ++ matching_indices post (i + pre.length) t := by
  induction pre generalizing i with
  | nil => simp [matching_indices]
  | cons x xs ih =>
    have e : i + 1 + xs.length = i + (x :: xs).length := by
      simp only [List.length_cons]; omega
    simp only [List.cons_append, matching_indices]
    split <;> simp [ih, e]

theorem try_handlers_called (lib : JsonLib) (message : LVProtocol) (hs : List IMessageHandler)
    (i : Nat) (send : Option Buffer) :
    ∀ k ∈ (try_handlers lib hs i message send).2.2, k ∈ matching_indices hs i message.type := by
  intro k hk
  rcases try_handlers_spec lib message hs i send with ⟨pre, h, post, e1, e2, _, _, e5⟩ | ⟨_, e2⟩
  · rw [e5] at hk
    rw [e1, matching_indices_append]
    simp only [matching_indices, if_pos e2]
    simp only [List.mem_append, List.mem_singleton] at hk
    rcases hk with hk | hk
    · exact List.mem_append_left _ hk
    · exact List.mem_append_right _ (by rw [hk]; exact List.mem_cons_self _ _)
  · rw [e2] at hk
    exact hk

theorem try_handlers_cons_neg (lib : JsonLib) (message : LVProtocol) (x : IMessageHandler)
    (xs : List IMessageHandler) (i : Nat) (send : Option Buffer)
    (ht : ¬ x.get_type = message.type) :
    try_handlers lib (x :: xs) i message send = try_handlers lib xs (i + 1) message send := by
  rw [try_handlers, if_neg ht]

theorem try_handlers_filter (lib : JsonLib) (message : LVProtocol) (hs : List IMessageHandler)
    (i j : Nat) (send : Option Buffer) :
    (try_handlers lib (hs.filter (fun h => decide (h.get_type = message.type))) j message send).1
        = (try_handlers lib hs i message send).1 ∧
      (try_handlers lib (hs.filter (fun h => decide (h.get_type = message.type))) j message send).2.1
        = (try_handlers lib hs i message send).2.1 := by
  induction hs generalizing i j send with
  | nil => exact ⟨rfl, rfl⟩
  | cons x xs ih =>
    by_cases ht : x.get_type = message.type
    · rw [List.filter_cons_of_pos (by simpa using ht)]
      unfold try_handlers
      rw [if_pos ht, if_pos ht]
      cases hx : x.handle lib message.data send with
      | mk b s1 =>
        cases b with
        | true => exact ⟨rfl, rfl⟩
        | false =>
          simp only
          exact ih (i + 1) (j + 1) s1
    · rw [List.filter_cons_of_neg (by simpa using ht)]
      rw [try_handlers_cons_neg lib message x xs i send ht]
      exact ih (i + 1) j send

/-- C18, as stated, fails: with two JSON handlers of which the first signals failure
and the second success, a JSON frame makes `handle_single_message` call both, and the
output is the response of the second handler, not the error frame. -/
theorem first_match_counterexample :
    sample_provider.handlers_.map (fun h => h.get_type)
      = [ProtocolType.JSON, ProtocolType.JSON] ∧
    sample_provider.handlers_.map
        (fun h => (h.handle sample_lib ['{', '}'] (some Buffer.default)).1) = [false, true] ∧
    (sample_provider.handle_single_message sample_lib 5
        (LVProtocol.ctor ProtocolType.JSON ['{', '}']) (some Buffer.default)).2 = [0, 1] ∧
    (sample_provider.handle_single_message sample_lib 5
        (LVProtocol.ctor ProtocolType.JSON ['{', '}']) (some Buffer.default)).1
      ≠ Provider.send_error_response sample_lib 5 ProtocolType.JSON
          "No handler found".toList (some Buffer.default) := by
  decide

/-- C18, amended: `handle_single_message` calls the handlers whose tag equals the
frame's tag in the order of registration until one signals success. Either a handler
`h` of that tag succeeds, every handler of that tag registered before `h` was called
and failed, no handler after `h` is called, and the output is what `h` left; or every
handler of that tag is called and fails, and the output is the error frame. When the
first handler of the tag succeeds it is the only one called. -/
theorem handle_single_message_dispatch (p : Provider) (lib : JsonLib) (now : Int)
    (message : LVProtocol) (send : Option Buffer) :
    (∃ pre h post, p.handlers_ = pre ++ h :: post ∧ h.get_type = message.type ∧
      (h.handle lib message.data send).1 = true ∧
      (∀ g ∈ pre, g.get_type = message.type → (g.handle lib message.data send).1 = false) ∧
      p.handle_single_message lib now message send
        = ((h.handle lib message.data send).2,
            matching_indices pre 0 message.type ++ [pre.length])) ∨
    ((∀ g ∈ p.handlers_, g.get_type = message.type →
        (g.handle lib message.data send).1 = false) ∧
      p.handle_single_message lib now message send
        = (Provider.send_error_response lib now message.type "No handler found".toList send,
            matching_indices p.handlers_ 0 message.type)) := by
  unfold Provider.handle_single_message
  rcases try_handlers_spec lib message p.handlers_ 0 send with
    ⟨pre, h, post, e1, e2, e3, e4, e5⟩ | ⟨e1, e2⟩
  · left
    refine ⟨pre, h, post, e1, e2, e3, e4, ?_⟩
    rw [e5]
    simp
  · right
    refine ⟨e1, ?_⟩
    rw [e2]

/-- C19. Dispatch isolation by tag: every handler that `handle_single_message` calls
has the frame's type, and the output buffer is the one the registry without the
handlers of a different type gives. -/
theorem dispatch_isolation (p : Provider) (lib : JsonLib) (now : Int) (message : LVProtocol)
    (send : Option Buffer) :
    (∀ k ∈ (p.handle_single_message lib now message send).2,
      ∃ h, p.handlers_[k]? = some h ∧ h.get_type = message.type) ∧
    (p.handle_single_message lib now message send).1
      = ((Provider.mk (p.handlers_.filter (fun h => decide (h.get_type = message.type)))).handle_single_message
          lib now message send).1 := by
  constructor
  · intro k hk
    have hc : (p.handle_single_message lib now message send).2
        = (try_handlers lib p.handlers_ 0 message send).2.2 := by
      unfold Provider.handle_single_message
      rcases hr : try_handlers lib p.handlers_ 0 message send with ⟨b, s, c⟩
      cases b <;> rfl
    rw [hc] at hk
    have := try_handlers_called lib message p.handlers_ 0 send k hk
    rw [matching_indices_mem] at this
    obtain ⟨h, _, hget, ht⟩ := this
    exact ⟨h, by simpa using hget, ht⟩
  · obtain ⟨f1, f2⟩ := try_handlers_filter lib message p.handlers_ 0 0 send
    unfold Provider.handle_single_message
    simp only
    rcases hr : try_handlers lib p.handlers_ 0 message send with ⟨b, s, c⟩
    rcases hr2 : try_handlers lib
      (p.handlers_.filter (fun h => decide (h.get_type = message.type))) 0 message send
      with ⟨b2, s2, c2⟩
    rw [hr, hr2] at f1 f2
    simp only at f1 f2
    subst f1 f2
    cases b2 <;> rfl

theorem to_string_ctor_eq_wire (T : ProtocolType) (P : Bytes)
    (hP : (P.length : Int) ≤ ProtocolTools.INT_MAX) :
    (LVProtocol.ctor T P).to_string = ProtocolTools.wire T P := by
  rw [ProtocolTools.to_string_ctor T P hP, ProtocolTools.to_string_nat_eq_dec]
  rfl

theorem to_string_ctor_length_le (T : ProtocolType) (P : Bytes)
    (hP : (P.length : Int) ≤ ProtocolTools.INT_MAX) :
    (LVProtocol.ctor T P).to_string.length ≤ max_size := by
  rw [ProtocolTools.to_string_ctor T P hP]
  have h1 := ProtocolTools.frameBytes_length (ProtocolTools.to_string_nat P.length) T P
  have h2 := ProtocolTools.to_string_nat_length_le P.length
  unfold ProtocolTools.frameBytes at h1
  rw [h1]
  unfold ProtocolTools.INT_MAX at hP
  unfold max_size
  omega

theorem error_response_eq (error_msg : Bytes) (now : Int) :
    error_response error_msg now
      = JsonValue.object [("status".toList, JsonValue.string "error".toList),
          ("message".toList, JsonValue.string error_msg),
          ("timestamp".toList, JsonValue.int now)] := by
  unfold error_response JsonValue.set
  simp only
  have e1 : ProtocolTools.setMember [("status".toList, JsonValue.string "error".toList)] "message".toList
      (JsonValue.string error_msg)
      = [("status".toList, JsonValue.string "error".toList),
          ("message".toList, JsonValue.string error_msg)] := by
    unfold ProtocolTools.setMember
    rw [if_neg (by decide)]
    rfl
  rw [e1]
  unfold ProtocolTools.setMember
  have hk1 : "status".toList ≠ "timestamp".toList := by decide
  have hk2 : "message".toList ≠ "timestamp".toList := by decide
  rw [if_neg (by simp [hk1, hk2])]
  rfl

theorem send_error_response_some (lib : JsonLib) (now : Int) (type : ProtocolType)
    (error_msg : Bytes) (buf : Buffer) :
    Provider.send_error_response lib now type error_msg (some buf)
      = some (buf.append
          (LVProtocol.ctor ProtocolType.JSON (lib.write (error_response error_msg now))).to_string) := by
  unfold Provider.send_error_response ProtocolTools.serialize
  cases type <;> simp

/-- C20. Error frame on an unhandled frame: when no handler of the frame's type signals
success, `handle_single_message` appends to a non-null output buffer the packed bytes
of exactly one frame, tagged `"JS"` whatever the type of the request, whose payload is
the written object with the members `status = "error"`, `message` and `timestamp`;
when a handler of the frame's type signals success, the output is what that handler
left, and no error frame is added. (`buf` satisfies the cursor invariant; the written
payload has at most `INT_MAX` bytes.) -/
theorem error_frame_on_unhandled (p : Provider) (lib : JsonLib) (now : Int)
    (message : LVProtocol) (buf : Buffer) (hi : buf.inv) (hc : buf.capacity ≤ max_size)
    (hP : ((lib.write (error_response "No handler found".toList now)).length : Int)
      ≤ ProtocolTools.INT_MAX) :
    error_response "No handler found".toList now
      = JsonValue.object [("status".toList, JsonValue.string "error".toList),
          ("message".toList, JsonValue.string "No handler found".toList),
          ("timestamp".toList, JsonValue.int now)] ∧
    ((∀ h ∈ p.handlers_, h.get_type = message.type →
        (h.handle lib message.data (some buf)).1 = false) →
      ∃ out, (p.handle_single_message lib now message (some buf)).1 = some out ∧
        out.readable = buf.readable ++ ProtocolTools.wire ProtocolType.JSON
          (lib.write (error_response "No handler found".toList now))) ∧
    ((∃ h ∈ p.handlers_, h.get_type = message.type ∧
        (h.handle lib message.data (some buf)).1 = true) →
      ∃ h ∈ p.handlers_, h.get_type = message.type ∧
        (h.handle lib message.data (some buf)).1 = true ∧
        (p.handle_single_message lib now message (some buf)).1
          = (h.handle lib message.data (some buf)).2) := by
  refine ⟨error_response_eq _ _, ?_, ?_⟩
  · intro hall
    unfold Provider.handle_single_message
    rcases try_handlers_spec lib message p.handlers_ 0 (some buf) with
      ⟨pre, h, post, e1, e2, e3, _, _⟩ | ⟨_, e2⟩
    · have := hall h (by rw [e1]; simp) e2
      rw [e3] at this
      cases this
    · rw [e2]
      simp only
      rw [send_error_response_some]
      refine ⟨_, rfl, ?_⟩
      rw [(append_spec buf _ hi hc (to_string_ctor_length_le _ _ hP)).2,
        to_string_ctor_eq_wire _ _ hP]
  · rintro ⟨g, hg, hgt, hgs⟩
    unfold Provider.handle_single_message
    rcases try_handlers_spec lib message p.handlers_ 0 (some buf) with
      ⟨pre, h, post, e1, e2, e3, _, e5⟩ | ⟨e1, _⟩
    · refine ⟨h, by rw [e1]; simp, e2, e3, ?_⟩
      rw [e5]
    · have := e1 g hg hgt
      rw [hgs] at this
      cases this

theorem error_frame_on_unhandled_witness :
    Buffer.default.inv ∧ Buffer.default.capacity ≤ max_size ∧
    ((sample_lib.write (error_response "No handler found".toList 5)).length : Int)
      ≤ ProtocolTools.INT_MAX ∧
    (∀ h ∈ sample_provider.handlers_, h.get_type = (LVProtocol.ctor ProtocolType.PROTOBUF
        ['x']).type → (h.handle sample_lib (LVProtocol.ctor ProtocolType.PROTOBUF ['x']).data
          (some Buffer.default)).1 = false) ∧
    (error_response "No handler found".toList 5
      = JsonValue.object [("status".toList, JsonValue.string "error".toList),
          ("message".toList, JsonValue.string "No handler found".toList),
          ("timestamp".toList, JsonValue.int 5)] ∧
    ((∀ h ∈ sample_provider.handlers_, h.get_type = (LVProtocol.ctor ProtocolType.PROTOBUF
        ['x']).type → (h.handle sample_lib (LVProtocol.ctor ProtocolType.PROTOBUF ['x']).data
          (some Buffer.default)).1 = false) →
      ∃ out, (sample_provider.handle_single_message sample_lib 5
          (LVProtocol.ctor ProtocolType.PROTOBUF ['x']) (some Buffer.default)).1 = some out ∧
        out.readable = Buffer.default.readable ++ ProtocolTools.wire ProtocolType.JSON
          (sample_lib.write (error_response "No handler found".toList 5))) ∧
    ((∃ h ∈ sample_provider.handlers_, h.get_type = (LVProtocol.ctor ProtocolType.PROTOBUF
        ['x']).type ∧ (h.handle sample_lib (LVProtocol.ctor ProtocolType.PROTOBUF ['x']).data
          (some Buffer.default)).1 = true) →
      ∃ h ∈ sample_provider.handlers_, h.get_type = (LVProtocol.ctor ProtocolType.PROTOBUF
        ['x']).type ∧ (h.handle sample_lib (LVProtocol.ctor ProtocolType.PROTOBUF ['x']).data
          (some Buffer.default)).1 = true ∧
        (sample_provider.handle_single_message sample_lib 5
          (LVProtocol.ctor ProtocolType.PROTOBUF ['x']) (some Buffer.default)).1
          = (h.handle sample_lib (LVProtocol.ctor ProtocolType.PROTOBUF ['x']).data
              (some Buffer.default)).2)) :=
  ⟨by decide, by decide, by decide, by decide,
    error_frame_on_unhandled sample_provider sample_lib 5
      (LVProtocol.ctor ProtocolType.PROTOBUF ['x']) Buffer.default
      (by decide) (by decide) (by decide)⟩

end net

namespace ProtocolTools

/-! ## The three shapes of a complete message -/

theorem fcm_cases {B : Bytes} {e : Nat} (hB : B.length ≤ max_size)
    (h : find_complete_message B = some (some e)) :
    ∃ len_end L T, HeaderAt B len_end L T ∧
      parse_message_header B = some (some (len_end + 6, L, T)) ∧ e ≤ B.length ∧
      ((0 ≤ L ∧ e = len_end + 6 + L.toNat + 2 ∧ gapAt B (len_end + 6 + L.toNat)) ∨
       (L = -2 ∧ e = len_end + 6) ∨ (L = -6 ∧ e = len_end + 2)) := by
  obtain ⟨ds, L, T, hp, he, hle, hg⟩ := (find_complete_message_some_iff B e).mp h
  obtain ⟨len_end, hds, hH⟩ := (parse_message_header_some_iff B ds L T).mp hp
  subst hds
  obtain ⟨hdsle, hLmin, hLmax⟩ := parse_message_header_ds_le hp
  have hds : len_end + 6 ≤ max_size := le_trans hdsle hB
  refine ⟨len_end, L, T, hH, hp, hle, ?_⟩
  have hglt := gapAt_lt hg
  by_cases h0 : 0 ≤ L
  · obtain ⟨e1, e2⟩ := size_t_add_nonneg hds h0 hLmax
    left
    rw [e1] at hg
    rw [e2] at he
    exact ⟨h0, he, hg⟩
  · have hneg : L < 0 := by omega
    right
    by_cases h2 : 0 ≤ ((len_end + 6 : Nat) : Int) + L
    · obtain ⟨e1, e2⟩ := size_t_add_neg_ge hds hneg hLmin h2
      rw [← he] at e2
      generalize size_t_add (len_end + 6) (size_t_of_int L) = p at e1 hg hglt
      obtain ⟨hfind, _, hmark, hg4⟩ := hH
      obtain ⟨_, hg0, hmin⟩ := (find_gap_some_iff B 0 len_end).mp hfind
      have hp_ge : len_end ≤ p := by
        by_contra hlt
        exact hmin p (Nat.zero_le _) (by omega) hg
      obtain ⟨a, b, hm, ha, hb⟩ := marker_getElem T
      rw [hm, take2_drop_eq_iff] at hmark
      unfold gapAt at hg hg0 hg4
      have hcases : p = len_end ∨ p = len_end + 1 ∨ p = len_end + 2 ∨ p = len_end + 3 ∨
          p = len_end + 4 ∨ p = len_end + 5 := by
        push_cast at e1 h2
        omega
      rcases hcases with hc | hc | hc | hc | hc | hc
      · right
        subst hc
        push_cast at e1 e2
        constructor <;> omega
      · exfalso
        have := hg.1
        rw [hc, hg0.2] at this
        exact absurd this (by decide)
      · exfalso
        have := hg.1
        rw [hc, hmark.1] at this
        exact ha (Option.some.inj this)
      · exfalso
        have := hg.1
        rw [hc] at this
        have h3 := hmark.2
        rw [show len_end + 2 + 1 = len_end + 3 from rfl, this] at h3
        exact hb (Option.some.inj h3).symm
      · left
        subst hc
        push_cast at e1 e2
        constructor <;> omega
      · exfalso
        have := hg.1
        rw [hc] at this
        have h5 := hg4.2
        rw [show len_end + 4 + 1 = len_end + 5 from rfl, this] at h5
        exact absurd h5 (by decide)
    · exfalso
      have e1 := size_t_add_neg_lt hds hneg hLmin (by omega)
      generalize size_t_add (len_end + 6) (size_t_of_int L) = p at e1 hglt
      unfold INT_MIN at hLmin
      unfold max_size at hB
      omega

theorem from_string_take {B : Bytes} {e len_end : Nat} {L : Int} {T : ProtocolType}
    (m : LVProtocol) (hg : m.gap = gap) (hB : B.length ≤ max_size)
    (h : find_complete_message B = some (some e))
    (hp : parse_message_header B = some (some (len_end + 6, L, T))) :
    (len_end + 6 ≤ e → m.from_string (B.take e) =
      some (true, { type := T, length := L,
                    data := ((B.take e).drop (len_end + 6)).take (size_t_of_int L),
                    gap := gap })) ∧
    (e < len_end + 6 → ∃ m1, m.from_string (B.take e) = some (false, m1)) := by
  obtain ⟨ds, L1, T1, hp1, he, hle, hgap⟩ := (find_complete_message_some_iff B e).mp h
  rw [hp] at hp1
  simp only [Option.some.injEq, Prod.mk.injEq] at hp1
  obtain ⟨rfl, rfl, rfl⟩ := hp1
  have hlen : (B.take e).length = e := by
    rw [List.length_take]
    exact Nat.min_eq_left hle
  have hglt := gapAt_lt hgap
  have hmax : max_size < 18446744073709551616 := by decide
  have he2 : e = size_t_add (len_end + 6) (size_t_of_int L) + 2 := by
    rw [he]
    generalize size_t_add (len_end + 6) (size_t_of_int L) = p at hglt
    unfold size_t_add SIZE_MOD
    apply Nat.mod_eq_of_lt
    unfold max_size at hB
    omega
  constructor
  · intro hde
    have hp2 : parse_message_header (B.take e) = some (some (len_end + 6, L, T)) :=
      parse_message_header_restrict ( List.take_prefix e B) hp (by omega)
    rw [from_string_eval m hg hp2, hlen, ← he]
    rw [if_neg (by omega), if_neg (by omega),
      if_pos (gapAt_restrict ( List.take_prefix e B) hgap (by omega))]
  · intro hde
    have hp2 : parse_message_header (B.take e) = some none :=
      parse_message_header_short ( List.take_prefix e B) hp (by omega)
    exact from_string_of_header_fail m hg hp2

theorem get_next_message_of_fcm {B : Bytes} {e : Nat} (m : LVProtocol)
    (h : find_complete_message B = some (some e)) :
    BufferHandler.get_next_message { buffer_ := B } m =
      match m.from_string (B.take e) with
      | none => none
      | some (false, m1) => some (false, { buffer_ := B }, m1)
      | some (true, m1) => some (true, { buffer_ := B.drop e }, m1) := by
  unfold BufferHandler.get_next_message
  simp only [h]
  unfold substr erase
  simp only [gt_iff_lt, Nat.not_lt_zero, if_false, List.drop_zero, List.take_zero,
    List.nil_append, Nat.zero_add, not_lt_zero']

theorem stoi_marker (T : ProtocolType) : stoi (marker T) = none := by
  cases T <;> decide

theorem fcm_after_skip {B : Bytes} {len_end : Nat} {L : Int} {T : ProtocolType}
    (hH : HeaderAt B len_end L T) :
    find_complete_message (B.drop (len_end + 2)) = some none := by
  apply find_complete_message_of_header_fail
  obtain ⟨hfind, _, hmark, hg4⟩ := hH
  have hmark0 := hmark
  obtain ⟨a, b, hm, ha, hb⟩ := marker_getElem T
  rw [hm, take2_drop_eq_iff] at hmark
  have hf : find (B.drop (len_end + 2)) gap 0 = some 2 := by
    rw [find_gap_some_iff]
    refine ⟨Nat.zero_le _, (gapAt_drop B (len_end + 2) 2).mpr hg4, ?_⟩
    intro j _ hj hgj
    rw [gapAt_drop] at hgj
    have h1 := hgj.1
    rcases (show j = 0 ∨ j = 1 by omega) with rfl | rfl
    · rw [Nat.add_zero, hmark.1] at h1
      exact ha (Option.some.inj h1)
    · rw [hmark.2] at h1
      exact hb (Option.some.inj h1)
  unfold parse_message_header
  simp only [hf]
  unfold substr
  simp only [gt_iff_lt, Nat.not_lt_zero, if_false, List.drop_zero, Nat.sub_zero, not_lt_zero',
    hmark0, stoi_marker]

/-- One round on a buffer that begins with a complete message, as the two loops see
it: the length of the message is between `2` and the size of the buffer; either
`from_string` reads the message into the same frame for every out-parameter of the
default gap, or it returns `false` for every one, and then what follows the message
does not begin with a complete message. -/
theorem fcm_round {B : Bytes} {e : Nat} (hB : B.length ≤ max_size)
    (h : find_complete_message B = some (some e)) :
    2 ≤ e ∧ e ≤ B.length ∧
    ((∃ f, f.gap = gap ∧ ∀ m : LVProtocol, m.gap = gap →
        m.from_string (B.take e) = some (true, f)) ∨
     ((∀ m : LVProtocol, m.gap = gap → ∃ m1, m.from_string (B.take e) = some (false, m1)) ∧
        find_complete_message (B.drop e) = some none)) := by
  obtain ⟨len_end, L, T, hH, hp, hle, hc⟩ := fcm_cases hB h
  have h2 : 2 ≤ e := by
    rcases hc with ⟨_, he, _⟩ | ⟨_, he⟩ | ⟨_, he⟩ <;> omega
  refine ⟨h2, hle, ?_⟩
  by_cases hde : len_end + 6 ≤ e
  · left
    exact ⟨_, rfl, fun m hg => (from_string_take m hg hB h hp).1 hde⟩
  · right
    refine ⟨fun m hg => (from_string_take m hg hB h hp).2 (by omega), ?_⟩
    have he : e = len_end + 2 := by
      rcases hc with ⟨_, he, _⟩ | ⟨_, he⟩ | ⟨_, he⟩ <;> omega
    rw [he]
    exact fcm_after_skip hH

/-! ## The bulk decoder and the drain loop -/

theorem unpackLoop_of_drainLoop (D : Bytes) (hD : D.length ≤ max_size) :
    ∀ (fuel2 fuel1 pos : Nat) (m : LVProtocol) (acc fs : List LVProtocol) (h : BufferHandler),
      m.gap = gap → pos ≤ D.length → D.length - pos < fuel1 →
      drainLoop fuel2 { buffer_ := D.drop pos } m acc = Outcome.done (fs, h) →
      unpackLoop fuel1 D pos acc = Outcome.done fs := by
  intro fuel2
  induction fuel2 with
  | zero =>
    intro fuel1 pos m acc fs h _ _ _ hd
    unfold drainLoop at hd
    cases hd
  | succ fuel2 ih =>
    intro fuel1 pos m acc fs h hg hpos hfuel hd
    obtain ⟨f1, rfl⟩ : ∃ f1, fuel1 = f1 + 1 := ⟨fuel1 - 1, by omega⟩
    unfold drainLoop at hd
    unfold unpackLoop
    by_cases hlt : pos < D.length
    · rw [if_pos hlt]
      unfold substr_to_end
      rw [if_neg (by omega)]
      simp only
      have hXlen : (D.drop pos).length ≤ max_size := by
        rw [List.length_drop]
        omega
      cases hf : find_complete_message (D.drop pos) with
      | none =>
        exfalso
        unfold BufferHandler.get_next_message at hd
        simp only [hf] at hd
        cases hd
      | some r =>
        cases r with
        | none =>
          simp only
          have hs : Stuck (D.drop pos) := hf
          rw [get_next_message_stuck hs m] at hd
          simp only [Outcome.done.injEq, Prod.mk.injEq] at hd
          rw [hd.1]
        | some e =>
          simp only
          obtain ⟨h2, hle, hc⟩ := fcm_round hXlen hf
          rw [List.length_drop] at hle
          unfold substr
          rw [if_neg (by omega)]
          simp only
          rw [get_next_message_of_fcm m hf] at hd
          rcases hc with ⟨f, hfg, hall⟩ | ⟨hall, hskip⟩
          · rw [hall m hg] at hd
            rw [hall LVProtocol.default rfl]
            simp only at hd ⊢
            rw [List.drop_drop] at hd
            exact ih f1 (pos + e) f _ fs h hfg (by omega) (by omega) hd
          · obtain ⟨m1, hm1⟩ := hall m hg
            obtain ⟨m2, hm2⟩ := hall LVProtocol.default rfl
            rw [hm1] at hd
            rw [hm2]
            simp only [Outcome.done.injEq, Prod.mk.injEq] at hd ⊢
            rw [← hd.1]
            obtain ⟨f0, rfl⟩ : ∃ f0, f1 = f0 + 1 := ⟨f1 - 1, by omega⟩
            unfold unpackLoop
            by_cases hlt2 : pos + e < D.length
            · rw [if_pos hlt2]
              unfold substr_to_end
              rw [if_neg (by omega)]
              simp only
              rw [List.drop_drop] at hskip
              rw [hskip]
            · rw [if_neg hlt2]
    · rw [if_neg hlt]
      have hp : pos = D.length := by omega
      have hnil : D.drop pos = [] := by
        rw [hp]
        exact List.drop_length D
      rw [hnil, get_next_message_stuck stuck_nil m] at hd
      simp only [Outcome.done.injEq, Prod.mk.injEq] at hd
      rw [hd.1]

/-- Whenever the drain loop on the bytes `D` returns, `unpack` on `D` returns too, with
the same frames; the flag of `unpack` tells whether there is one. -/
theorem unpack_of_drain (D : Bytes) (messages fs : List LVProtocol) (h : BufferHandler)
    (hD : D.length ≤ max_size)
    (hd : drain (BufferHandler.new.append D) = Outcome.done (fs, h)) :
    unpack D messages = Outcome.done (!fs.isEmpty, fs) := by
  unfold drain BufferHandler.new BufferHandler.append at hd
  simp only [List.nil_append] at hd
  have hd2 : drainLoop (D.length + 1) { buffer_ := D.drop 0 } LVProtocol.default []
      = Outcome.done (fs, h) := by
    rw [List.drop_zero]
    exact hd
  have := unpackLoop_of_drainLoop D hD (D.length + 1) (D.length + 1) 0 LVProtocol.default
    [] fs h rfl (Nat.zero_le _) (by omega) hd2
  unfold unpack
  rw [this]

/-- C28. Bulk and incremental decoding agree: for every byte string `D` (not longer than
a string can be) on which neither `unpack(D, messages)` nor the drain loop on a fresh
`BufferHandler` holding `D` raises, the two lists of frames are equal: the same frames
in the same order, with the same type, length, data and gap. -/
theorem unpack_agrees_with_drain (D : Bytes) (messages ms fs : List LVProtocol) (b : Bool)
    (h : BufferHandler) (hD : D.length ≤ max_size)
    (hu : unpack D messages = Outcome.done (b, ms))
    (hd : drain (BufferHandler.new.append D) = Outcome.done (fs, h)) :
    ms = fs := by
  rw [unpack_of_drain D messages fs h hD hd] at hu
  simp only [Outcome.done.injEq, Prod.mk.injEq] at hu
  exact hu.2.symm

theorem unpack_agrees_with_drain_witness :
    (['1', '\r', '\n', 'J', 'S', '\r', '\n', 'x', '\r', '\n',
      '-', '6', '\r', '\n', 'P', 'B', '\r', '\n'] : Bytes).length ≤ max_size ∧
    unpack ['1', '\r', '\n', 'J', 'S', '\r', '\n', 'x', '\r', '\n',
      '-', '6', '\r', '\n', 'P', 'B', '\r', '\n'] []
      = Outcome.done (true, [LVProtocol.ctor ProtocolType.JSON ['x']]) ∧
    drain (BufferHandler.new.append ['1', '\r', '\n', 'J', 'S', '\r', '\n', 'x', '\r', '\n',
      '-', '6', '\r', '\n', 'P', 'B', '\r', '\n'])
      = Outcome.done ([{ type := ProtocolType.JSON, length := 1, data := ['x'], gap := gap }],
          { buffer_ := ['-', '6', '\r', '\n', 'P', 'B', '\r', '\n'] }) ∧
    [LVProtocol.ctor ProtocolType.JSON ['x']]
      = [{ type := ProtocolType.JSON, length := 1, data := ['x'], gap := gap }] :=
  ⟨by decide, by decide, by decide,
    unpack_agrees_with_drain
      ['1', '\r', '\n', 'J', 'S', '\r', '\n', 'x', '\r', '\n',
        '-', '6', '\r', '\n', 'P', 'B', '\r', '\n'] []
      [LVProtocol.ctor ProtocolType.JSON ['x']]
      [{ type := ProtocolType.JSON, length := 1, data := ['x'], gap := gap }] true
      { buffer_ := ['-', '6', '\r', '\n', 'P', 'B', '\r', '\n'] }
      (by decide) (by decide) (by decide)⟩

/-! ## Bytes behind a complete message -/

theorem find_complete_message_append {B : Bytes} {e : Nat} (S : Bytes)
    (h : find_complete_message B = some (some e)) :
    find_complete_message (B ++ S) = some (some e) := by
  obtain ⟨ds, L, T, hp, he, hle, hg⟩ := (find_complete_message_some_iff B e).mp h
  refine (find_complete_message_some_iff _ e).mpr
    ⟨ds, L, T, parse_message_header_mono ( List.prefix_append B S) hp, he, ?_,
      gapAt_extend ( List.prefix_append B S) hg⟩
  rw [List.length_append]
  omega

/-- C29. Later bytes never change an already-extractable frame: when `get_next_message`
returns `true` with the frame `f` and leaves the handler `h1`, then after `append(S)`,
for every byte string `S`, the same call returns `true` with the same frame `f` and
leaves the bytes of `h1` followed by `S`. -/
theorem get_next_message_append (h h1 : BufferHandler) (message f : LVProtocol) (S : Bytes)
    (hr : h.get_next_message message = some (true, h1, f)) :
    (h.append S).get_next_message message = some (true, h1.append S, f) := by
  obtain ⟨B⟩ := h
  obtain ⟨e, hf, hfs, hh⟩ := (get_next_message_true_iff B message h1 f).mp hr
  have hle : e ≤ B.length := by
    obtain ⟨_, _, _, _, _, hle, _⟩ := (find_complete_message_some_iff B e).mp hf
    exact hle
  unfold BufferHandler.append
  simp only
  rw [get_next_message_true_iff]
  refine ⟨e, find_complete_message_append S hf, ?_, ?_⟩
  · rw [List.take_append_of_le_length hle]
    exact hfs
  · rw [hh, List.drop_append_of_le_length hle]

theorem get_next_message_append_witness :
    BufferHandler.get_next_message { buffer_ := ['1', '\r', '\n', 'J', 'S', '\r', '\n', 'x', '\r', '\n', '7'] }
        LVProtocol.default
      = some (true, { buffer_ := ['7'] }, LVProtocol.ctor ProtocolType.JSON ['x']) ∧
    (BufferHandler.append { buffer_ := ['1', '\r', '\n', 'J', 'S', '\r', '\n', 'x', '\r', '\n', '7'] }
        ['\r', '\n']).get_next_message LVProtocol.default
      = some (true, BufferHandler.append { buffer_ := ['7'] } ['\r', '\n'],
          LVProtocol.ctor ProtocolType.JSON ['x']) :=
  ⟨by decide,
    get_next_message_append
      { buffer_ := ['1', '\r', '\n', 'J', 'S', '\r', '\n', 'x', '\r', '\n', '7'] }
      { buffer_ := ['7'] } LVProtocol.default (LVProtocol.ctor ProtocolType.JSON ['x'])
      ['\r', '\n'] (by decide)⟩

/-! ## The bytes consumed by an extraction -/

theorem drop_split (X : Bytes) (a k : Nat) : X.drop a = (X.drop a).take k ++ X.drop (a + k) := by
  rw [← List.drop_drop, List.take_append_drop]

theorem header_layout {B : Bytes} {len_end : Nat} {L : Int} {T : ProtocolType}
    (hH : HeaderAt B len_end L T) :
    B = B.take len_end ++ gap ++ marker T ++ gap ++ B.drop (len_end + 6) := by
  obtain ⟨_, _, hgap0⟩ := headerAt_bounds hH
  obtain ⟨_, _, hmark, hg4⟩ := hH
  rw [gapAt_iff_take] at hgap0 hg4
  have e0 : B = B.take len_end ++ B.drop len_end := (List.take_append_drop _ _).symm
  have e1 := drop_split B len_end 2
  have e2 := drop_split B (len_end + 2) 2
  have e3 := drop_split B (len_end + 4) 2
  rw [hgap0] at e1
  rw [hmark] at e2
  rw [hg4] at e3
  have e4 : B.drop len_end = gap ++ marker T ++ gap ++ B.drop (len_end + 6) := by
    rw [e1, e2, e3]
    simp only [List.append_assoc]
  conv_lhs => rw [e0, e4]
  simp only [List.append_assoc]

theorem length_field_no_gap {B : Bytes} {len_end : Nat} (h : find B gap 0 = some len_end) :
    find (B.take len_end) gap 0 = none :=
  find_gap_none_of_short ( List.take_prefix len_end B) h (by
    rw [List.length_take]
    omega)

/-- C30 fails on the code: the length text `" +03x"` (a blank, a sign, a leading zero and
a character behind the digits) is read as `3`; the frame extracted is the one that
`LVProtocol(JSON, "abc")` builds, and the thirteen bytes consumed are not its
`to_string()`. -/
theorem canonical_encoding_counterexample :
    BufferHandler.get_next_message
        { buffer_ := [' ', '+', '0', '3', 'x', '\r', '\n', 'J', 'S', '\r', '\n',
            'a', 'b', 'c', '\r', '\n'] } LVProtocol.default
      = some (true, { buffer_ := [] }, LVProtocol.ctor ProtocolType.JSON ['a', 'b', 'c']) ∧
    ([' ', '+', '0', '3', 'x', '\r', '\n', 'J', 'S', '\r', '\n', 'a', 'b', 'c', '\r', '\n'] : Bytes)
      ≠ (LVProtocol.ctor ProtocolType.JSON ['a', 'b', 'c']).to_string := by
  decide

/-- The bytes consumed by an extraction, for every frame that the code returns: there is
a length text `d` without a gap that `std::stoi` reads as `f.length`, and either
`f.length = |f.data|` and `B` is `d`, the gap, the marker of `f.type`, the gap, `f.data`
and the gap, followed by the bytes of `h1`, or the frame is the one of the missing
guard `length >= 0`, with `f.length = -2` and no data, and `B` is `d`, the gap, the
marker and the gap, followed by the bytes of `h1`. -/
theorem get_next_message_layout (B : Bytes) (message f : LVProtocol) (h1 : BufferHandler)
    (hg : message.gap = gap) (hB : B.length ≤ max_size)
    (h : BufferHandler.get_next_message { buffer_ := B } message = some (true, h1, f)) :
    ∃ d, find d gap 0 = none ∧ stoi d = some f.length ∧
      ((0 ≤ f.length ∧ (f.data.length : Int) = f.length ∧
          B = frameBytes d f.type f.data ++ h1.buffer_ ∧
          (d = dec f.data.length →
            B = (LVProtocol.ctor f.type f.data).to_string ++ h1.buffer_)) ∨
       (f.length = -2 ∧ f.data = [] ∧
          B = d ++ gap ++ marker f.type ++ gap ++ h1.buffer_)) := by
  obtain ⟨e, hf, hfs, hh⟩ := (get_next_message_true_iff B message h1 f).mp h
  obtain ⟨len_end, L, T, hH, hp, hle, hc⟩ := fcm_cases hB hf
  obtain ⟨htrue, hfalse⟩ := from_string_take message hg hB hf hp
  have hlay := header_layout hH
  have hstoi := hH.2.1
  obtain ⟨_, hLmax⟩ := stoi_range hstoi
  refine ⟨B.take len_end, length_field_no_gap hH.1, ?_⟩
  subst hh
  rcases hc with ⟨h0, he, hgp⟩ | ⟨hL, he⟩ | ⟨hL, he⟩
  · rw [htrue (by omega)] at hfs
    simp only [Option.some.injEq, Prod.mk.injEq, true_and] at hfs
    subst hfs
    simp only
    rw [size_t_of_int_nonneg h0 hLmax]
    have hd : ((B.take e).drop (len_end + 6)).take L.toNat
        = (B.drop (len_end + 6)).take L.toNat := by
      rw [List.drop_take, List.take_take]
      congr 1
      omega
    rw [hd]
    have hlen : ((B.drop (len_end + 6)).take L.toNat).length = L.toNat := by
      rw [List.length_take, List.length_drop]
      omega
    have hframe : B = frameBytes (B.take len_end) T ((B.drop (len_end + 6)).take L.toNat)
        ++ B.drop e := by
      have e5 := drop_split B (len_end + 6) L.toNat
      have e6 := drop_split B (len_end + 6 + L.toNat) 2
      rw [(gapAt_iff_take _ _).mp hgp, ← he] at e6
      unfold frameBytes
      conv_lhs => rw [hlay, e5, e6]
      simp only [List.append_assoc]
    refine ⟨hstoi, Or.inl ⟨h0, ?_, hframe, ?_⟩⟩
    · rw [hlen]
      omega
    · intro hdec
      rw [hlen] at hdec
      have hP : ((((B.drop (len_end + 6)).take L.toNat).length : Nat) : Int) ≤ INT_MAX := by
        rw [hlen]
        omega
      rw [to_string_ctor _ _ hP, hlen, to_string_nat_eq_dec, ← hdec]
      exact hframe
  · rw [htrue (by omega)] at hfs
    simp only [Option.some.injEq, Prod.mk.injEq, true_and] at hfs
    subst hfs
    simp only
    have hd : ((B.take e).drop (len_end + 6)).take (size_t_of_int L) = [] := by
      rw [← he, List.drop_eq_nil_of_le, List.take_nil]
      rw [List.length_take]
      omega
    rw [hd]
    refine ⟨hstoi, Or.inr ⟨hL, rfl, ?_⟩⟩
    rw [he]
    exact hlay
  · exfalso
    obtain ⟨m1, hm1⟩ := hfalse (by omega)
    rw [hm1] at hfs
    simp at hfs

/-- C30, amended. The bytes consumed by an extraction of a frame with a length that is
not negative: when `get_next_message`, called with an out-parameter of the default gap
on the content `B`, returns `true` with the frame `f`, `0 <= f.length`, and leaves the
handler `h1`, then there is a length text `d` without a gap that `std::stoi` reads as
`f.length`, `f.length` is `|f.data|`, and `B` is `d`, the gap, the marker of `f.type`,
the gap, `f.data` and the gap, followed by the bytes of `h1`. The bytes consumed are
`LVProtocol(f.type, f.data).to_string()` exactly when `d` is the decimal text of
`|f.data|`; `std::stoi` reads other texts as the same number. -/
theorem get_next_message_consumed (B : Bytes) (message f : LVProtocol) (h1 : BufferHandler)
    (hg : message.gap = gap) (hB : B.length ≤ max_size)
    (h : BufferHandler.get_next_message { buffer_ := B } message = some (true, h1, f))
    (h0 : 0 ≤ f.length) :
    ∃ d, find d gap 0 = none ∧ stoi d = some f.length ∧ (f.data.length : Int) = f.length ∧
      B = frameBytes d f.type f.data ++ h1.buffer_ ∧
      (B = (LVProtocol.ctor f.type f.data).to_string ++ h1.buffer_ ↔ d = dec f.data.length) := by
  obtain ⟨d, hd, hs, hc⟩ := get_next_message_layout B message f h1 hg hB h
  rcases hc with ⟨_, hlen, hB1, hcan⟩ | ⟨hneg, _, _⟩
  · refine ⟨d, hd, hs, hlen, hB1, ?_, hcan⟩
    intro hts
    obtain ⟨_, hmax⟩ := stoi_range hs
    have hP : ((f.data.length : Nat) : Int) ≤ INT_MAX := by
      rw [hlen]
      exact hmax
    rw [to_string_ctor _ _ hP, to_string_nat_eq_dec] at hts
    have e1 : frameBytes d f.type f.data ++ h1.buffer_
        = d ++ (gap ++ marker f.type ++ gap ++ f.data ++ gap ++ h1.buffer_) := by
      unfold frameBytes
      simp only [List.append_assoc]
    have e2 : dec f.data.length ++ gap ++ marker f.type ++ gap ++ f.data ++ gap ++ h1.buffer_
        = dec f.data.length ++ (gap ++ marker f.type ++ gap ++ f.data ++ gap ++ h1.buffer_) := by
      simp only [List.append_assoc]
    rw [hB1, e1, e2] at hts
    exact List.append_cancel_right hts
  · rw [hneg] at h0
    exact absurd h0 (by decide)

theorem get_next_message_consumed_witness :
    LVProtocol.default.gap = gap ∧
    ([' ', '+', '0', '3', 'x', '\r', '\n', 'J', 'S', '\r', '\n', 'a', 'b', 'c', '\r', '\n', '7']
      : Bytes).length ≤ max_size ∧
    BufferHandler.get_next_message
        { buffer_ := [' ', '+', '0', '3', 'x', '\r', '\n', 'J', 'S', '\r', '\n',
            'a', 'b', 'c', '\r', '\n', '7'] } LVProtocol.default
      = some (true, { buffer_ := ['7'] }, LVProtocol.ctor ProtocolType.JSON ['a', 'b', 'c']) ∧
    0 ≤ (LVProtocol.ctor ProtocolType.JSON ['a', 'b', 'c']).length ∧
    ∃ d, find d gap 0 = none ∧
      stoi d = some (LVProtocol.ctor ProtocolType.JSON ['a', 'b', 'c']).length ∧
      (((LVProtocol.ctor ProtocolType.JSON ['a', 'b', 'c']).data.length : Nat) : Int)
        = (LVProtocol.ctor ProtocolType.JSON ['a', 'b', 'c']).length ∧
      ([' ', '+', '0', '3', 'x', '\r', '\n', 'J', 'S', '\r', '\n', 'a', 'b', 'c', '\r', '\n',
          '7'] : Bytes)
        = frameBytes d (LVProtocol.ctor ProtocolType.JSON ['a', 'b', 'c']).type
            (LVProtocol.ctor ProtocolType.JSON ['a', 'b', 'c']).data
          ++ ({ buffer_ := ['7'] } : BufferHandler).buffer_ ∧
      (([' ', '+', '0', '3', 'x', '\r', '\n', 'J', 'S', '\r', '\n', 'a', 'b', 'c', '\r',
            '\n', '7'] : Bytes)
          = (LVProtocol.ctor (LVProtocol.ctor ProtocolType.JSON ['a', 'b', 'c']).type
              (LVProtocol.ctor ProtocolType.JSON ['a', 'b', 'c']).data).to_string
            ++ ({ buffer_ := ['7'] } : BufferHandler).buffer_
        ↔ d = dec (LVProtocol.ctor ProtocolType.JSON ['a', 'b', 'c']).data.length) :=
  ⟨rfl, by decide, by decide, by decide,
    get_next_message_consumed
      [' ', '+', '0', '3', 'x', '\r', '\n', 'J', 'S', '\r', '\n', 'a', 'b', 'c', '\r', '\n', '7']
      LVProtocol.default (LVProtocol.ctor ProtocolType.JSON ['a', 'b', 'c']) { buffer_ := ['7'] }
      rfl (by decide) (by decide) (by decide)⟩

end ProtocolTools

namespace net

open ProtocolTools (Bytes SIZE_MOD max_size size_t_add ProtocolType LVProtocol JsonValue JsonLib
  BufferHandler Outcome)

/-! ## `Provider::service` -/

/-- C21 fails on the code: `Provider::service` keeps the bytes of every connection in one
static accumulator. Connection A has delivered the incomplete frame `"5\r\nJS\r\nab"`
(first line), or the complete frame `"2\r\nJS\r\n{}\r\n"` (third line); then connection B
delivers the frame `"2\r\nJS\r\n{}\r\n"`. In the first run its bytes are put behind the
bytes of A and nothing is written back to B (second line), in the second run B gets the
response (fourth line). -/
theorem service_shared_accumulator :
    sample_provider.on_message sample_lib 0 BufferHandler.new
        ['5', '\r', '\n', 'J', 'S', '\r', '\n', 'a', 'b']
      = Outcome.done ({ buffer_ := ['5', '\r', '\n', 'J', 'S', '\r', '\n', 'a', 'b'] }, []) ∧
    sample_provider.on_message sample_lib 0
        { buffer_ := ['5', '\r', '\n', 'J', 'S', '\r', '\n', 'a', 'b'] }
        ['2', '\r', '\n', 'J', 'S', '\r', '\n', '{', '}', '\r', '\n']
      = Outcome.done ({ buffer_ := ['5', '\r', '\n', 'J', 'S', '\r', '\n', 'a', 'b',
          '2', '\r', '\n', 'J', 'S', '\r', '\n', '{', '}', '\r', '\n'] }, []) ∧
    sample_provider.on_message sample_lib 0 BufferHandler.new
        ['2', '\r', '\n', 'J', 'S', '\r', '\n', '{', '}', '\r', '\n']
      = Outcome.done ({ buffer_ := [] },
          ['2', '\r', '\n', 'J', 'S', '\r', '\n', '{', '}', '\r', '\n']) ∧
    sample_provider.on_message sample_lib 0 { buffer_ := [] }
        ['2', '\r', '\n', 'J', 'S', '\r', '\n', '{', '}', '\r', '\n']
      = Outcome.done ({ buffer_ := [] },
          ['2', '\r', '\n', 'J', 'S', '\r', '\n', '{', '}', '\r', '\n']) := by
  decide

theorem read_all_as_string_readable (b : Buffer) (h : b.inv) (hc : b.capacity ≤ max_size) :
    b.read_all_as_string.1 = b.readable := by
  unfold Buffer.read_all_as_string
  rw [(read_as_string_spec b b.readable_size h hc).1, readable_size_eq h hc, readable_length h,
    Nat.min_self]
  apply List.take_of_length_le
  rw [readable_length h]

theorem handle_single_message_protobuf (h : ProtobufMessageHandler) (lib : JsonLib) (now : Int)
    (req : h.RequestType) (rsp : h.ResponseType) (enc out : Bytes) (send : Buffer)
    (hparse : h.ParseFromString enc = some req) (hf : h.handler_ req = some rsp)
    (hser : h.SerializeToString rsp = some out) :
    ((Provider.mk []).register_protobuf_handler h).handle_single_message lib now
        (LVProtocol.ctor ProtocolType.PROTOBUF enc) (some send)
      = (some (send.append (LVProtocol.ctor ProtocolType.PROTOBUF out).to_string), [0]) := by
  have hd : (LVProtocol.ctor ProtocolType.PROTOBUF enc).data = enc := rfl
  have ht : (LVProtocol.ctor ProtocolType.PROTOBUF enc).type = ProtocolType.PROTOBUF := rfl
  unfold Provider.handle_single_message Provider.register_protobuf_handler
  simp only [List.nil_append]
  unfold try_handlers
  unfold IMessageHandler.get_type IMessageHandler.handle ProtobufMessageHandler.handle
  simp only [ht, hd, hparse, hf, hser, if_true]

theorem service_of_loop (p : Provider) (lib : JsonLib) (now : Int) (st : BufferHandler)
    (recv : Buffer) (send : Option Buffer) (X : Bytes) (fuel : Nat) (h1 : BufferHandler)
    (send1 : Option Buffer) (hX : st.append recv.read_all_as_string.1 = { buffer_ := X })
    (hfuel : X.length + 1 = fuel)
    (hloop : serviceLoop p lib now fuel { buffer_ := X } LVProtocol.default send
      = Outcome.done (h1, send1)) :
    p.service lib now st recv send = Outcome.done (h1, recv.read_all_as_string.2, send1) := by
  subst hfuel
  unfold Provider.service
  simp only [hX, hloop]

theorem serviceLoop_single (p : Provider) (lib : JsonLib) (now : Int) (fuel : Nat)
    (f : LVProtocol) (hf : f.wellFormed) (send : Option Buffer) :
    serviceLoop p lib now (fuel + 1 + 1) { buffer_ := f.to_string } LVProtocol.default send
      = Outcome.done ({ buffer_ := [] }, (p.handle_single_message lib now f send).1) := by
  have g1 := ProtocolTools.get_next_message_wellFormed LVProtocol.default rfl hf []
  rw [List.append_nil] at g1
  unfold serviceLoop
  rw [g1]
  simp only
  unfold serviceLoop
  rw [ProtocolTools.get_next_message_stuck ProtocolTools.stuck_nil]

/-- C22. End-to-end request and response. The registry holds the one Binary handler `h`,
as in `test/registry.cc`; `enc` is a request that `ParseFromString` reads as `req`, the
registered function answers `req` with `rsp`, and `SerializeToString` writes `rsp` as
`out`. When the receive buffer holds the packed request `LVProtocol(PROTOBUF, enc)` and
the static accumulator is empty, `Provider::service` appends to the output buffer
exactly the packed frame `LVProtocol(PROTOBUF, out)`, and nothing else; and when these
bytes reach the accumulator of the client in two reads `c1`, `c2`, however they are
cut, draining after each read yields exactly that one frame, of the type `PROTOBUF`
and with the payload `out`, and leaves the accumulator empty. (Both payloads have at
most `INT_MAX` bytes; the buffers satisfy the cursor invariant.) -/
theorem end_to_end (h : ProtobufMessageHandler) (lib : JsonLib) (now : Int)
    (req : h.RequestType) (rsp : h.ResponseType) (enc out : Bytes) (recv send : Buffer)
    (hparse : h.ParseFromString enc = some req) (hf : h.handler_ req = some rsp)
    (hser : h.SerializeToString rsp = some out)
    (henc : (enc.length : Int) ≤ ProtocolTools.INT_MAX)
    (hout : (out.length : Int) ≤ ProtocolTools.INT_MAX)
    (hri : recv.inv) (hrc : recv.capacity ≤ max_size)
    (hrecv : recv.readable = (LVProtocol.ctor ProtocolType.PROTOBUF enc).to_string)
    (hsi : send.inv) (hsc : send.capacity ≤ max_size) :
    ((Provider.mk []).register_protobuf_handler h).service lib now BufferHandler.new recv
        (some send)
      = Outcome.done (BufferHandler.new, recv.read_all_as_string.2,
          some (send.append (LVProtocol.ctor ProtocolType.PROTOBUF out).to_string)) ∧
    (send.append (LVProtocol.ctor ProtocolType.PROTOBUF out).to_string).readable
      = send.readable ++ (LVProtocol.ctor ProtocolType.PROTOBUF out).to_string ∧
    (∀ c1 c2 : Bytes, c1 ++ c2 = (LVProtocol.ctor ProtocolType.PROTOBUF out).to_string →
      ProtocolTools.feed BufferHandler.new [c1, c2] []
        = Outcome.done ([LVProtocol.ctor ProtocolType.PROTOBUF out], { buffer_ := [] })) ∧
    (LVProtocol.ctor ProtocolType.PROTOBUF out).type = ProtocolType.PROTOBUF ∧
    (LVProtocol.ctor ProtocolType.PROTOBUF out).data = out := by
  refine ⟨?_, (append_spec send _ hsi hsc (to_string_ctor_length_le _ _ hout)).2, ?_, rfl, rfl⟩
  · have e1 := read_all_as_string_readable recv hri hrc
    have hwf := ProtocolTools.wellFormed_ctor ProtocolType.PROTOBUF enc henc
    have hpos := ProtocolTools.to_string_length_pos hwf
    have hloop := serviceLoop_single ((Provider.mk []).register_protobuf_handler h) lib now
      ((LVProtocol.ctor ProtocolType.PROTOBUF enc).to_string.length - 1)
      (LVProtocol.ctor ProtocolType.PROTOBUF enc) hwf (some send)
    rw [handle_single_message_protobuf h lib now req rsp enc out send hparse hf hser] at hloop
    exact service_of_loop _ lib now BufferHandler.new recv (some send)
      (LVProtocol.ctor ProtocolType.PROTOBUF enc).to_string _ _ _
      (by
        rw [e1, hrecv]
        exact congrArg BufferHandler.mk (List.nil_append _))
      (by omega) hloop
  · intro c1 c2 hc
    have hwf := ProtocolTools.wellFormed_ctor ProtocolType.PROTOBUF out hout
    have hp : ProtocolTools.Pending [] [LVProtocol.ctor ProtocolType.PROTOBUF out] := by
      right
      refine ⟨_, [], rfl, List.nil_prefix, ?_⟩
      intro hnil
      have := ProtocolTools.to_string_length_pos hwf
      rw [← hnil] at this
      simp at this
    have := ProtocolTools.feed_frames [c1, c2] [LVProtocol.ctor ProtocolType.PROTOBUF out] [] []
      (by
        intro f hf
        rw [List.mem_singleton] at hf
        rw [hf]
        exact hwf) hp
      (by
        unfold ProtocolTools.concat ProtocolTools.concat ProtocolTools.concat
          ProtocolTools.packed ProtocolTools.concat ProtocolTools.concat
        simp only [List.map, List.append_nil, List.nil_append]
        exact hc)
    rw [List.nil_append] at this
    exact this

theorem end_to_end_witness :
    sample_add_handler.ParseFromString [Char.ofNat 8, Char.ofNat 1, Char.ofNat 16, Char.ofNat 2]
      = some (1, 2) ∧
    sample_add_handler.handler_ (1, 2) = some 3 ∧
    sample_add_handler.SerializeToString 3 = some [Char.ofNat 8, Char.ofNat 3] ∧
    (([Char.ofNat 8, Char.ofNat 1, Char.ofNat 16, Char.ofNat 2] : Bytes).length : Int)
      ≤ ProtocolTools.INT_MAX ∧
    ((([Char.ofNat 8, Char.ofNat 3] : Bytes).length : Nat) : Int) ≤ ProtocolTools.INT_MAX ∧
    (Buffer.default.append (LVProtocol.ctor ProtocolType.PROTOBUF
      [Char.ofNat 8, Char.ofNat 1, Char.ofNat 16, Char.ofNat 2]).to_string).inv ∧
    (Buffer.default.append (LVProtocol.ctor ProtocolType.PROTOBUF
      [Char.ofNat 8, Char.ofNat 1, Char.ofNat 16, Char.ofNat 2]).to_string).capacity
      ≤ max_size ∧
    (Buffer.default.append (LVProtocol.ctor ProtocolType.PROTOBUF
      [Char.ofNat 8, Char.ofNat 1, Char.ofNat 16, Char.ofNat 2]).to_string).readable
      = (LVProtocol.ctor ProtocolType.PROTOBUF
          [Char.ofNat 8, Char.ofNat 1, Char.ofNat 16, Char.ofNat 2]).to_string ∧
    Buffer.default.inv ∧ Buffer.default.capacity ≤ max_size ∧
    (((Provider.mk []).register_protobuf_handler sample_add_handler).service sample_lib 0
        BufferHandler.new
        (Buffer.default.append (LVProtocol.ctor ProtocolType.PROTOBUF
          [Char.ofNat 8, Char.ofNat 1, Char.ofNat 16, Char.ofNat 2]).to_string)
        (some Buffer.default)
      = Outcome.done (BufferHandler.new,
          (Buffer.default.append (LVProtocol.ctor ProtocolType.PROTOBUF
            [Char.ofNat 8, Char.ofNat 1, Char.ofNat 16, Char.ofNat 2]).to_string
            ).read_all_as_string.2,
          some (Buffer.default.append
            (LVProtocol.ctor ProtocolType.PROTOBUF [Char.ofNat 8, Char.ofNat 3]).to_string)) ∧
    (Buffer.default.append
        (LVProtocol.ctor ProtocolType.PROTOBUF [Char.ofNat 8, Char.ofNat 3]).to_string).readable
      = Buffer.default.readable
        ++ (LVProtocol.ctor ProtocolType.PROTOBUF [Char.ofNat 8, Char.ofNat 3]).to_string ∧
    (∀ c1 c2 : Bytes,
      c1 ++ c2 = (LVProtocol.ctor ProtocolType.PROTOBUF [Char.ofNat 8, Char.ofNat 3]).to_string →
      ProtocolTools.feed BufferHandler.new [c1, c2] []
        = Outcome.done ([LVProtocol.ctor ProtocolType.PROTOBUF [Char.ofNat 8, Char.ofNat 3]],
            { buffer_ := [] })) ∧
    (LVProtocol.ctor ProtocolType.PROTOBUF [Char.ofNat 8, Char.ofNat 3]).type
      = ProtocolType.PROTOBUF ∧
    (LVProtocol.ctor ProtocolType.PROTOBUF [Char.ofNat 8, Char.ofNat 3]).data
      = [Char.ofNat 8, Char.ofNat 3]) :=
  ⟨by decide, by decide, by decide, by decide, by decide, by decide, by decide, by decide,
    by decide, by decide,
    end_to_end sample_add_handler sample_lib 0 (1, 2) 3
      [Char.ofNat 8, Char.ofNat 1, Char.ofNat 16, Char.ofNat 2] [Char.ofNat 8, Char.ofNat 3]
      (Buffer.default.append (LVProtocol.ctor ProtocolType.PROTOBUF
        [Char.ofNat 8, Char.ofNat 1, Char.ofNat 16, Char.ofNat 2]).to_string)
      Buffer.default
      (by decide) (by decide) (by decide) (by decide) (by decide) (by decide) (by decide)
      (by decide) (by decide) (by decide)⟩

/-- The response of the example, as the client callback of `test/discovery.cc` reads it:
the payload `08 03` is read back as the result `3`. -/
theorem end_to_end_result :
    sample_add_handler.SerializeToString 3 = some [Char.ofNat 8, Char.ofNat 3] ∧
    (LVProtocol.ctor ProtocolType.PROTOBUF [Char.ofNat 8, Char.ofNat 3]).to_string
      = ['2', '\r', '\n', 'P', 'B', '\r', '\n', Char.ofNat 8, Char.ofNat 3, '\r', '\n'] := by
  decide

/-! ## `Session` -/

theorem eq_singleton_of_mem {α : Type} {l : List α} {a : α} (h : a ∈ l) (hl : l.length ≤ 1) :
    l = [a] := by
  match l, h, hl with
  | [x], h, _ =>
    rw [List.mem_singleton] at h
    rw [h]
  | _ :: _ :: _, _, hl =>
    simp only [List.length_cons] at hl
    omega

theorem invoke_callback_outstanding (s : Session) (send_buf : Buffer) :
    (s.invoke_callback send_buf).1.outstanding = s.outstanding ∧
    (s.invoke_callback send_buf).1.cb_ = s.cb_ := by
  unfold Session.invoke_callback
  split <;> exact ⟨rfl, rfl⟩

theorem on_read_success (s : Session) (n : Nat) :
    (s.on_read error_code.success n).cb_ = s.cb_ ∧
    (s.on_read error_code.success n).outstanding = s.outstanding ++
      [if (Session.invoke_callback { s with read_ := s.read_.advance_write n }
            Buffer.default).2.readable_size > 0 then
          AsyncOp.async_write (Session.invoke_callback
            { s with read_ := s.read_.advance_write n } Buffer.default).2.read_all_as_string.1
        else AsyncOp.async_read_some] ∧
    (s.on_read error_code.success n).calls
      = (Session.invoke_callback { s with read_ := s.read_.advance_write n }
          Buffer.default).1.calls := by
  unfold Session.on_read
  rw [if_neg (by simp)]
  simp only
  obtain ⟨ho, hc⟩ := invoke_callback_outstanding { s with read_ := s.read_.advance_write n }
    Buffer.default
  split
  · unfold Session.do_write
    simp only [ho, hc, and_self]
  · unfold Session.do_read
    simp only [ho, hc, and_self]

theorem on_read_error (s : Session) (ec : error_code) (n : Nat) (h : ec ≠ error_code.success) :
    (s.on_read ec n).cb_ = s.cb_ ∧ (s.on_read ec n).outstanding = s.outstanding ∧
    (s.on_read ec n).calls = s.calls ∧
    (s.on_read ec n).log = s.log ++
      (if ec = error_code.eof ∨ ec = error_code.operation_aborted then []
       else [ErrLine.read_error ec]) := by
  unfold Session.on_read
  rw [if_pos h]
  by_cases h2 : ec = error_code.eof ∨ ec = error_code.operation_aborted
  · rw [if_neg (by
      intro hc
      rcases h2 with h2 | h2
      · exact hc.1 h2
      · exact hc.2 h2), if_pos h2]
    simp
  · rw [if_pos (by
      constructor
      · intro hc
        exact h2 (Or.inl hc)
      · intro hc
        exact h2 (Or.inr hc)), if_neg h2]
    exact ⟨rfl, rfl, rfl, rfl⟩

theorem on_write_spec (s : Session) (ec : error_code) (n : Nat) :
    (s.on_write ec n).cb_ = s.cb_ ∧ (s.on_write ec n).calls = s.calls ∧
    (s.on_write ec n).outstanding = s.outstanding ++
      (if ec = error_code.success then [AsyncOp.async_read_some] else []) ∧
    (s.on_write ec n).log = s.log ++
      (if ec = error_code.success then [] else [ErrLine.write_error ec]) := by
  unfold Session.on_write
  by_cases h : ec = error_code.success
  · rw [if_neg (by simpa using h), if_pos h, if_pos h]
    unfold Session.do_read
    simp
  · rw [if_pos h, if_neg h, if_neg h]
    simp

/-- What a completion does to the operations outstanding: the operation completed
leaves the list, and its handler starts one operation when the error code is
`success` and none otherwise. The callback of the session stays the same. -/
theorem complete_outstanding {s s1 : Session} {c : Completion} (h : s.complete c = some s1) :
    s1.cb_ = s.cb_ ∧
    ∃ op, op ∈ s.outstanding ∧
      ((c.ec = error_code.success ∧ ∃ op1, s1.outstanding = s.outstanding.erase op ++ [op1]) ∨
       (c.ec ≠ error_code.success ∧ s1.outstanding = s.outstanding.erase op)) := by
  cases c with
  | read ec data =>
    simp only [Session.complete] at h
    split at h
    · rename_i hen
      simp only [Option.some.injEq] at h
      subst h
      by_cases hec : ec = error_code.success
      · subst hec
        obtain ⟨h1, h2, _⟩ := on_read_success
          { s with read_ := s.read_.receive data,
                   outstanding := s.outstanding.erase AsyncOp.async_read_some } data.length
        exact ⟨h1, _, hen.1, Or.inl ⟨rfl, _, h2⟩⟩
      · obtain ⟨h1, h2, _⟩ := on_read_error
          { s with read_ := s.read_.receive data,
                   outstanding := s.outstanding.erase AsyncOp.async_read_some } ec data.length hec
        exact ⟨h1, _, hen.1, Or.inr ⟨hec, h2⟩⟩
    · cases h
  | write data ec n =>
    simp only [Session.complete] at h
    split at h
    · rename_i hen
      simp only [Option.some.injEq] at h
      subst h
      obtain ⟨h1, _, h2, _⟩ := on_write_spec
        { s with outstanding := s.outstanding.erase (AsyncOp.async_write data) } ec n
      refine ⟨h1, _, hen, ?_⟩
      by_cases hec : ec = error_code.success
      · rw [if_pos hec] at h2
        exact Or.inl ⟨hec, _, h2⟩
      · rw [if_neg hec, List.append_nil] at h2
        exact Or.inr ⟨hec, h2⟩
    · cases h

theorem complete_single {s s1 : Session} {c : Completion} (h : s.complete c = some s1)
    (hs : s.outstanding.length ≤ 1) : s1.cb_ = s.cb_ ∧ s1.outstanding.length ≤ 1 := by
  obtain ⟨hcb, op, hmem, hc⟩ := complete_outstanding h
  refine ⟨hcb, ?_⟩
  have he : s.outstanding.erase op = [] := by
    rw [eq_singleton_of_mem hmem hs]
    simp
  rcases hc with ⟨_, op1, h1⟩ | ⟨_, h1⟩
  · rw [h1, he]
    simp
  · rw [h1, he]
    simp

theorem run_single (trace : List Completion) :
    ∀ (s s1 : Session), s.run trace = some s1 → s.outstanding.length ≤ 1 →
      s1.cb_ = s.cb_ ∧ s1.outstanding.length ≤ 1 := by
  induction trace with
  | nil =>
    intro s s1 h hs
    unfold Session.run at h
    simp only [Option.some.injEq] at h
    subst h
    exact ⟨rfl, hs⟩
  | cons c rest ih =>
    intro s s1 h hs
    unfold Session.run at h
    split at h
    · cases h
    · rename_i s2 hc
      obtain ⟨h1, h2⟩ := complete_single hc hs
      obtain ⟨h3, h4⟩ := ih s2 s1 h h2
      exact ⟨h3.trans h1, h4⟩

theorem start_outstanding (cb : OnMsgCallback) :
    (Session.new cb).start.outstanding = [AsyncOp.async_read_some] ∧
    (Session.new cb).start.cb_ = cb := ⟨rfl, rfl⟩

theorem invoke_callback_some (s : Session) (send_buf : Buffer)
    (f : Buffer → Buffer → CallbackResult) (h : s.cb_ = some f) :
    (s.invoke_callback send_buf).1.calls = s.calls ++ [(s.read_, send_buf)] ∧
    (s.invoke_callback send_buf).2 = (f s.read_ send_buf).send := by
  unfold Session.invoke_callback
  rw [h]
  exact ⟨rfl, rfl⟩

theorem invoke_callback_none (s : Session) (send_buf : Buffer) (h : s.cb_ = none) :
    (s.invoke_callback send_buf).1.calls = s.calls ∧
    (s.invoke_callback send_buf).2 = send_buf := by
  unfold Session.invoke_callback
  rw [h]
  exact ⟨rfl, rfl⟩

theorem default_readable_size : Buffer.default.readable_size = 0 := by decide

/-- C23. Session is single-flight. In every state `s` that the session reaches from
`start()` by completions of its outstanding operations, at most one operation is
outstanding (so a read and a write are never outstanding together). An error-free
read completion in `s`, when a callback `f` is set, calls it exactly once, with the
receive buffer (after `advance_write(n)`) and a fresh empty `Buffer`, and leaves exactly
one operation outstanding: the write of `read_all_as_string()` of the output buffer,
which is its whole readable region, when `readable_size() > 0`, and a read otherwise;
with the empty callback it leaves a read. An error-free write completion leaves
exactly one read outstanding and calls no callback. -/
theorem session_single_flight (cb : OnMsgCallback) (trace : List Completion) (s : Session)
    (h : (Session.new cb).start.run trace = some s) :
    s.outstanding.length ≤ 1 ∧
    (∀ (data : Bytes) (s1 : Session),
      s.complete (Completion.read error_code.success data) = some s1 →
        (∀ f, cb = some f →
          s1.calls = s.calls
            ++ [((s.read_.receive data).advance_write data.length, Buffer.default)] ∧
          s1.outstanding =
            [if (f ((s.read_.receive data).advance_write data.length)
                  Buffer.default).send.readable_size > 0 then
                AsyncOp.async_write (f ((s.read_.receive data).advance_write data.length)
                  Buffer.default).send.read_all_as_string.1
              else AsyncOp.async_read_some] ∧
          ((f ((s.read_.receive data).advance_write data.length) Buffer.default).send.inv →
            (f ((s.read_.receive data).advance_write data.length)
              Buffer.default).send.capacity ≤ max_size →
            (f ((s.read_.receive data).advance_write data.length)
              Buffer.default).send.read_all_as_string.1
              = (f ((s.read_.receive data).advance_write data.length)
                  Buffer.default).send.readable)) ∧
        (cb = none → s1.calls = s.calls ∧ s1.outstanding = [AsyncOp.async_read_some])) ∧
    (∀ (data : Bytes) (n : Nat) (s1 : Session),
      s.complete (Completion.write data error_code.success n) = some s1 →
        s1.calls = s.calls ∧ s1.outstanding = [AsyncOp.async_read_some]) := by
  obtain ⟨hcb, hlen⟩ := run_single trace _ s h (by
    rw [(start_outstanding cb).1]
    simp)
  rw [(start_outstanding cb).2] at hcb
  refine ⟨hlen, ?_, ?_⟩
  · intro data s1 h1
    simp only [Session.complete] at h1
    split at h1
    · rename_i hen
      simp only [Option.some.injEq] at h1
      subst h1
      have he : s.outstanding.erase AsyncOp.async_read_some = [] := by
        rw [eq_singleton_of_mem hen.1 hlen]
        simp
      obtain ⟨_, h2, h3⟩ := on_read_success
        { s with read_ := s.read_.receive data,
                 outstanding := s.outstanding.erase AsyncOp.async_read_some } data.length
      rw [h2, h3]
      simp only [he, List.nil_append]
      constructor
      · intro f hf
        obtain ⟨c1, c2⟩ := invoke_callback_some
          { read_ := (s.read_.receive data).advance_write data.length, cb_ := s.cb_,
            outstanding := [], log := s.log, calls := s.calls } Buffer.default f
          (hcb.trans hf)
        rw [c1, c2]
        exact ⟨rfl, rfl, fun hi hc => read_all_as_string_readable _ hi hc⟩
      · intro hn
        obtain ⟨c1, c2⟩ := invoke_callback_none
          { read_ := (s.read_.receive data).advance_write data.length, cb_ := s.cb_,
            outstanding := [], log := s.log, calls := s.calls } Buffer.default
          (hcb.trans hn)
        rw [c1, c2, default_readable_size]
        exact ⟨rfl, rfl⟩
    · cases h1
  · intro data n s1 h1
    simp only [Session.complete] at h1
    split at h1
    · rename_i hen
      simp only [Option.some.injEq] at h1
      subst h1
      have he : s.outstanding.erase (AsyncOp.async_write data) = [] := by
        rw [eq_singleton_of_mem hen hlen]
        simp
      obtain ⟨_, h2, h3, _⟩ := on_write_spec
        { s with outstanding := s.outstanding.erase (AsyncOp.async_write data) }
        error_code.success n
      rw [h2, h3]
      rw [he, if_pos rfl]
      exact ⟨rfl, rfl⟩
    · cases h1

theorem new_read_ (cb : OnMsgCallback) :
    (Session.new cb).read_
      = { buffer_ := vector_resize [] 8192, read_pos_ := 0, write_pos_ := 0 } := by
  unfold Session.new Buffer.resize
  simp only
  rw [if_pos (by decide)]
  rfl

theorem start_eq (cb : OnMsgCallback) :
    (Session.new cb).start
      = { read_ := { buffer_ := vector_resize [] 8192, read_pos_ := 0, write_pos_ := 0 },
          cb_ := cb, outstanding := [AsyncOp.async_read_some], log := [], calls := [] } := by
  have hw : ({ buffer_ := vector_resize [] 8192, read_pos_ := 0, write_pos_ := 0 }
      : Buffer).writable_size = 8192 := by
    unfold Buffer.writable_size
    simp only
    rw [vector_resize_length]
    decide
  have he : ({ buffer_ := vector_resize [] 8192, read_pos_ := 0, write_pos_ := 0 }
      : Buffer).ensure_capacity 1024
      = { buffer_ := vector_resize [] 8192, read_pos_ := 0, write_pos_ := 0 } := by
    unfold Buffer.ensure_capacity
    rw [hw, if_neg (by decide)]
  unfold Session.start Session.do_read
  rw [new_read_, he]
  rfl

/-- The first read of a session: a completion of at most 8192 bytes is a step of the
session just started, and runs the read handler on the buffer that holds the bytes. -/
theorem start_run_read (cb : OnMsgCallback) (ec : error_code) (data : Bytes)
    (h : data.length ≤ 8192) :
    (Session.new cb).start.run [Completion.read ec data]
      = some (Session.on_read
          { read_ := Buffer.receive
              { buffer_ := vector_resize [] 8192, read_pos_ := 0, write_pos_ := 0 } data,
            cb_ := cb, outstanding := [], log := [], calls := [] } ec data.length) := by
  have hw : ({ buffer_ := vector_resize [] 8192, read_pos_ := 0, write_pos_ := 0 }
      : Buffer).writable_size = 8192 := by
    unfold Buffer.writable_size
    simp only
    rw [vector_resize_length]
    decide
  rw [start_eq]
  unfold Session.run Session.run
  simp only [Session.complete]
  rw [if_pos ⟨List.mem_singleton.mpr rfl, by rw [hw]; exact h⟩]
  simp

theorem session_single_flight_witness :
    (Session.new (some echo_callback)).start.run
        [Completion.read error_code.success ['h', 'i']]
      = some (Session.on_read
          { read_ := Buffer.receive
              { buffer_ := vector_resize [] 8192, read_pos_ := 0, write_pos_ := 0 } ['h', 'i'],
            cb_ := some echo_callback, outstanding := [], log := [], calls := [] }
          error_code.success 2) ∧
    (Session.on_read
        { read_ := Buffer.receive
            { buffer_ := vector_resize [] 8192, read_pos_ := 0, write_pos_ := 0 } ['h', 'i'],
          cb_ := some echo_callback, outstanding := [], log := [], calls := [] }
        error_code.success 2).outstanding.length ≤ 1 :=
  ⟨start_run_read (some echo_callback) error_code.success ['h', 'i'] (by decide),
    (session_single_flight (some echo_callback) [Completion.read error_code.success ['h', 'i']]
      (Session.on_read
        { read_ := Buffer.receive
            { buffer_ := vector_resize [] 8192, read_pos_ := 0, write_pos_ := 0 } ['h', 'i'],
          cb_ := some echo_callback, outstanding := [], log := [], calls := [] }
        error_code.success 2)
      (start_run_read (some echo_callback) error_code.success ['h', 'i'] (by decide))).1⟩

/-! ## The error policy of `Session` -/

/-- What the handlers do on an error: no operation is started, the callback is not
called; the read handler writes one line unless the code is `eof` or
`operation_aborted`, the write handler writes one line whatever the code is. -/
theorem session_error_policy (s s1 : Session) (c : Completion)
    (hec : c.ec ≠ error_code.success) (h : s.complete c = some s1) :
    s1.outstanding.length + 1 = s.outstanding.length ∧ s1.calls = s.calls ∧
    s1.log = s.log ++
      (match c with
       | Completion.read ec _ =>
         if ec = error_code.eof ∨ ec = error_code.operation_aborted then []
         else [ErrLine.read_error ec]
       | Completion.write _ ec _ => [ErrLine.write_error ec]) := by
  cases c with
  | read ec data =>
    simp only [Session.complete] at h
    split at h
    · rename_i hen
      simp only [Option.some.injEq] at h
      subst h
      obtain ⟨_, h2, h3, h4⟩ := on_read_error
        { s with read_ := s.read_.receive data,
                 outstanding := s.outstanding.erase AsyncOp.async_read_some } ec data.length hec
      rw [h2, h3, h4]
      refine ⟨?_, rfl, rfl⟩
      simp only
      rw [List.length_erase_of_mem hen.1]
      have := List.length_pos_of_mem hen.1
      omega
    · cases h
  | write data ec n =>
    simp only [Session.complete] at h
    split at h
    · rename_i hen
      simp only [Option.some.injEq] at h
      subst h
      have hec2 : ec ≠ error_code.success := hec
      obtain ⟨_, h2, h3, h4⟩ := on_write_spec
        { s with outstanding := s.outstanding.erase (AsyncOp.async_write data) } ec n
      rw [h2, h3, h4, if_neg hec2, if_neg hec2]
      refine ⟨?_, rfl, rfl⟩
      simp only [List.append_nil]
      rw [List.length_erase_of_mem hen]
      have := List.length_pos_of_mem hen
      omega
    · cases h

/-- C24 fails on the code: the write handler reports every error code, `eof` and
`operation_aborted` included. When the write of `data` is outstanding and completes
with the code `ec`, not `success` (a cancellation by `close()` gives
`operation_aborted`), the handler writes the line `Session write error` and starts no
operation. -/
theorem write_error_reported (s : Session) (data : Bytes) (ec : error_code) (n : Nat)
    (hec : ec ≠ error_code.success) (hw : AsyncOp.async_write data ∈ s.outstanding) :
    ∃ s1, s.complete (Completion.write data ec n) = some s1 ∧
      s1.log = s.log ++ [ErrLine.write_error ec] ∧
      s1.outstanding = s.outstanding.erase (AsyncOp.async_write data) := by
  simp only [Session.complete]
  rw [if_pos hw]
  obtain ⟨_, _, h3, h4⟩ := on_write_spec
    { s with outstanding := s.outstanding.erase (AsyncOp.async_write data) } ec n
  rw [if_neg hec] at h3 h4
  rw [List.append_nil] at h3
  exact ⟨_, rfl, h4, h3⟩

theorem write_error_reported_witness :
    error_code.operation_aborted ≠ error_code.success ∧
    AsyncOp.async_write ['h', 'i'] ∈ [AsyncOp.async_write ['h', 'i']] ∧
    ∃ s1, Session.complete
        { read_ := Buffer.default, cb_ := none, outstanding := [AsyncOp.async_write ['h', 'i']],
          log := [], calls := [] }
        (Completion.write ['h', 'i'] error_code.operation_aborted 0) = some s1 ∧
      s1.log = [] ++ [ErrLine.write_error error_code.operation_aborted] ∧
      s1.outstanding
        = [AsyncOp.async_write ['h', 'i']].erase (AsyncOp.async_write ['h', 'i']) :=
  ⟨by decide, by decide,
    write_error_reported
      { read_ := Buffer.default, cb_ := none, outstanding := [AsyncOp.async_write ['h', 'i']],
        log := [], calls := [] }
      ['h', 'i'] error_code.operation_aborted 0 (by decide) (by decide)⟩

/-- The read handler on the same codes: nothing is written for `eof` and for
`operation_aborted`, one line for another code. -/
theorem read_error_examples :
    (Session.on_read (Session.new none) error_code.eof 0).log = [] ∧
    (Session.on_read (Session.new none) error_code.operation_aborted 0).log = [] ∧
    (Session.on_read (Session.new none) (error_code.other 104) 0).log
      = [ErrLine.read_error (error_code.other 104)] ∧
    (Session.on_write (Session.new none) error_code.eof 0).log
      = [ErrLine.write_error error_code.eof] ∧
    (Session.on_write (Session.new none) error_code.operation_aborted 0).log
      = [ErrLine.write_error error_code.operation_aborted] := by
  refine ⟨rfl, rfl, rfl, rfl, rfl⟩

end net

namespace Tools

open ProtocolTools (Bytes SIZE_MOD max_size size_t_add find findFrom substr substr_to_end Outcome)

/-! ## `StringTools::split` -/

theorem findFrom_some_bounds (g : Bytes) :
    ∀ (t : Bytes) (i k : Nat), findFrom g t i = some k → i ≤ k ∧ k + g.length ≤ i + t.length := by
  intro t
  induction t with
  | nil =>
    intro i k h
    unfold findFrom at h
    split at h
    · rename_i hg
      cases h
      subst hg
      simp
    · cases h
  | cons c t ih =>
    intro i k h
    unfold findFrom at h
    split at h
    · rename_i hp
      cases h
      have := hp.length_le
      omega
    · have := ih (i + 1) k h
      simp only [List.length_cons]
      omega

theorem find_some_bounds {s g : Bytes} {pos k : Nat} (h : find s g pos = some k) :
    pos ≤ k ∧ k + g.length ≤ s.length := by
  unfold find at h
  split at h
  · rename_i hp
    have := findFrom_some_bounds g _ _ _ h
    rw [List.length_drop] at this
    omega
  · cases h

theorem splitLoop_pieces (str sep : Bytes) (hsep : sep ≠ []) (hlen : str.length ≤ max_size) :
    ∀ (fuel pos : Nat) (res : List Bytes), pos ≤ str.length → str.length - pos < fuel →
      (∀ p ∈ res, p ≠ []) →
      ∃ res1 last, splitLoop str sep fuel pos pos res = Outcome.done (res1 ++ [last]) ∧
        ∀ p ∈ res1, p ≠ [] := by
  have hsl : 0 < sep.length := List.length_pos.mpr hsep
  have hmax : max_size < SIZE_MOD := by decide
  intro fuel
  induction fuel with
  | zero => intro pos res _ h; omega
  | succ fuel ih =>
    intro pos res hpos hfuel hres
    unfold splitLoop
    cases hf : find str sep pos with
    | none =>
      simp only
      unfold substr_to_end
      rw [if_neg (by omega)]
      exact ⟨res, str.drop pos, rfl, hres⟩
    | some pos1 =>
      simp only
      obtain ⟨h1, h2⟩ := find_some_bounds hf
      have e1 : size_t_add pos1 sep.length = pos1 + sep.length := by
        unfold size_t_add
        exact Nat.mod_eq_of_lt (by omega)
      rw [e1]
      by_cases hne : pos1 = pos
      · rw [if_neg (by simpa using hne)]
        exact ih (pos1 + sep.length) res (by omega) (by omega) hres
      · rw [if_pos hne]
        unfold substr
        rw [if_neg (by omega)]
        simp only
        refine ih (pos1 + sep.length) _ (by omega) (by omega) ?_
        intro p hp
        rcases List.mem_append.mp hp with hp | hp
        · exact hres p hp
        · rw [List.mem_singleton] at hp
          subst hp
          have e2 : net.size_t_sub pos1 pos = pos1 - pos :=
            net.size_t_sub_eq h1 (by omega)
          rw [e2]
          intro hnil
          have := congrArg List.length hnil
          rw [List.length_take, List.length_drop] at this
          simp only [List.length_nil] at this
          omega

/-- What holds of `split` for every string and every separator that is not empty: the
call returns, the vector it returns is not empty, and every element but the last one
is a piece that is not empty. The last element is pushed without a test. -/
theorem split_pieces (str sep : Bytes) (hsep : sep ≠ []) (hlen : str.length ≤ max_size) :
    ∃ res last, StringTools.split str sep = Outcome.done (res ++ [last]) ∧
      ∀ p ∈ res, p ≠ [] := by
  unfold StringTools.split
  exact splitLoop_pieces str sep hsep hlen (str.length + 1) 0 [] (by omega) (by omega)
    (by intro p hp; cases hp)

/-- C25 fails on the code: for the string `"1,2,3,4,,"` of the comment in the source and
the separator `","` the vector returned ends with an empty string. -/
theorem split_trailing_empty :
    StringTools.split ['1', ',', '2', ',', '3', ',', '4', ',', ','] [','] =
      Outcome.done [['1'], ['2'], ['3'], ['4'], []] := by
  decide

/-- The empty string is split into one empty piece. -/
theorem split_empty : StringTools.split [] [','] = Outcome.done [[]] := by
  decide

/-! ## `RandomTools::generate_random_string` -/

/-- C26 fails on the code: for a requested length from 5 to 8 the string returned has
`length - 4` characters, whatever the type, the value drawn and the counter are. -/
theorem generate_random_string_short (length : Int) (type : RandomType) (rd number_base : Nat)
    (h1 : 4 < length) (h2 : length ≤ 8) :
    (((RandomTools.generate_random_string length type rd number_base).1.length : Nat) : Int)
      = length - 4 := by
  unfold RandomTools.generate_random_string MIN_LENTH
  simp only
  rw [if_pos h1, if_pos (by omega)]
  simp only [List.length_replicate]
  omega

theorem generate_random_string_short_witness :
    (4 : Int) < 8 ∧ (8 : Int) ≤ 8 ∧
    (((RandomTools.generate_random_string 8 RandomType.MIX 0 0).1.length : Nat) : Int) = 8 - 4 :=
  ⟨by decide, by decide,
    generate_random_string_short 8 RandomType.MIX 0 0 (by decide) (by decide)⟩

/-- The string returned for the length `8`: four characters. -/
theorem generate_random_string_eight :
    RandomTools.generate_random_string 8 RandomType.MIX 0 0 = (['a', 'a', 'a', 'a'], 0) := by
  decide

/-- A requested length of at most four characters is met. -/
theorem generate_random_string_small (length : Int) (type : RandomType) (rd number_base : Nat)
    (h1 : 0 ≤ length) (h2 : length ≤ 4) :
    (((RandomTools.generate_random_string length type rd number_base).1.length : Nat) : Int)
      = length := by
  unfold RandomTools.generate_random_string MIN_LENTH
  simp only
  rw [if_neg (show ¬ length > 4 by omega), if_pos h2]
  simp only [List.length_replicate]
  omega

/-- From the counter value `10000` on the number written after the random characters
has more than four digits: the string for the length `9` has ten characters. -/
theorem generate_random_string_counter :
    (RandomTools.generate_random_string 9 RandomType.NUM 0 10000).1.length = 10 := by
  decide

/-! ## The registry keys -/

theorem find_first_of_cons (c : Char) (t : Bytes) : find_first_of (c :: t) c = some 0 := by
  unfold find_first_of
  simp

theorem find_last_of_append (s d : Bytes) (c : Char) (hd : c ∉ d) :
    find_last_of (s ++ [c] ++ d) c = some s.length := by
  unfold find_last_of
  have e : (s ++ [c] ++ d).reverse.indexOf c = d.length := by
    rw [List.reverse_append, List.reverse_append, List.reverse_singleton,
      List.indexOf_append_of_not_mem (by simpa using hd)]
    simp
  rw [e]
  simp only [List.length_append, List.length_singleton]
  rw [if_pos (by omega)]
  congr 1
  omega

/-- C27. Registry key round trip: for every service name `s` and every node id `d`
without the character `'/'`, `parse_key` returns `s` on the key `"/" + s + "/" + d`
that `create_key` builds (the key is not longer than a string can be). -/
theorem parse_key_create_key (s d : Bytes) (hd : '/' ∉ d)
    (hlen : (ServiceProvider.create_key { service_name_ := s, node_id_ := d }).length
      ≤ max_size) :
    ServiceDiscovery.parse_key
      (ServiceProvider.create_key { service_name_ := s, node_id_ := d }) = some s := by
  unfold ServiceProvider.create_key at hlen ⊢
  simp only at hlen ⊢
  have hl : s.length + d.length + 2 ≤ max_size := by
    simp only [List.length_append, List.length_singleton] at hlen
    omega
  have hmax : max_size < SIZE_MOD := by decide
  unfold ServiceDiscovery.parse_key
  have e1 : find_first_of (['/'] ++ s ++ ['/'] ++ d) '/' = some 0 := by
    simp only [List.singleton_append, List.cons_append]
    exact find_first_of_cons '/' _
  have e2 : find_last_of (['/'] ++ s ++ ['/'] ++ d) '/' = some (s.length + 1) := by
    have := find_last_of_append (['/'] ++ s) d '/' hd
    rw [this]
    simp [Nat.add_comm]
  rw [e1, e2]
  simp only
  have e3 : size_t_add 0 1 = 1 := by decide
  have e4 : net.size_t_sub (net.size_t_sub (s.length + 1) 0) 1 = s.length := by
    rw [net.size_t_sub_eq (Nat.zero_le _) (by omega), Nat.sub_zero,
      net.size_t_sub_eq (by omega) (by omega)]
    omega
  rw [e3, e4]
  unfold substr
  rw [if_neg (by simp)]
  simp

theorem parse_key_create_key_witness :
    '/' ∉ ['x', '7'] ∧
    (ServiceProvider.create_key
      { service_name_ := ['A', 'd', 'd'], node_id_ := ['x', '7'] }).length ≤ max_size ∧
    ServiceDiscovery.parse_key
      (ServiceProvider.create_key { service_name_ := ['A', 'd', 'd'], node_id_ := ['x', '7'] })
      = some ['A', 'd', 'd'] :=
  ⟨by decide, by decide, parse_key_create_key ['A', 'd', 'd'] ['x', '7'] (by decide) (by decide)⟩

/-- The key of an empty service name, and of a service name with a `'/'`. -/
theorem parse_key_examples :
    ServiceDiscovery.parse_key ['/', '/', 'x', '7'] = some [] ∧
    ServiceDiscovery.parse_key ['/', 'a', '/', 'b', '/', 'x', '7'] = some ['a', '/', 'b'] := by
  decide

end Tools

namespace ProtocolTools

/-! ## Progress and termination of the decoding loops -/

theorem fcm_bounds {B : Bytes} {e : Nat} (hB : B.length ≤ max_size)
    (h : find_complete_message B = some (some e)) : 2 ≤ e ∧ e ≤ B.length := by
  obtain ⟨h2, hle, _⟩ := fcm_round hB h
  exact ⟨h2, hle⟩

theorem unpackLoop_terminates (D : Bytes) (hD : D.length ≤ max_size) :
    ∀ (fuel pos : Nat) (acc : List LVProtocol), pos ≤ D.length → D.length - pos < fuel →
      unpackLoop fuel D pos acc ≠ Outcome.timeout := by
  intro fuel
  induction fuel with
  | zero => intro pos acc _ h; omega
  | succ fuel ih =>
    intro pos acc hpos hfuel
    unfold unpackLoop
    by_cases hlt : pos < D.length
    · rw [if_pos hlt]
      unfold substr_to_end
      rw [if_neg (by omega)]
      simp only
      have hXlen : (D.drop pos).length ≤ max_size := by
        rw [List.length_drop]
        omega
      cases hf : find_complete_message (D.drop pos) with
      | none => simp
      | some r =>
        cases r with
        | none => simp
        | some e =>
          simp only
          obtain ⟨h2, hle⟩ := fcm_bounds hXlen hf
          rw [List.length_drop] at hle
          unfold substr
          rw [if_neg (by omega)]
          simp only
          rcases LVProtocol.default.from_string ((D.drop pos).take e) with _ | ⟨b, m1⟩
          · simp
          · cases b
            · exact ih (pos + e) acc (by omega) (by omega)
            · exact ih (pos + e) _ (by omega) (by omega)
    · rw [if_neg hlt]
      simp

theorem drainLoop_terminates :
    ∀ (fuel : Nat) (X : Bytes) (m : LVProtocol) (acc : List LVProtocol),
      X.length ≤ max_size → X.length < fuel →
      drainLoop fuel { buffer_ := X } m acc ≠ Outcome.timeout := by
  intro fuel
  induction fuel with
  | zero => intro X m acc _ h; omega
  | succ fuel ih =>
    intro X m acc hX hfuel
    unfold drainLoop
    cases hf : find_complete_message X with
    | none =>
      have : BufferHandler.get_next_message { buffer_ := X } m = none := by
        unfold BufferHandler.get_next_message
        simp only [hf]
      rw [this]
      simp
    | some r =>
      cases r with
      | none =>
        have hs : Stuck X := hf
        rw [get_next_message_stuck hs m]
        simp
      | some e =>
        obtain ⟨h2, hle⟩ := fcm_bounds hX hf
        rw [get_next_message_of_fcm m hf]
        rcases m.from_string (X.take e) with _ | ⟨b, m1⟩
        · simp
        · cases b
          · simp
          · simp only
            refine ih (X.drop e) m1 _ ?_ ?_
            · rw [List.length_drop]
              omega
            · rw [List.length_drop]
              omega

/-- C31. The decoding loops make progress and terminate. For every string `D` (not
longer than a string can be): when `find_complete_message` returns `true` on `D`, its
`message_end` is between `1` and `D.size()`; so in `unpack` the offset `pos` grows with
every round and does not pass the end of the data; every call of `get_next_message`
that returns `true` leaves fewer bytes in the handler; and neither `unpack` nor the
drain loop runs for more than `D.size() + 1` rounds: each ends with its result, or
with the exception that `find_complete_message` or `from_string` lets escape. -/
theorem decoding_terminates (D : Bytes) (hD : D.length ≤ max_size) :
    (∀ message_end, find_complete_message D = some (some message_end) →
      1 ≤ message_end ∧ message_end ≤ D.length) ∧
    (∀ pos message_end, pos < D.length →
      find_complete_message (D.drop pos) = some (some message_end) →
      pos < pos + message_end ∧ pos + message_end ≤ D.length) ∧
    (∀ (message f : LVProtocol) (h1 : BufferHandler),
      BufferHandler.get_next_message { buffer_ := D } message = some (true, h1, f) →
      h1.remaining_size < (BufferHandler.mk D).remaining_size) ∧
    (∀ messages, (∃ r, unpack D messages = Outcome.done r) ∨
      unpack D messages = Outcome.thrown) ∧
    ((∃ r, drain { buffer_ := D } = Outcome.done r) ∨
      drain { buffer_ := D } = Outcome.thrown) := by
  refine ⟨?_, ?_, ?_, ?_, ?_⟩
  · intro e he
    obtain ⟨h2, hle⟩ := fcm_bounds hD he
    exact ⟨by omega, hle⟩
  · intro pos e hpos he
    have hXlen : (D.drop pos).length ≤ max_size := by
      rw [List.length_drop]
      omega
    obtain ⟨h2, hle⟩ := fcm_bounds hXlen he
    rw [List.length_drop] at hle
    constructor <;> omega
  · intro m f h1 hr
    obtain ⟨e, hf, _, hh⟩ := (get_next_message_true_iff D m h1 f).mp hr
    obtain ⟨h2, hle⟩ := fcm_bounds hD hf
    rw [hh]
    unfold BufferHandler.remaining_size
    simp only [List.length_drop]
    omega
  · intro messages
    have ht := unpackLoop_terminates D hD (D.length + 1) 0 [] (Nat.zero_le _) (by omega)
    unfold unpack
    rcases hu : unpackLoop (D.length + 1) D 0 [] with r | _ | _
    · exact Or.inl ⟨_, rfl⟩
    · exact Or.inr rfl
    · exact absurd hu ht
  · have ht := drainLoop_terminates (D.length + 1) D LVProtocol.default [] hD (by omega)
    unfold drain
    simp only
    rcases hu : drainLoop (D.length + 1) { buffer_ := D } LVProtocol.default [] with r | _ | _
    · exact Or.inl ⟨_, rfl⟩
    · exact Or.inr rfl
    · exact absurd hu ht

theorem decoding_terminates_witness :
    (['1', '\r', '\n', 'J', 'S', '\r', '\n', 'x', '\r', '\n',
      '-', '6', '\r', '\n', 'P', 'B', '\r', '\n'] : Bytes).length ≤ max_size ∧
    unpack ['1', '\r', '\n', 'J', 'S', '\r', '\n', 'x', '\r', '\n',
      '-', '6', '\r', '\n', 'P', 'B', '\r', '\n'] []
      = Outcome.done (true, [LVProtocol.ctor ProtocolType.JSON ['x']]) ∧
    drain { buffer_ := ['1', '\r', '\n', 'J', 'S', '\r', '\n', 'x', '\r', '\n',
      '-', '6', '\r', '\n', 'P', 'B', '\r', '\n'] }
      = Outcome.done ([{ type := ProtocolType.JSON, length := 1, data := ['x'], gap := gap }],
          { buffer_ := ['-', '6', '\r', '\n', 'P', 'B', '\r', '\n'] }) ∧
    ((∀ message_end, find_complete_message ['1', '\r', '\n', 'J', 'S', '\r', '\n', 'x', '\r', '\n',
      '-', '6', '\r', '\n', 'P', 'B', '\r', '\n'] = some (some message_end) →
      1 ≤ message_end ∧ message_end ≤ (['1', '\r', '\n', 'J', 'S', '\r', '\n', 'x', '\r', '\n',
      '-', '6', '\r', '\n', 'P', 'B', '\r', '\n'] : Bytes).length) ∧
    (∀ pos message_end, pos < (['1', '\r', '\n', 'J', 'S', '\r', '\n', 'x', '\r', '\n',
      '-', '6', '\r', '\n', 'P', 'B', '\r', '\n'] : Bytes).length →
      find_complete_message (List.drop pos ['1', '\r', '\n', 'J', 'S', '\r', '\n', 'x', '\r', '\n',
      '-', '6', '\r', '\n', 'P', 'B', '\r', '\n']) = some (some message_end) →
      pos < pos + message_end ∧ pos + message_end ≤ (['1', '\r', '\n', 'J', 'S', '\r', '\n', 'x', '\r', '\n',
      '-', '6', '\r', '\n', 'P', 'B', '\r', '\n'] : Bytes).length) ∧
    (∀ (message f : LVProtocol) (h1 : BufferHandler),
      BufferHandler.get_next_message { buffer_ := ['1', '\r', '\n', 'J', 'S', '\r', '\n', 'x', '\r', '\n',
      '-', '6', '\r', '\n', 'P', 'B', '\r', '\n'] } message = some (true, h1, f) →
      h1.remaining_size < (BufferHandler.mk ['1', '\r', '\n', 'J', 'S', '\r', '\n', 'x', '\r', '\n',
      '-', '6', '\r', '\n', 'P', 'B', '\r', '\n']).remaining_size) ∧
    (∀ messages, (∃ r, unpack ['1', '\r', '\n', 'J', 'S', '\r', '\n', 'x', '\r', '\n',
      '-', '6', '\r', '\n', 'P', 'B', '\r', '\n'] messages = Outcome.done r) ∨
      unpack ['1', '\r', '\n', 'J', 'S', '\r', '\n', 'x', '\r', '\n',
      '-', '6', '\r', '\n', 'P', 'B', '\r', '\n'] messages = Outcome.thrown) ∧
    ((∃ r, drain { buffer_ := ['1', '\r', '\n', 'J', 'S', '\r', '\n', 'x', '\r', '\n',
      '-', '6', '\r', '\n', 'P', 'B', '\r', '\n'] } = Outcome.done r) ∨
      drain { buffer_ := ['1', '\r', '\n', 'J', 'S', '\r', '\n', 'x', '\r', '\n',
      '-', '6', '\r', '\n', 'P', 'B', '\r', '\n'] } = Outcome.thrown)) :=
  ⟨by decide, by decide, by decide, decoding_terminates ['1', '\r', '\n', 'J', 'S', '\r', '\n', 'x', '\r', '\n',
      '-', '6', '\r', '\n', 'P', 'B', '\r', '\n'] (by decide)⟩

/-- The loops end with an exception on the bytes `"-9\r\nPB\r\n"`: `find_complete_message`
lets the `std::out_of_range` of `substr` escape. -/
theorem decoding_thrown :
    unpack ['-', '9', '\r', '\n', 'P', 'B', '\r', '\n'] [] = Outcome.thrown ∧
    drain { buffer_ := ['-', '9', '\r', '\n', 'P', 'B', '\r', '\n'] } = Outcome.thrown := by
  decide

end ProtocolTools

namespace net

open ProtocolTools (Bytes SIZE_MOD max_size size_t_add ProtocolType LVProtocol JsonValue JsonLib
  BufferHandler Outcome)

/-! ## One output per request frame -/

theorem append_nil (b : Buffer) : b.append [] = b := by
  unfold Buffer.append
  simp

end net

namespace Tools

open ProtocolTools (Bytes SIZE_MOD max_size size_t_add find findFrom substr substr_to_end Outcome)

/-! ## The pieces of `split` and the separator -/

theorem findFrom_some_spec (g : Bytes) :
    ∀ (t : Bytes) (i k : Nat), findFrom g t i = some k →
      g <+: t.drop (k - i) ∧ ∀ j, j < k - i → ¬ g <+: t.drop j := by
  intro t
  induction t with
  | nil =>
    intro i k h
    unfold findFrom at h
    split at h
    · rename_i hg
      cases h
      subst hg
      simp
    · cases h
  | cons c t ih =>
    intro i k h
    unfold findFrom at h
    split at h
    · rename_i hp
      cases h
      simp only [Nat.sub_self, List.drop_zero]
      exact ⟨hp, fun j hj => absurd hj (Nat.not_lt_zero j)⟩
    · rename_i hp
      obtain ⟨h1, h2⟩ := ih (i + 1) k h
      have hk := (findFrom_some_bounds g t (i + 1) k h).1
      have e : k - i = (k - (i + 1)) + 1 := by omega
      rw [e]
      refine ⟨by simpa using h1, ?_⟩
      intro j hj
      cases j with
      | zero => simpa using hp
      | succ j =>
        simp only [List.drop_succ_cons]
        exact h2 j (by omega)

theorem findFrom_none_spec (g : Bytes) (hg : g ≠ []) :
    ∀ (t : Bytes) (i : Nat), findFrom g t i = none → ∀ j, ¬ g <+: t.drop j := by
  intro t
  induction t with
  | nil =>
    intro i _ j hp
    rw [List.drop_nil] at hp
    exact hg (List.prefix_nil.mp hp)
  | cons c t ih =>
    intro i h j
    unfold findFrom at h
    split at h
    · cases h
    · rename_i hp
      cases j with
      | zero => simpa using hp
      | succ j =>
        simp only [List.drop_succ_cons]
        exact ih (i + 1) h j

/-- The position that `find` returns is the first one, from `pos` on, at which the
separator begins. -/
theorem find_some_spec {s g : Bytes} {pos k : Nat} (h : find s g pos = some k) :
    g <+: s.drop k ∧ ∀ j, pos ≤ j → j < k → ¬ g <+: s.drop j := by
  have hb := (find_some_bounds h).1
  unfold find at h
  split at h
  · obtain ⟨h1, h2⟩ := findFrom_some_spec g _ _ _ h
    rw [List.drop_drop] at h1
    have e : pos + (k - pos) = k := by omega
    rw [e] at h1
    refine ⟨h1, ?_⟩
    intro j hj1 hj2
    have := h2 (j - pos) (by omega)
    rw [List.drop_drop] at this
    have e2 : pos + (j - pos) = j := by omega
    rw [e2] at this
    exact this
  · cases h

theorem find_none_spec {s g : Bytes} {pos : Nat} (hg : g ≠ []) (hp : pos ≤ s.length)
    (h : find s g pos = none) : ∀ j, pos ≤ j → ¬ g <+: s.drop j := by
  unfold find at h
  rw [if_pos hp] at h
  intro j hj
  have := findFrom_none_spec g hg _ _ h (j - pos)
  rw [List.drop_drop] at this
  have e2 : pos + (j - pos) = j := by omega
  rw [e2] at this
  exact this

theorem infix_iff_prefix_drop (g l : Bytes) : g <:+: l ↔ ∃ j, g <+: l.drop j := by
  constructor
  · rintro ⟨a, b, rfl⟩
    refine ⟨a.length, ?_⟩
    rw [List.append_assoc, List.drop_left]
    exact List.prefix_append g b
  · rintro ⟨j, hj⟩
    exact hj.isInfix.trans (List.drop_suffix j l).isInfix

theorem find_none_of_no_occurrence {s g : Bytes} (h : ¬ g <:+: s) (pos : Nat) :
    find s g pos = none := by
  cases hf : find s g pos with
  | none => rfl
  | some k =>
    exfalso
    exact h ((infix_iff_prefix_drop g s).mpr ⟨k, (find_some_spec hf).1⟩)

theorem piece_separator_free {str sep : Bytes} (hsep : sep ≠ []) {idx pos1 : Nat}
    (hfree : ∀ j, idx ≤ j → j < pos1 → ¬ sep <+: str.drop j) :
    ¬ sep <:+: (str.drop idx).take (pos1 - idx) := by
  intro hin
  obtain ⟨j, hj⟩ := (infix_iff_prefix_drop _ _).mp hin
  have hl := hj.length_le
  rw [List.length_drop, List.length_take, List.length_drop] at hl
  have hsl : 0 < sep.length := List.length_pos.mpr hsep
  have hj2 : sep <+: str.drop (idx + j) := by
    rw [← List.drop_drop]
    refine hj.trans ?_
    rw [List.drop_take]
    exact List.take_prefix _ _
  exact hfree (idx + j) (by omega) (by omega) hj2

theorem splitLoop_separator_free (str sep : Bytes) (hsep : sep ≠ [])
    (hlen : str.length ≤ max_size) :
    ∀ (fuel pos : Nat) (res : List Bytes), pos ≤ str.length → str.length - pos < fuel →
      (∀ p ∈ res, ¬ sep <:+: p) →
      ∃ res1, splitLoop str sep fuel pos pos res = Outcome.done res1 ∧ res1 ≠ [] ∧
        ∀ p ∈ res1, ¬ sep <:+: p := by
  have hsl : 0 < sep.length := List.length_pos.mpr hsep
  have hmax : max_size < SIZE_MOD := by decide
  intro fuel
  induction fuel with
  | zero => intro pos res _ h; omega
  | succ fuel ih =>
    intro pos res hpos hfuel hres
    unfold splitLoop
    cases hf : find str sep pos with
    | none =>
      simp only
      unfold substr_to_end
      rw [if_neg (by omega)]
      refine ⟨res ++ [str.drop pos], rfl, by simp, ?_⟩
      intro p hp
      rcases List.mem_append.mp hp with hp | hp
      · exact hres p hp
      · rw [List.mem_singleton] at hp
        subst hp
        intro hin
        obtain ⟨j, hj⟩ := (infix_iff_prefix_drop _ _).mp hin
        rw [List.drop_drop] at hj
        exact find_none_spec hsep hpos hf (pos + j) (by omega) hj
    | some pos1 =>
      simp only
      obtain ⟨h1, h2⟩ := find_some_bounds hf
      obtain ⟨_, hfree⟩ := find_some_spec hf
      have e1 : size_t_add pos1 sep.length = pos1 + sep.length := by
        unfold size_t_add
        exact Nat.mod_eq_of_lt (by omega)
      rw [e1]
      by_cases hne : pos1 = pos
      · rw [if_neg (by simpa using hne)]
        exact ih (pos1 + sep.length) res (by omega) (by omega) hres
      · rw [if_pos hne]
        unfold substr
        rw [if_neg (by omega)]
        simp only
        refine ih (pos1 + sep.length) _ (by omega) (by omega) ?_
        intro p hp
        rcases List.mem_append.mp hp with hp | hp
        · exact hres p hp
        · rw [List.mem_singleton] at hp
          subst hp
          rw [net.size_t_sub_eq h1 (by omega)]
          exact piece_separator_free hsep hfree

/-- C33. The pieces returned by `split` are free of the separator: for every string
`str` (not longer than a string can be) and every separator `sep` that is not empty,
`split(str, sep)` returns, the vector returned is not empty, no element of it has
`sep` as a substring, and when `str` does not have `sep` as a substring the vector is
exactly `{str}`. -/
theorem split_separator_free (str sep : Bytes) (hsep : sep ≠ []) (hlen : str.length ≤ max_size) :
    ∃ res, StringTools.split str sep = Outcome.done res ∧ res ≠ [] ∧
      (∀ p ∈ res, ¬ sep <:+: p) ∧ (¬ sep <:+: str → res = [str]) := by
  obtain ⟨res, h1, h2, h3⟩ := splitLoop_separator_free str sep hsep hlen (str.length + 1) 0 []
    (by omega) (by omega) (by intro p hp; cases hp)
  refine ⟨res, h1, h2, h3, ?_⟩
  intro hno
  unfold splitLoop at h1
  rw [find_none_of_no_occurrence hno 0] at h1
  unfold substr_to_end at h1
  rw [if_neg (by omega)] at h1
  simp only [List.drop_zero, List.nil_append, Outcome.done.injEq] at h1
  exact h1.symm

theorem split_separator_free_witness :
    ([',', ','] : Bytes) ≠ [] ∧
    ([',', ',', 'a', ',', 'b', ',', ',', ',', 'c'] : Bytes).length ≤ max_size ∧
    StringTools.split [',', ',', 'a', ',', 'b', ',', ',', ',', 'c'] [',', ',']
      = Outcome.done [['a', ',', 'b'], [',', 'c']] ∧
    ∃ res, StringTools.split [',', ',', 'a', ',', 'b', ',', ',', ',', 'c'] [',', ',']
        = Outcome.done res ∧ res ≠ [] ∧
      (∀ p ∈ res, ¬ [',', ','] <:+: p) ∧
      (¬ [',', ','] <:+: [',', ',', 'a', ',', 'b', ',', ',', ',', 'c'] →
        res = [[',', ',', 'a', ',', 'b', ',', ',', ',', 'c']]) :=
  ⟨by decide, by decide, by decide,
    split_separator_free [',', ',', 'a', ',', 'b', ',', ',', ',', 'c'] [',', ',']
      (by decide) (by decide)⟩

/-- A string without the separator is returned as the one piece, the empty string
included. -/
theorem split_no_separator :
    StringTools.split ['a', 'b', 'c'] [','] = Outcome.done [['a', 'b', 'c']] ∧
    StringTools.split [] [','] = Outcome.done [[]] := by
  decide

end Tools
